import Mathlib

/-!
Verification of the reactive core of the effective-state library
(reactive.ts: atom / effect / computed / action / untracked).

The engine is embedded as a deterministic, fuelled interpreter over an
explicit global state mirroring the module-level state of the source:
the pending-effect set, the write-depth counter, the `flushing` flag,
the reference-count table, and the current-effect tracking pointer.
Cells ("atoms") hold a value and an insertion-ordered list of listeners;
effects hold a body and a cleanup chain (a list of undo entries executed
front-first, mirroring the closure chain built by prepending).

User-supplied callbacks (effect bodies, derivations, action blocks,
untracked blocks) are reified as a small program syntax `Prog` / `Expr`;
a tracked read of a cell, a write, `untracked`, throwing, and calling a
disposer are the operations such callbacks perform in the source.
Manual subscription callbacks are modelled as observers that append the
received value to a global log.  Ghost instrumentation fields
(`log`, `runs`, `treads`) record observable behaviour (values delivered
to callbacks, which effect bodies ran, which tracked reads happened);
they never influence control flow.

Machine values are modelled by `V`; the write path compares values with
`objectIs`, mirroring `Object.is` (NaN equals NaN, +0 and -0 distinct,
freshly constructed objects never identical).
-/

deriving instance DecidableEq for Except

namespace EffectiveState

/-- JavaScript values used by the model: `undef` is the `undefined`
initial content of a computed's internal cell, `int n` an integer
number, `nan` the NaN number, `negZero` the number -0 (distinct from
`int 0` under `Object.is`), and `pair a b` a freshly constructed
object holding two values (two constructions are never identical). -/
inductive V where
  | undef
  | int (n : Int)
  | nan
  | negZero
  | pair (a b : V)
deriving DecidableEq, Repr

/-- `Object.is` on model values: NaN-aware identity, +0 and -0 distinct,
and a freshly constructed `pair` is never identical to another value
(reference identity of new objects). -/
def objectIs : V → V → Bool
  | .undef, .undef => true
  | .int a, .int b => a == b
  | .nan, .nan => true
  | .negZero, .negZero => true
  | _, _ => false

/-- JavaScript truthiness on model values (used by the conditional of the
user-program syntax). -/
def isFalsy : V → Bool
  | .undef => true
  | .nan => true
  | .negZero => true
  | .int n => n == 0
  | .pair _ _ => false

/-- Addition as used by user derivations (integer case; anything else is
NaN, as simplified JS arithmetic). -/
def vAdd : V → V → V
  | .int a, .int b => .int (a + b)
  | _, _ => .nan

/-- Multiplication as used by user derivations. -/
def vMul : V → V → V
  | .int a, .int b => .int (a * b)
  | _, _ => .nan

/-- A listener registered on a cell: either the tracking listener
`() => scheduleEffect(effectToRun)` created by a tracked read, or a
manual subscription wrapper `() => input(value)`. -/
inductive LAct where
  | eff (e : Nat)
  | sub
deriving DecidableEq, Repr

/-- A reactive cell: `value` plus the insertion-ordered listener set.
Each listener carries an identity (a globally fresh number standing for
the closure's identity) so it can be removed by reference. -/
structure CellSt where
  value : V
  listeners : List (Nat × LAct)
deriving DecidableEq, Repr

/-- Expressions evaluated inside user callbacks.  `readE c` is a tracked
read of cell `c` (the no-argument call form of an atom, also the read
path of the read-only wrapper of a computed); `untrackedE` wraps a
sub-expression in `untracked`. -/
inductive Expr where
  | lit (v : V)
  | readE (c : Nat)
  | addE (a b : Expr)
  | mulE (a b : Expr)
  | pairE (a b : Expr)
  | condE (c t e : Expr)
  | untrackedE (a : Expr)
deriving DecidableEq, Repr

/-- User callback bodies (effect bodies, action blocks): sequencing,
writes (`cell(value)` call form), observing a value (modelling a side
effect such as logging), throwing an exception, an `untracked` block,
and invoking an effect's disposer. -/
inductive Prog where
  | skip
  | seq (p q : Prog)
  | writeP (c : Nat) (e : Expr)
  | logP (e : Expr)
  | throwP (t : Nat)
  | untrackedP (p : Prog)
  | disposeP (e : Nat)
deriving DecidableEq, Repr

/-- One entry of an effect's cleanup chain.  `dereg c l e` undoes one
tracked-read registration: it deletes listener `l` from cell `c` and
decrements the reference count of effect `e`.  `child e` runs the
current cleanup of a nested child effect (the parent-chain closure);
the source does not clear the child's cleanup field there, and neither
does the model. -/
inductive CEntry where
  | dereg (c l e : Nat)
  | child (e : Nat)
deriving DecidableEq, Repr

/-- An effect node: its re-run body and its cleanup chain (head of the
list runs first, matching the source's prepend-composition of cleanup
closures). -/
structure EffSt where
  body : Prog
  cleanup : List CEntry
deriving DecidableEq, Repr

/-- Observable events: `subEv l v` records that the manual subscription
with listener identity `l` was invoked with value `v`; `effEv v`
records a value observed by an effect body (its logging side effect). -/
inductive LogEv where
  | subEv (l : Nat) (v : V)
  | effEv (v : V)
deriving DecidableEq, Repr

/-- The global state of the engine: the module-level variables of
reactive.ts plus the object graph (cells, effect nodes) and ghost
instrumentation (`log`, `runs`, `treads`). -/
structure St where
  cells : List (Nat × CellSt)
  effects : List (Nat × EffSt)
  pending : List Nat
  refCounts : List (Nat × Nat)
  currentEffect : Option Nat
  writeDepth : Nat
  flushing : Bool
  microtask : Bool
  nextListener : Nat
  nextEffect : Nat
  nextCell : Nat
  log : List LogEv
  runs : List Nat
  treads : List (Nat × Nat)
  disposals : List Nat
deriving DecidableEq, Repr

/-- Association-list lookup (JS Map.get). -/
def alGet? {α : Type} (l : List (Nat × α)) (k : Nat) : Option α :=
  (l.find? (fun p => p.1 == k)).map (fun p => p.2)

/-- Association-list update of an existing key, keeping insertion order
(JS Map.set on a present key). -/
def alSet {α : Type} (l : List (Nat × α)) (k : Nat) (v : α) : List (Nat × α) :=
  l.map (fun p => if p.1 = k then (k, v) else p)

/-- JS Map.set: update an existing key in place, otherwise append. -/
def alPut {α : Type} (l : List (Nat × α)) (k : Nat) (v : α) : List (Nat × α) :=
  if (l.find? (fun p => p.1 == k)).isSome then alSet l k v else l ++ [(k, v)]

/-- JS Map.delete. -/
def alErase {α : Type} (l : List (Nat × α)) (k : Nat) : List (Nat × α) :=
  l.filter (fun p => p.1 != k)

/-- Current value of cell `c` (missing cells read as `undef`; the
well-formedness predicate rules missing cells out). -/
def cellValue (st : St) (c : Nat) : V :=
  ((alGet? st.cells c).map (fun cs => cs.value)).getD (V.undef)

/-- Listener list of cell `c`. -/
def cellListeners (st : St) (c : Nat) : List (Nat × LAct) :=
  ((alGet? st.cells c).map (fun cs => cs.listeners)).getD []

/-- `effectRefCounts.get(e) || 0`. -/
def refGet (st : St) (e : Nat) : Nat :=
  (alGet? st.refCounts e).getD 0

/-- Update the cell stored at key `c` (no-op when the key is absent). -/
def updCell (st : St) (c : Nat) (f : CellSt → CellSt) : St :=
  { st with cells := st.cells.map (fun p => if p.1 = c then (p.1, f p.2) else p) }

/-- Update the effect node stored at key `e` (no-op when absent). -/
def updEff (st : St) (e : Nat) (f : EffSt → EffSt) : St :=
  { st with effects := st.effects.map (fun p => if p.1 = e then (p.1, f p.2) else p) }

/-- Replace the stored value of cell `c`. -/
def setCellValue (st : St) (c : Nat) (v : V) : St :=
  updCell st c (fun cs => { cs with value := v })

/-- Append a listener to cell `c` (JS Set.add on a fresh closure). -/
def addListener (st : St) (c l : Nat) (act : LAct) : St :=
  updCell st c (fun cs => { cs with listeners := cs.listeners ++ [(l, act)] })

/-- Delete listener `l` from cell `c` (JS Set.delete by closure
identity). -/
def removeListener (st : St) (c l : Nat) : St :=
  updCell st c (fun cs => { cs with listeners := cs.listeners.filter (fun q => q.1 != l) })

/-- Delete the subscription listener `l` from cell `c`: the unsubscribe
closure returned by the subscribe call form references the wrapper it
added, which is always a subscription listener, so only such a listener
can be deleted through it. -/
def removeSubListener (st : St) (c l : Nat) : St :=
  updCell st c (fun cs =>
    { cs with listeners := cs.listeners.filter (fun q =>
        match q.2 with
        | .sub => q.1 != l
        | .eff _ => true) })

/-- Increment the reference count of effect `e`:
`effectRefCounts.set(e, (get(e) || 0) + 1)`. -/
def refInc (st : St) (e : Nat) : St :=
  { st with refCounts := alPut st.refCounts e (refGet st e + 1) }

/-- Decrement the reference count of effect `e`, deleting the entry when
it reaches zero: `prev <= 1 ? delete : set(prev - 1)`. -/
def refDecDel (st : St) (e : Nat) : St :=
  if refGet st e ≤ 1 then { st with refCounts := alErase st.refCounts e }
  else { st with refCounts := alPut st.refCounts e (refGet st e - 1) }

/-- Cleanup chain of effect `e` (empty when the node is absent or its
chain is cleared). -/
def cleanupOf (st : St) (e : Nat) : List CEntry :=
  ((alGet? st.effects e).map (fun es => es.cleanup)).getD []

/-- Overwrite the cleanup chain of effect `e`. -/
def setCleanup (st : St) (e : Nat) (l : List CEntry) : St :=
  updEff st e (fun es => { es with cleanup := l })

/-- Prepend an undo entry to the cleanup chain of effect `e` (the source
composes the new undo action in front of the previous cleanup). -/
def pushCleanup (st : St) (e : Nat) (entry : CEntry) : St :=
  updEff st e (fun es => { es with cleanup := entry :: es.cleanup })

/-- The no-argument call form of a cell: return the current value and,
when the Dependency Tracker holds a current effect, register a fresh
tracking listener on the cell, increment the effect's reference count,
and prepend the matching undo entry to the effect's cleanup chain.
Ghost: records the tracked read in `treads`. -/
def trackedRead (c : Nat) (st : St) : V × St :=
  match alGet? st.cells c with
  | none => (.undef, st)
  | some cs =>
      match st.currentEffect with
      | none => (cs.value, st)
      | some e =>
          let l := st.nextListener
          let st1 := addListener st c l (.eff e)
          let st2 := refInc st1 e
          let st3 := pushCleanup st2 e (.dereg c l e)
          (cs.value, { st3 with nextListener := l + 1, treads := st3.treads ++ [(e, c)] })

/-- The subscribe call form of a cell: append a fresh subscription
listener; its identity is the unsubscribe token. -/
def subscribeCell (c : Nat) (st : St) : St :=
  let l := st.nextListener
  let st1 := addListener st c l .sub
  { st1 with nextListener := l + 1 }

/-- Evaluate a user expression; tracked reads mutate the state. -/
def evalExpr : Expr → St → V × St
  | .lit v, st => (v, st)
  | .readE c, st => trackedRead c st
  | .addE a b, st =>
      let (x, st1) := evalExpr a st
      let (y, st2) := evalExpr b st1
      (vAdd x y, st2)
  | .mulE a b, st =>
      let (x, st1) := evalExpr a st
      let (y, st2) := evalExpr b st1
      (vMul x y, st2)
  | .pairE a b, st =>
      let (x, st1) := evalExpr a st
      let (y, st2) := evalExpr b st1
      (.pair x y, st2)
  | .condE c t e, st =>
      let (x, st1) := evalExpr c st
      if isFalsy x then evalExpr e st1 else evalExpr t st1
  | .untrackedE a, st =>
      let prev := st.currentEffect
      let (x, st1) := evalExpr a { st with currentEffect := none }
      (x, { st1 with currentEffect := prev })

/-- Boolean membership test on the pending list (JS Set.has). -/
def memNat (e : Nat) : List Nat → Bool
  | [] => false
  | x :: xs => x == e || memNat e xs

/-- `scheduleEffect`: add to the pending set (idempotent); inside a write
transaction only enqueue; otherwise queue a microtask flush unless one
is already queued. -/
def scheduleEffect (e : Nat) (st : St) : St :=
  if memNat e st.pending then st
  else
    let st1 := { st with pending := st.pending ++ [e] }
    if st1.writeDepth > 0 then st1
    else if st1.flushing then st1
    else { st1 with flushing := true, microtask := true }

/-- One step of `notify`: invoke one snapshotted listener of cell `c`
if it is still present in the live set.  A tracking listener schedules
its effect; a subscription listener delivers the cell's current value
(recorded in the log). -/
def notifyStep (c : Nat) (st : St) (p : Nat × LAct) : St :=
  if (cellListeners st c).any (fun q => q.1 == p.1) then
    match p.2 with
    | .eff e => scheduleEffect e st
    | .sub => { st with log := st.log ++ [.subEv p.1 (cellValue st c)] }
  else st

/-- `notify`: iterate over a fixed snapshot of the listener set,
checking the live set before each invocation. -/
def notifySnap : List (Nat × LAct) → Nat → St → St
  | [], _, st => st
  | p :: rest, c, st => notifySnap rest c (notifyStep c st p)

mutual

/-- The write call form of a cell: dispatch on whether the cell exists
(`writeCell` / `writeC1`), then on the `Object.is` comparison
(`writeC2`): a write of an identical value is a complete no-op.
Otherwise open a write transaction, assign, notify a snapshot of the
listeners (`writeC3`), close the transaction and — in a finally block —
flush when the outermost write unwinds (`writeC4` dispatches on the
resulting depth).  Nothing inside the try block can throw in the model
(notify only schedules effects and logs subscription deliveries), so
the only exception a write propagates is one escaping the flush. -/
def writeCell : Nat → Nat → V → St → Option (Except Nat Unit × St)
  | 0, _, _, _ => none
  | f + 1, c, v, st => writeC1 f c v st (alGet? st.cells c)

/-- Write dispatch on cell existence. -/
def writeC1 : Nat → Nat → V → St → Option CellSt → Option (Except Nat Unit × St)
  | 0, _, _, _, _ => none
  | _ + 1, _, _, st, none => some (.ok (), st)
  | f + 1, c, v, st, some cs => writeC2 f c v st cs (objectIs cs.value v)

/-- Write dispatch on the `Object.is` comparison with the current
value. -/
def writeC2 : Nat → Nat → V → St → CellSt → Bool → Option (Except Nat Unit × St)
  | 0, _, _, _, _, _ => none
  | _ + 1, _, _, st, _, true => some (.ok (), st)
  | f + 1, c, v, st, cs, false =>
      writeC3 f (notifySnap cs.listeners c
        (setCellValue { st with writeDepth := st.writeDepth + 1 } c v))

/-- End of a write: close the transaction. -/
def writeC3 : Nat → St → Option (Except Nat Unit × St)
  | 0, _ => none
  | f + 1, st3 => writeC4 f (st3.writeDepth - 1) st3

/-- Flush when the outermost write unwinds (depth returned to zero). -/
def writeC4 : Nat → Nat → St → Option (Except Nat Unit × St)
  | 0, _, _ => none
  | f + 1, 0, st3 => flushPending f { st3 with writeDepth := 0 }
  | _ + 1, d + 1, st3 => some (.ok (), { st3 with writeDepth := d + 1 })

/-- `flushPending`: loop until the pending set is observed empty, each
round snapshotting and clearing it and running the snapshot; reset the
`flushing` flag on normal completion.  An exception from an effect body
propagates immediately (the flag is not reset, the remaining snapshot
is abandoned). -/
def flushPending : Nat → St → Option (Except Nat Unit × St)
  | 0, _ => none
  | f + 1, st => flushP f st.pending st

/-- One round of the flush loop, dispatching on the pending snapshot. -/
def flushP : Nat → List Nat → St → Option (Except Nat Unit × St)
  | 0, _, _ => none
  | _ + 1, [], st => some (.ok (), { st with flushing := false })
  | f + 1, e :: rest, st => flushLoop f (flushRun f (e :: rest) { st with pending := [] })

/-- After one snapshot ran, loop again (or propagate its exception). -/
def flushLoop : Nat → Option (Except Nat Unit × St) → Option (Except Nat Unit × St)
  | 0, _ => none
  | _ + 1, none => none
  | _ + 1, some (.error t, st1) => some (.error t, st1)
  | f + 1, some (.ok _, st1) => flushPending f st1

/-- Run one flush snapshot in order, skipping effects whose reference
count is zero (cleaned up during this same cycle). -/
def flushRun : Nat → List Nat → St → Option (Except Nat Unit × St)
  | 0, _, _ => none
  | _ + 1, [], st => some (.ok (), st)
  | f + 1, e :: rest, st => flushS f e rest st (refGet st e)

/-- Dispatch on the reference count of the next snapshotted effect. -/
def flushS : Nat → Nat → List Nat → St → Nat → Option (Except Nat Unit × St)
  | 0, _, _, _, _ => none
  | f + 1, _, rest, st, 0 => flushRun f rest st
  | f + 1, e, rest, st, _ + 1 => flushCont f rest (runEffect f e st)

/-- Continue the snapshot after one effect ran (or propagate). -/
def flushCont : Nat → List Nat → Option (Except Nat Unit × St) → Option (Except Nat Unit × St)
  | 0, _, _ => none
  | _ + 1, _, none => none
  | _ + 1, _, some (.error t, st1) => some (.error t, st1)
  | f + 1, rest, some (.ok _, st1) => flushRun f rest st1

/-- Run an effect node: invoke and clear its accumulated cleanup, point
the Dependency Tracker at the node, run the body, restore the tracker.
The source restores the tracker only on the normal path (no
try/finally around the body), so an exception leaves the tracker
pointing at this node; `effFin` reproduces that faithfully.
Ghost: records the run in `runs`. -/
def runEffect : Nat → Nat → St → Option (Except Nat Unit × St)
  | 0, _, _ => none
  | f + 1, e, st => effD f e st (alGet? st.effects e)

/-- Effect-run dispatch on node existence. -/
def effD : Nat → Nat → St → Option EffSt → Option (Except Nat Unit × St)
  | 0, _, _, _ => none
  | _ + 1, _, st, none => some (.ok (), st)
  | f + 1, e, st, some es => effC f e es.body (runCleanup f es.cleanup st)

/-- After the cleanup ran: clear the chain, point the tracker at the
node, run the body, and restore the tracker on the normal path only. -/
def effC : Nat → Nat → Prog → Option St → Option (Except Nat Unit × St)
  | 0, _, _, _ => none
  | _ + 1, _, _, none => none
  | f + 1, e, body, some st1 =>
      effFin f st1.currentEffect
        (runProg f body
          { setCleanup st1 e [] with currentEffect := some e, runs := st1.runs ++ [e] })

/-- Restore the tracker after the body — only when it returned
normally; an exception leaves the tracker pointing at the node (the
missing try/finally of the source). -/
def effFin : Nat → Option Nat → Option (Except Nat Unit × St) → Option (Except Nat Unit × St)
  | 0, _, _ => none
  | _ + 1, _, none => none
  | _ + 1, _, some (.error t, st4) => some (.error t, st4)
  | _ + 1, prev, some (.ok _, st4) => some (.ok (), { st4 with currentEffect := prev })

/-- Run a user callback body, dispatching on its first statement. -/
def runProg : Nat → Prog → St → Option (Except Nat Unit × St)
  | 0, _, _ => none
  | _ + 1, .skip, st => some (.ok (), st)
  | f + 1, .seq p q, st => seqK f q (runProg f p st)
  | f + 1, .writeP c e, st => progW f c (evalExpr e st)
  | _ + 1, .logP e, st => progL (evalExpr e st)
  | _ + 1, .throwP t, st => some (.error t, st)
  | f + 1, .untrackedP p, st =>
      restK f st.currentEffect (runProg f p { st with currentEffect := none })
  | f + 1, .disposeP e, st =>
      dispK f e { st with disposals := st.disposals ++ [e] }
        (alGet? st.effects e)

/-- Sequencing: run the second statement after the first succeeded. -/
def seqK : Nat → Prog → Option (Except Nat Unit × St) → Option (Except Nat Unit × St)
  | 0, _, _ => none
  | _ + 1, _, none => none
  | _ + 1, _, some (.error t, st1) => some (.error t, st1)
  | f + 1, q, some (.ok _, st1) => runProg f q st1

/-- Write the evaluated argument into the cell. -/
def progW : Nat → Nat → V × St → Option (Except Nat Unit × St)
  | 0, _, _ => none
  | f + 1, c, p => writeCell f c p.1 p.2

/-- Record the observed value (the body side effect). -/
def progL : V × St → Option (Except Nat Unit × St) :=
  fun p => some (.ok (), { p.2 with log := p.2.log ++ [.effEv p.1] })

/-- Restore the tracker after an `untracked` block — on both the normal
and the exceptional path (the source uses try/finally here). -/
def restK : Nat → Option Nat → Option (Except Nat Unit × St) → Option (Except Nat Unit × St)
  | 0, _, _ => none
  | _ + 1, _, none => none
  | _ + 1, prev, some (x, st1) => some (x, { st1 with currentEffect := prev })

/-- Invoke a disposer from inside a body: run the node cleanup and
clear it.  Ghost: the disposal is recorded in `disposals`. -/
def dispK : Nat → Nat → St → Option EffSt → Option (Except Nat Unit × St)
  | 0, _, _, _ => none
  | _ + 1, _, st, none => some (.ok (), st)
  | f + 1, e, st, some es => dispFin f e (runCleanup f es.cleanup st)

/-- Clear the disposed node cleanup chain. -/
def dispFin : Nat → Nat → Option St → Option (Except Nat Unit × St)
  | 0, _, _ => none
  | _ + 1, _, none => none
  | _ + 1, e, some st1 => some (.ok (), setCleanup st1 e [])

/-- Run a cleanup chain (front entry first).  A `dereg` entry deletes
the listener and decrements the reference count; a `child` entry runs
the child effect current cleanup chain without clearing it, exactly as
the parent-chain closure in the source. -/
def runCleanup : Nat → List CEntry → St → Option St
  | 0, _, _ => none
  | _ + 1, [], st => some st
  | f + 1, .dereg c l e :: rest, st =>
      runCleanup f rest (refDecDel (removeListener st c l) e)
  | f + 1, .child e :: rest, st => childK f rest (runCleanup f (cleanupOf st e) st)

/-- Continue a cleanup chain after a child cleanup ran. -/
def childK : Nat → List CEntry → Option St → Option St
  | 0, _, _ => none
  | _ + 1, _, none => none
  | f + 1, rest, some st1 => runCleanup f rest st1

end

/-- The read-only wrapper returned by `computed`: a function argument is
forwarded to the internal cell as a subscription; any other argument
(including none) performs the internal cell's read call form — there is
no write path through the wrapper. -/
inductive CArg where
  | fnA
  | valA (v : V)
deriving DecidableEq, Repr

/-- Invoke the read-only wrapper of a computed whose internal cell is
`c` with the given argument shape. -/
def computedCall (c : Nat) (arg : CArg) (st : St) : V × St :=
  match arg with
  | .fnA => (cellValue st c, subscribeCell c st)
  | .valA _ => trackedRead c st

/-- Top-level operations a user performs against the public surface. -/
inductive Op where
  | newCell (v : V)
  | newEffect (p : Prog)
  | newComputed (e : Expr)
  | writeOp (c : Nat) (v : V)
  | readOp (c : Nat)
  | subscribeOp (c : Nat)
  | unsubscribeOp (c : Nat) (l : Nat)
  | disposeOp (e : Nat)
  | actionOp (p : Prog)
  | untrackedOp (p : Prog)
  | computedCallValOp (c : Nat) (v : V)
  | computedCallFnOp (c : Nat)
  | tick
deriving DecidableEq, Repr

/-- Create an effect node for body `p`: allocate it, fold its cleanup
into the parent chain when created inside a running effect, then run
it immediately. -/
def newEffectAux (f : Nat) (p : Prog) (st : St) : Option (Except Nat Unit × St) :=
  let e := st.nextEffect
  let st1 := { st with effects := st.effects ++ [(e, ({ body := p, cleanup := [] } : EffSt))],
                       nextEffect := e + 1 }
  let st2 := match st1.currentEffect with
             | some parent => pushCleanup st1 parent (.child e)
             | none => st1
  runEffect f e st2

/-- Finally block of `action`: decrement the write depth and flush when
the transaction fully unwound (dispatch on the resulting depth). -/
def actFin : Nat → Nat → St → Option (Except Nat Unit × St)
  | f, d, st2 =>
      match d with
      | 0 => flushPending f { st2 with writeDepth := 0 }
      | n + 1 => some (.ok (), { st2 with writeDepth := n + 1 })

/-- Re-raise the action block exception after the finally-block flush —
unless that flush itself threw, in which case its exception replaces
the original one (JavaScript finally semantics). -/
def actErrK : Nat → Option (Except Nat Unit × St) → Option (Except Nat Unit × St)
  | _, none => none
  | t, some (.ok _, st4) => some (.error t, st4)
  | _, some (.error t2, st4) => some (.error t2, st4)

/-- Finally block of `action` on the exceptional path: the flush still
runs when the depth unwinds to zero, then the exception is
re-raised. -/
def actErr : Nat → Nat → Nat → St → Option (Except Nat Unit × St)
  | f, t, d, st2 =>
      match d with
      | 0 => actErrK t (flushPending f { st2 with writeDepth := 0 })
      | n + 1 => some (.error t, { st2 with writeDepth := n + 1 })

/-- Dispatch on the outcome of an action block. -/
def actK : Nat → Option (Except Nat Unit × St) → Option (Except Nat Unit × St)
  | _, none => none
  | f, some (.ok _, st2) => actFin f (st2.writeDepth - 1) st2
  | f, some (.error t, st2) => actErr f t (st2.writeDepth - 1) st2

/-- The deferred microtask flush: run `flushPending` when a microtask
was queued. -/
def tickK : Nat → St → Bool → Option (Except Nat Unit × St)
  | f, st, true => flushPending f { st with microtask := false }
  | _, st, false => some (.ok (), st)

/-- Execute one top-level operation.  `newComputed` composes the public
pieces exactly as the source does: a private cell initialised to
`undefined` plus a private effect whose body writes the derivation
result into it; the returned handle is the internal cell id.
`actionOp` increments the write depth, runs the block, and in a finally
block decrements and flushes at depth zero — an exception from the
block still triggers the flush, and an exception from that flush
replaces the original one. -/
def runOp : Nat → Op → St → Option (Except Nat Unit × St)
  | 0, _, _ => none
  | f + 1, op, st =>
      match op with
      | .newCell v =>
          some (.ok (), { st with
            cells := st.cells ++ [(st.nextCell, ({ value := v, listeners := [] } : CellSt))],
            nextCell := st.nextCell + 1 })
      | .newEffect p => newEffectAux f p st
      | .newComputed ex =>
          let c := st.nextCell
          let st1 := { st with
            cells := st.cells ++ [(c, ({ value := V.undef, listeners := [] } : CellSt))],
            nextCell := c + 1 }
          newEffectAux f (.writeP c ex) st1
      | .writeOp c v => writeCell f c v st
      | .readOp c => some (.ok (), (trackedRead c st).2)
      | .subscribeOp c => some (.ok (), subscribeCell c st)
      | .unsubscribeOp c l => some (.ok (), removeSubListener st c l)
      | .disposeOp e =>
          dispK f e { st with disposals := st.disposals ++ [e] } (alGet? st.effects e)
      | .actionOp p => actK f (runProg f p { st with writeDepth := st.writeDepth + 1 })
      | .untrackedOp p =>
          restK f st.currentEffect (runProg f p { st with currentEffect := none })
      | .computedCallValOp c v => some (.ok (), (computedCall c (.valA v) st).2)
      | .computedCallFnOp c => some (.ok (), (computedCall c .fnA st).2)
      | .tick => tickK f st st.microtask

mutual

/-- Continue a sequence of operations after one succeeded. -/
def opsK : Nat → List Op → Option (Except Nat Unit × St) → Option (Except Nat Unit × St)
  | 0, _, _ => none
  | _ + 1, _, none => none
  | _ + 1, _, some (.error t, st1) => some (.error t, st1)
  | f + 1, rest, some (.ok _, st1) => runOps f rest st1

/-- Execute a sequence of top-level operations, stopping at the first
escaping exception. -/
def runOps : Nat → List Op → St → Option (Except Nat Unit × St)
  | 0, _, _ => none
  | _ + 1, [], st => some (.ok (), st)
  | f + 1, op :: rest, st => opsK f rest (runOp f op st)

end

/-- The pristine module state at load time. -/
def initSt : St :=
  { cells := [], effects := [], pending := [], refCounts := [],
    currentEffect := none, writeDepth := 0, flushing := false, microtask := false,
    nextListener := 0, nextEffect := 0, nextCell := 0,
    log := [], runs := [], treads := [], disposals := [] }

/-! ## Observables and invariants -/

/-- Is this listener a tracking listener for effect `e`? -/
def isEffL (e : Nat) (q : Nat × LAct) : Bool :=
  match q.2 with
  | .eff x => x == e
  | .sub => false

/-- Number of tracking listeners for effect `e` on cell `c`. -/
def countLtot (st : St) (e c : Nat) : Nat :=
  ((cellListeners st c).filter (isEffL e)).length

/-- Total number of live tracking-listener registrations for effect
`e` across all cells. -/
def effTotal (st : St) (e : Nat) : Nat :=
  (st.cells.map (fun p => (p.2.listeners.filter (isEffL e)).length)).sum

/-- Number of distinct cells on which effect `e` holds at least one live
tracking listener. -/
def effCellsCount (st : St) (e : Nat) : Nat :=
  (st.cells.filter (fun p => p.2.listeners.any (isEffL e))).length

/-- All listener identities present on any cell. -/
def allLids (st : St) : List Nat :=
  (st.cells.map (fun p => p.2.listeners.map (fun q => q.1))).flatten

/-- Number of listeners with identity `l` and action `eff e` on cell
`c`. -/
def lCount (st : St) (e c l : Nat) : Nat :=
  ((cellListeners st c).filter (fun q => q.1 == l && isEffL e q)).length

/-- The (cell, listener-identity) pairs of the `dereg` entries for
effect `e` in a cleanup chain. -/
def pairsOfCleanup (cl : List CEntry) (e : Nat) : List (Nat × Nat) :=
  cl.filterMap (fun entry =>
    match entry with
    | .dereg c l e2 => if e2 = e then some (c, l) else none
    | .child _ => none)

/-- Number of deliveries to the manual subscription with identity `l`
recorded in a log. -/
def subEvCount (lg : List LogEv) (l : Nat) : Nat :=
  (lg.filter (fun ev =>
    match ev with
    | .subEv x _ => x == l
    | .effEv _ => false)).length

/-- Listener identity `l` occurs on no cell. -/
def absentL (st : St) (l : Nat) : Bool :=
  st.cells.all (fun p => p.2.listeners.all (fun q => q.1 != l))

/-- A fully disposed effect: zero reference count, no live tracking
listener anywhere, an empty cleanup chain, and an already-allocated
identity. -/
def deadE (st : St) (e : Nat) : Bool :=
  (refGet st e == 0) &&
    st.cells.all (fun p => p.2.listeners.all (fun q => !(isEffL e q))) &&
    (cleanupOf st e).isEmpty && decide (e < st.nextEffect)

/-- Structural invariants the engine maintains between the object
graph, the cleanup chains and the reference-count table: globally
unique and bounded listener identities, dense key ranges, tracking
listeners aiming only at allocated effects, cleanup chains holding
only deregistration entries of their own effect, per-(cell, identity)
agreement between an effect listed cleanup entries and its live
listeners, reference counts equal to live registration totals, and a
valid tracking pointer. -/
structure WF (st : St) : Prop where
  lidsNodup : (allLids st).Nodup
  lidsLt : ∀ l ∈ allLids st, l < st.nextListener
  cellKeys : st.cells.map (fun p => p.1) = List.range st.nextCell
  effKeys : st.effects.map (fun p => p.1) = List.range st.nextEffect
  effTargets : ∀ p ∈ st.cells, ∀ q ∈ p.2.listeners, ∀ e, q.2 = LAct.eff e → e < st.nextEffect
  cleanOwn : ∀ pe ∈ st.effects, ∀ entry ∈ pe.2.cleanup,
    ∃ c l, entry = CEntry.dereg c l pe.1 ∧ c < st.nextCell ∧ l < st.nextListener
  cleanSync : ∀ e c l, (pairsOfCleanup (cleanupOf st e) e).count (c, l) = lCount st e c l
  refSync : ∀ e, refGet st e = effTotal st e
  refKeys : ∀ p ∈ st.refCounts, p.1 < st.nextEffect
  curOK : ∀ e, st.currentEffect = some e → e < st.nextEffect

/-- Decidable check of `WF`, with the quantifiers restricted to the
allocated ranges (which suffices, by the key-range and bound fields). -/
def WFb (st : St) : Bool :=
  decide ((allLids st).Nodup) &&
  (allLids st).all (fun l => decide (l < st.nextListener)) &&
  decide (st.cells.map (fun p => p.1) = List.range st.nextCell) &&
  decide (st.effects.map (fun p => p.1) = List.range st.nextEffect) &&
  st.cells.all (fun p => p.2.listeners.all (fun q =>
    match q.2 with
    | .eff e => decide (e < st.nextEffect)
    | .sub => true)) &&
  st.effects.all (fun pe => pe.2.cleanup.all (fun entry =>
    match entry with
    | .dereg c l e2 => e2 == pe.1 && decide (c < st.nextCell) && decide (l < st.nextListener)
    | .child _ => false)) &&
  (List.range st.nextEffect).all (fun e => (List.range st.nextCell).all (fun c =>
    (List.range st.nextListener).all (fun l =>
      (pairsOfCleanup (cleanupOf st e) e).count (c, l) == lCount st e c l))) &&
  (List.range st.nextEffect).all (fun e => refGet st e == effTotal st e) &&
  st.refCounts.all (fun p => decide (p.1 < st.nextEffect)) &&
  (match st.currentEffect with
   | none => true
   | some e => decide (e < st.nextEffect))

/-! ## Concrete scenarios -/

/-- Diamond scenario: source cell 0 holding 1; computed b = a*2
(internal cell 1, private effect 0); computed c = a*3 (cell 2, effect
1); computed d = b+c (cell 3, effect 2); a user effect (3) observing
d. -/
def diamondSetup : List Op :=
  [ .newCell (.int 1),
    .newComputed (.mulE (.readE 0) (.lit (.int 2))),
    .newComputed (.mulE (.readE 0) (.lit (.int 3))),
    .newComputed (.addE (.readE 1) (.readE 2)),
    .newEffect (.logP (.readE 3)) ]

/-- The state after building the diamond: d = 5 observed once. -/
def diamondMid : St :=
  { cells := [(0, { value := .int 1, listeners := [(0, .eff 0), (1, .eff 1)] }),
              (1, { value := .int 2, listeners := [(2, .eff 2)] }),
              (2, { value := .int 3, listeners := [(3, .eff 2)] }),
              (3, { value := .int 5, listeners := [(4, .eff 3)] })],
    effects := [(0, { body := .writeP 1 (.mulE (.readE 0) (.lit (.int 2))),
                      cleanup := [.dereg 0 0 0] }),
                (1, { body := .writeP 2 (.mulE (.readE 0) (.lit (.int 3))),
                      cleanup := [.dereg 0 1 1] }),
                (2, { body := .writeP 3 (.addE (.readE 1) (.readE 2)),
                      cleanup := [.dereg 2 3 2, .dereg 1 2 2] }),
                (3, { body := .logP (.readE 3), cleanup := [.dereg 3 4 3] })],
    pending := [], refCounts := [(0, 1), (1, 1), (2, 2), (3, 1)],
    currentEffect := none, writeDepth := 0, flushing := false, microtask := false,
    nextListener := 5, nextEffect := 4, nextCell := 4,
    log := [.effEv (.int 5)], runs := [0, 1, 2, 3],
    treads := [(0, 0), (1, 0), (2, 1), (2, 2), (3, 3)], disposals := [] }

/-- The state after the single write a := 2 on the diamond: the
observer (effect 3) ran twice more, logging 7 then 10. -/
def diamondFinal : St :=
  { cells := [(0, { value := .int 2, listeners := [(5, .eff 0), (9, .eff 1)] }),
              (1, { value := .int 4, listeners := [(10, .eff 2)] }),
              (2, { value := .int 6, listeners := [(11, .eff 2)] }),
              (3, { value := .int 10, listeners := [(12, .eff 3)] })],
    effects := [(0, { body := .writeP 1 (.mulE (.readE 0) (.lit (.int 2))),
                      cleanup := [.dereg 0 5 0] }),
                (1, { body := .writeP 2 (.mulE (.readE 0) (.lit (.int 3))),
                      cleanup := [.dereg 0 9 1] }),
                (2, { body := .writeP 3 (.addE (.readE 1) (.readE 2)),
                      cleanup := [.dereg 2 11 2, .dereg 1 10 2] }),
                (3, { body := .logP (.readE 3), cleanup := [.dereg 3 12 3] })],
    pending := [], refCounts := [(0, 1), (1, 1), (2, 2), (3, 1)],
    currentEffect := none, writeDepth := 0, flushing := false, microtask := false,
    nextListener := 13, nextEffect := 4, nextCell := 4,
    log := [.effEv (.int 5), .effEv (.int 7), .effEv (.int 10)],
    runs := [0, 1, 2, 3, 0, 2, 3, 1, 2, 3],
    treads := [(0, 0), (1, 0), (2, 1), (2, 2), (3, 3), (0, 0), (2, 1), (2, 2), (3, 3),
               (1, 0), (2, 1), (2, 2), (3, 3)], disposals := [] }

/-- Two cells and an effect that reads cell 0 when it is truthy,
otherwise cell 1, and then writes 1 into cell 0 — a self-retriggering
run. -/
def branchSelfOps : List Op :=
  [ .newCell (.int 0),
    .newCell (.int 0),
    .newEffect (.seq
      (.logP (.condE (.readE 0) (.lit (.int 9)) (.readE 1)))
      (.writeP 0 (.lit (.int 1)))) ]

/-- Final state of the self-retriggering scenario: cell 1 was read in
tracked mode during the (outer) run, yet the effect ends the run with
a listener only on cell 0, because the nested re-entrant run cleanup
removed the registration made earlier in the outer run. -/
def branchSelfFinal : St :=
  { cells := [(0, { value := .int 1, listeners := [(2, .eff 0)] }),
              (1, { value := .int 0, listeners := [] })],
    effects := [(0, { body := .seq (.logP (.condE (.readE 0) (.lit (.int 9)) (.readE 1)))
                                   (.writeP 0 (.lit (.int 1))),
                      cleanup := [.dereg 0 2 0] })],
    pending := [], refCounts := [(0, 1)], currentEffect := none, writeDepth := 0,
    flushing := false, microtask := false, nextListener := 3, nextEffect := 1, nextCell := 2,
    log := [.effEv (.int 0), .effEv (.int 9)], runs := [0, 0],
    treads := [(0, 0), (0, 1), (0, 0)], disposals := [] }

/-- One cell and an effect whose body reads it twice. -/
def doubleReadOps : List Op :=
  [ .newCell (.int 5),
    .newEffect (.seq (.logP (.readE 0)) (.logP (.readE 0))) ]

/-- Final state of the double-read scenario: two listener registrations
on one cell, reference count 2. -/
def doubleReadFinal : St :=
  { cells := [(0, { value := .int 5, listeners := [(0, .eff 0), (1, .eff 0)] })],
    effects := [(0, { body := .seq (.logP (.readE 0)) (.logP (.readE 0)),
                      cleanup := [.dereg 0 1 0, .dereg 0 0 0] })],
    pending := [], refCounts := [(0, 2)], currentEffect := none, writeDepth := 0,
    flushing := false, microtask := false, nextListener := 2, nextEffect := 1, nextCell := 1,
    log := [.effEv (.int 5), .effEv (.int 5)], runs := [0],
    treads := [(0, 0), (0, 0)], disposals := [] }

/-- The state left behind by creating an effect whose body throws:
the exception escaped, but the Dependency Tracker pointer is stuck on
the dead node (`currentEffect = some 0` instead of the prior
`none`). -/
def effectThrowSt : St :=
  { cells := [], effects := [(0, { body := .throwP 7, cleanup := [] })],
    pending := [], refCounts := [], currentEffect := some 0, writeDepth := 0,
    flushing := false, microtask := false, nextListener := 0, nextEffect := 1, nextCell := 0,
    log := [], runs := [0], treads := [], disposals := [] }

/-- The observer body of the batching scenario: read both cells and
record the pair of values seen. -/
def c5Body : Prog := .logP (.pairE (.readE 0) (.readE 1))

/-- Quiescent state of the batching scenario: two cells currently
holding x and y (initially x0 and y0), and one effect that read both
in its last run and logged the pair (x0, y0). -/
def c5Quiet (x0 y0 x y : V) : St :=
  { cells := [(0, { value := x, listeners := [(0, .eff 0)] }),
              (1, { value := y, listeners := [(1, .eff 0)] })],
    effects := [(0, { body := c5Body, cleanup := [.dereg 1 1 0, .dereg 0 0 0] })],
    pending := [], refCounts := [(0, 2)], currentEffect := none, writeDepth := 0,
    flushing := false, microtask := false, nextListener := 2, nextEffect := 1, nextCell := 2,
    log := [.effEv (.pair x0 y0)], runs := [0], treads := [(0, 0), (0, 1)], disposals := [] }

/-- The canonical post-setup state of the batching scenario. -/
def c5S0 (x0 y0 : V) : St := c5Quiet x0 y0 x0 y0

/-- Mid-action state: inside the open transaction (write depth 1),
cell values x and y, the observer pending iff some write changed a
value so far; no effect has run, nothing further was observed. -/
def c5Mid (x0 y0 x y : V) (pb : Bool) : St :=
  { c5Quiet x0 y0 x y with writeDepth := 1, pending := if pb then [0] else [] }

/-- Post-action state when at least one write changed a value: the
observer re-ran exactly once, reading the final values x and y. -/
def c5S1 (x0 y0 x y : V) : St :=
  { cells := [(0, { value := x, listeners := [(2, .eff 0)] }),
              (1, { value := y, listeners := [(3, .eff 0)] })],
    effects := [(0, { body := c5Body, cleanup := [.dereg 1 3 0, .dereg 0 2 0] })],
    pending := [], refCounts := [(0, 2)], currentEffect := none, writeDepth := 0,
    flushing := false, microtask := false, nextListener := 4, nextEffect := 1, nextCell := 2,
    log := [.effEv (.pair x0 y0), .effEv (.pair x y)], runs := [0, 0],
    treads := [(0, 0), (0, 1), (0, 0), (0, 1)], disposals := [] }

/-- A batch of writes as an action body: the selector false targets
cell 0, true targets cell 1. -/
def writesProg : List (Bool × V) → Prog
  | [] => .skip
  | (b, v) :: rest => .seq (.writeP (if b then 1 else 0) (.lit v)) (writesProg rest)

/-- Net effect of one write of the batch on (value of cell 0, value of
cell 1, observer pending): a same-value write changes nothing, an
effective write updates the value and schedules the observer. -/
def c5Step : V × V × Bool → Bool × V → V × V × Bool
  | (x, y, pb), (false, v) => if objectIs x v then (x, y, pb) else (v, y, true)
  | (x, y, pb), (true, v) => if objectIs y v then (x, y, pb) else (x, v, true)

/-- Net effect of the whole batch. -/
def c5Fold (x y : V) (pb : Bool) (ws : List (Bool × V)) : V × V × Bool :=
  ws.foldl c5Step (x, y, pb)

/-- A state with a single cell holding NaN (for the same-value write
rule). -/
def nanCellSt : St :=
  { cells := [(0, { value := .nan, listeners := [] })],
    effects := [], pending := [], refCounts := [], currentEffect := none, writeDepth := 0,
    flushing := false, microtask := false, nextListener := 0, nextEffect := 0, nextCell := 1,
    log := [], runs := [], treads := [], disposals := [] }


/-! ## Dead-token invariants and the abstract preservation interface -/

/-- A fully disposed effect, as a proposition: zero reference count, no
live tracking listener anywhere, an empty cleanup chain, an allocated
identity. -/
def DeadSt (e : Nat) (st : St) : Prop :=
  refGet st e = 0 ∧ (∀ p ∈ st.cells, ∀ q ∈ p.2.listeners, isEffL e q = false) ∧
    cleanupOf st e = [] ∧ e < st.nextEffect

/-- A removed listener identity, as a proposition: it occurs on no cell
and was already allocated. -/
def GoneL (l : Nat) (st : St) : Prop :=
  (∀ p ∈ st.cells, ∀ q ∈ p.2.listeners, q.1 ≠ l) ∧ l < st.nextListener

/-- An abstract preservation interface: a state predicate `I`, a ghost
measure `M` and a predicate `OKe` on effect identities such that every
primitive state transformation of the engine preserves `I` and `M`.
Any instance is propagated through the whole fueled interpreter by the
master induction. -/
structure Pres (I : St → Prop) (M : St → Nat) (OKe : Nat → Prop) : Prop where
  evalE : ∀ ex st, I st → I (evalExpr ex st).2 ∧ M (evalExpr ex st).2 = M st
  notif : ∀ snap c st, I st →
    I (notifySnap snap c st) ∧ M (notifySnap snap c st) = M st
  ctrl : ∀ st p w fl mt, I st →
    I { st with pending := p, writeDepth := w, flushing := fl, microtask := mt } ∧
      M { st with pending := p, writeDepth := w, flushing := fl, microtask := mt } = M st
  setV : ∀ st c v, I st → I (setCellValue st c v) ∧ M (setCellValue st c v) = M st
  subsc : ∀ c st, I st → I (subscribeCell c st) ∧ M (subscribeCell c st) = M st
  unsub : ∀ st c l2, I st →
    I (removeSubListener st c l2) ∧ M (removeSubListener st c l2) = M st
  dereg : ∀ st c l2 e3, I st →
    I (refDecDel (removeListener st c l2) e3) ∧
      M (refDecDel (removeListener st c l2) e3) = M st
  setCl : ∀ st e3, I st → I (setCleanup st e3 []) ∧ M (setCleanup st e3 []) = M st
  pushCh : ∀ st e3 en, I st → OKe e3 →
    I (pushCleanup st e3 (.child en)) ∧ M (pushCleanup st e3 (.child en)) = M st
  newc : ∀ st v, I st →
    I { st with
          cells := st.cells ++ [(st.nextCell, ({ value := v, listeners := [] } : CellSt))],
          nextCell := st.nextCell + 1 } ∧
      M { st with
            cells := st.cells ++ [(st.nextCell, ({ value := v, listeners := [] } : CellSt))],
            nextCell := st.nextCell + 1 } = M st
  newe : ∀ st p, I st →
    I { st with
          effects := st.effects ++ [(st.nextEffect, ({ body := p, cleanup := [] } : EffSt))],
          nextEffect := st.nextEffect + 1 } ∧
      M { st with
            effects := st.effects ++ [(st.nextEffect, ({ body := p, cleanup := [] } : EffSt))],
            nextEffect := st.nextEffect + 1 } = M st
  curI : ∀ st o, I st → (∀ x, o = some x → OKe x) →
    I { st with currentEffect := o } ∧ M { st with currentEffect := o } = M st
  okRef : ∀ st e2, I st → refGet st e2 ≠ 0 → OKe e2
  okFresh : ∀ st e2, I st → st.nextEffect ≤ e2 → OKe e2
  okCur : ∀ st x, I st → st.currentEffect = some x → OKe x
  mRuns : ∀ st e2, I st → OKe e2 →
    I { st with runs := st.runs ++ [e2] } ∧ M { st with runs := st.runs ++ [e2] } = M st
  mEffEv : ∀ st v, I st →
    I { st with log := st.log ++ [LogEv.effEv v] } ∧
      M { st with log := st.log ++ [LogEv.effEv v] } = M st
  mDisp : ∀ st e3, I st →
    I { st with disposals := st.disposals ++ [e3] } ∧
      M { st with disposals := st.disposals ++ [e3] } = M st

/-- The statement of the master induction at one fuel level: every
fueled interpreter function preserves `I` and `M`. -/
structure BigP (I : St → Prop) (M : St → Nat) (OKe : Nat → Prop) (f : Nat) : Prop where
  wc : ∀ c v st r st', writeCell f c v st = some (r, st') → I st → I st' ∧ M st' = M st
  wc1 : ∀ c v st ocs r st', writeC1 f c v st ocs = some (r, st') → I st → I st' ∧ M st' = M st
  wc2 : ∀ c v st cs b r st', writeC2 f c v st cs b = some (r, st') → I st → I st' ∧ M st' = M st
  wc3 : ∀ st r st', writeC3 f st = some (r, st') → I st → I st' ∧ M st' = M st
  wc4 : ∀ d st r st', writeC4 f d st = some (r, st') → I st → I st' ∧ M st' = M st
  fp : ∀ st r st', flushPending f st = some (r, st') → I st → I st' ∧ M st' = M st
  fpp : ∀ pend st r st', flushP f pend st = some (r, st') → I st → I st' ∧ M st' = M st
  fl : ∀ x st1 r st', flushLoop f (some (x, st1)) = some (r, st') → I st1 → I st' ∧ M st' = M st1
  fr : ∀ snap st r st', flushRun f snap st = some (r, st') → I st → I st' ∧ M st' = M st
  fs : ∀ e2 rest st n r st', flushS f e2 rest st n = some (r, st') → I st →
    refGet st e2 = n → I st' ∧ M st' = M st
  fc : ∀ rest x st1 r st', flushCont f rest (some (x, st1)) = some (r, st') → I st1 →
    I st' ∧ M st' = M st1
  re : ∀ e2 st r st', runEffect f e2 st = some (r, st') → I st → OKe e2 → I st' ∧ M st' = M st
  red : ∀ e2 st oes r st', effD f e2 st oes = some (r, st') → I st → OKe e2 →
    I st' ∧ M st' = M st
  rec2 : ∀ e2 body st1 r st', effC f e2 body (some st1) = some (r, st') → I st1 → OKe e2 →
    I st' ∧ M st' = M st1
  ref2 : ∀ prev x st4 r st', effFin f prev (some (x, st4)) = some (r, st') → I st4 →
    (∀ y, prev = some y → OKe y) → I st' ∧ M st' = M st4
  rp : ∀ p st r st', runProg f p st = some (r, st') → I st → I st' ∧ M st' = M st
  sk : ∀ q x st1 r st', seqK f q (some (x, st1)) = some (r, st') → I st1 → I st' ∧ M st' = M st1
  pw : ∀ c vst r st', progW f c vst = some (r, st') → I vst.2 → I st' ∧ M st' = M vst.2
  rk : ∀ prev x st1 r st', restK f prev (some (x, st1)) = some (r, st') → I st1 →
    (∀ y, prev = some y → OKe y) → I st' ∧ M st' = M st1
  dk : ∀ e3 st oes r st', dispK f e3 st oes = some (r, st') → I st → I st' ∧ M st' = M st
  df : ∀ e3 st1 r st', dispFin f e3 (some st1) = some (r, st') → I st1 → I st' ∧ M st' = M st1
  rc : ∀ ch st st', runCleanup f ch st = some st' → I st → I st' ∧ M st' = M st
  ck : ∀ rest st1 st', childK f rest (some st1) = some st' → I st1 → I st' ∧ M st' = M st1
  ro : ∀ op st r st', runOp f op st = some (r, st') → I st → I st' ∧ M st' = M st
  ok2 : ∀ rest x st1 r st', opsK f rest (some (x, st1)) = some (r, st') → I st1 →
    I st' ∧ M st' = M st1
  ros : ∀ ops st r st', runOps f ops st = some (r, st') → I st → I st' ∧ M st' = M st



/-! ## C4 and C10 scenario definitions -/

/-- Build a cell (value 5) and an effect reading it, then — inside one
action — write 6 (scheduling the effect) and dispose the effect while
it is still pending; the action-closing flush must skip it. -/
def c4Ops : List Op :=
  [.newCell (.int 5), .newEffect (.logP (.readE 0)),
   .actionOp (.seq (.writeP 0 (.lit (.int 6))) (.disposeP 0))]

/-- After the disposal: another write to the cell the effect had read,
and a microtask tick. -/
def c4More : List Op := [.writeOp 0 (.int 7), .tick]

/-- The state after `c4Ops`: the effect ran exactly once (at creation),
is fully dead, and the pending set has been drained without re-running
it. -/
def c4St : St :=
  { cells := [(0, ({ value := .int 6, listeners := [] } : CellSt))],
    effects := [(0, ({ body := .logP (.readE 0), cleanup := [] } : EffSt))],
    pending := [], refCounts := [], currentEffect := none, writeDepth := 0,
    flushing := false, microtask := false, nextListener := 1, nextEffect := 1,
    nextCell := 1, log := [.effEv (.int 5)], runs := [0], treads := [(0, 0)],
    disposals := [0] }

/-- The state after `c4More` from `c4St`: only the stored value moved. -/
def c4St2 : St :=
  { cells := [(0, ({ value := .int 7, listeners := [] } : CellSt))],
    effects := [(0, ({ body := .logP (.readE 0), cleanup := [] } : EffSt))],
    pending := [], refCounts := [], currentEffect := none, writeDepth := 0,
    flushing := false, microtask := false, nextListener := 1, nextEffect := 1,
    nextCell := 1, log := [.effEv (.int 5)], runs := [0], treads := [(0, 0)],
    disposals := [0] }

/-- Build a cell, subscribe to it (listener 0), make one effective write
(delivering value 2 to the subscriber), then unsubscribe. -/
def c10Ops : List Op :=
  [.newCell (.int 1), .subscribeOp 0, .writeOp 0 (.int 2), .unsubscribeOp 0 0]

/-- After the unsubscribe: another effective write. -/
def c10More : List Op := [.writeOp 0 (.int 3)]

/-- The state after `c10Ops`: one delivery recorded, listener removed. -/
def c10St : St :=
  { cells := [(0, ({ value := .int 2, listeners := [] } : CellSt))],
    effects := [], pending := [], refCounts := [], currentEffect := none,
    writeDepth := 0, flushing := false, microtask := false, nextListener := 1,
    nextEffect := 0, nextCell := 1, log := [.subEv 0 (.int 2)], runs := [],
    treads := [], disposals := [] }

/-- The state after `c10More` from `c10St`: the value moved, no new
delivery. -/
def c10St2 : St :=
  { cells := [(0, ({ value := .int 3, listeners := [] } : CellSt))],
    effects := [], pending := [], refCounts := [], currentEffect := none,
    writeDepth := 0, flushing := false, microtask := false, nextListener := 1,
    nextEffect := 0, nextCell := 1, log := [.subEv 0 (.int 2)], runs := [],
    treads := [], disposals := [] }



/-- The transfer relation of one interpreter step: the ghost traces only
grow, effect identities only advance, and — for every effect that this
step neither ran nor disposed — the net change in live registrations
equals the net tracked reads recorded for it. -/
def Tr (st st' : St) : Prop :=
  (∃ d, st'.runs = st.runs ++ d) ∧ (∃ d, st'.disposals = st.disposals ++ d) ∧
  (∃ d, st'.treads = st.treads ++ d) ∧ st.nextEffect ≤ st'.nextEffect ∧
  ∀ e c, st'.runs.count e = st.runs.count e → st'.disposals.count e = st.disposals.count e →
    countLtot st' e c + st.treads.count (e, c) = countLtot st e c + st'.treads.count (e, c)

/-- The invariant holding while the snapshot `rest` of effect `e2`'s own
cleanup chain is being executed (the stored chain of `e2` is stale
during this phase; everything else is as in `WF`). -/
structure WFc (st : St) (e2 : Nat) (rest : List CEntry) : Prop where
  lidsNodup : (allLids st).Nodup
  lidsLt : ∀ l ∈ allLids st, l < st.nextListener
  cellKeys : st.cells.map (fun p => p.1) = List.range st.nextCell
  effKeys : st.effects.map (fun p => p.1) = List.range st.nextEffect
  effTargets : ∀ p ∈ st.cells, ∀ q ∈ p.2.listeners, ∀ e, q.2 = LAct.eff e → e < st.nextEffect
  cleanOwn : ∀ pe ∈ st.effects, ∀ entry ∈ pe.2.cleanup,
    ∃ c l, entry = CEntry.dereg c l pe.1 ∧ c < st.nextCell ∧ l < st.nextListener
  restOwn : ∀ entry ∈ rest, ∃ c l, entry = CEntry.dereg c l e2
  cleanSync : ∀ e c l,
    (pairsOfCleanup (if e = e2 then rest else cleanupOf st e) e).count (c, l) = lCount st e c l
  refSync : ∀ e, refGet st e = effTotal st e
  refKeys : ∀ p ∈ st.refCounts, p.1 < st.nextEffect
  curOK : ∀ e, st.currentEffect = some e → e < st.nextEffect

end EffectiveState

namespace EffectiveState

/-! ## Part B toolkit: counting listeners under the primitive updates -/

def rmF (l : Nat) : CellSt → CellSt :=
  fun cs => { cs with listeners := cs.listeners.filter (fun q => q.1 != l) }

def frameOf (st : St) :
    List (Nat × EffSt) × List Nat × Nat × Bool × Bool × Nat × Nat × Nat × Option Nat ×
      List LogEv × List Nat × List (Nat × Nat) × List Nat :=
  (st.effects, st.pending, st.writeDepth, st.flushing, st.microtask, st.nextListener,
    st.nextEffect, st.nextCell, st.currentEffect, st.log, st.runs, st.treads, st.disposals)

/-- Combined conclusion: the result state is well-formed, is reachable
from the input by the transfer relation (ghost-append plus guarded
listener accounting), and on the normal path the Dependency Tracker
pointer is restored. -/
def WT (st st' : St) (r : Except Nat Unit) : Prop :=
  WF st' ∧ Tr st st' ∧ ∀ u, r = Except.ok u → st'.currentEffect = st.currentEffect

structure WBig (f : Nat) : Prop where
  wc : ∀ c v st r st', writeCell f c v st = some (r, st') → WF st → WT st st' r
  wc1 : ∀ c v st ocs r st', writeC1 f c v st ocs = some (r, st') → WF st → WT st st' r
  wc2 : ∀ c v st cs b r st', writeC2 f c v st cs b = some (r, st') → WF st → WT st st' r
  wc3 : ∀ st r st', writeC3 f st = some (r, st') → WF st → WT st st' r
  wc4 : ∀ d st r st', writeC4 f d st = some (r, st') → WF st → WT st st' r
  fp : ∀ st r st', flushPending f st = some (r, st') → WF st → WT st st' r
  fpp : ∀ pend st r st', flushP f pend st = some (r, st') → WF st → WT st st' r
  fl : ∀ x st1 r st', flushLoop f (some (x, st1)) = some (r, st') → WF st1 →
    WT st1 st' r ∧ (∀ u, r = Except.ok u → ∃ v, x = Except.ok v)
  fr : ∀ snap st r st', flushRun f snap st = some (r, st') → WF st → WT st st' r
  fs : ∀ e2 rest st n r st', flushS f e2 rest st n = some (r, st') → WF st → WT st st' r
  fc : ∀ rest x st1 r st', flushCont f rest (some (x, st1)) = some (r, st') → WF st1 →
    WT st1 st' r ∧ (∀ u, r = Except.ok u → ∃ v, x = Except.ok v)
  re : ∀ e2 st r st', runEffect f e2 st = some (r, st') → WF st → WT st st' r
  red : ∀ e2 st oes r st', effD f e2 st oes = some (r, st') → WF st →
    oes = alGet? st.effects e2 → WT st st' r
  rec2 : ∀ e2 body st1 r st', effC f e2 body (some st1) = some (r, st') →
    WFc st1 e2 [] → e2 < st1.nextEffect →
    WF st' ∧ Tr st1 st' ∧ (∀ u, r = Except.ok u → st'.currentEffect = st1.currentEffect) ∧
      ∃ d, st'.runs = st1.runs ++ e2 :: d
  ref2 : ∀ prev x st4 r st', effFin f prev (some (x, st4)) = some (r, st') → WF st4 →
    (∀ y, prev = some y → y < st4.nextEffect) →
    WF st' ∧ Tr st4 st' ∧ ∀ u, r = Except.ok u → st'.currentEffect = prev
  rp : ∀ p st r st', runProg f p st = some (r, st') → WF st → WT st st' r
  sk : ∀ q x st1 r st', seqK f q (some (x, st1)) = some (r, st') → WF st1 →
    WT st1 st' r ∧ (∀ u, r = Except.ok u → ∃ v, x = Except.ok v)
  pw : ∀ c vst r st', progW f c vst = some (r, st') → WF vst.2 → WT vst.2 st' r
  rk : ∀ prev x st1 r st', restK f prev (some (x, st1)) = some (r, st') → WF st1 →
    (∀ y, prev = some y → y < st1.nextEffect) →
    WF st' ∧ Tr st1 st' ∧ ∀ u, r = Except.ok u → st'.currentEffect = prev
  ro : ∀ op st r st', runOp f op st = some (r, st') → WF st → st.currentEffect = none →
    WT st st' r
  ok2 : ∀ rest x st1 r st', opsK f rest (some (x, st1)) = some (r, st') → WF st1 →
    (∀ v, x = Except.ok v → st1.currentEffect = none) →
    WT st1 st' r ∧ (∀ u, r = Except.ok u → ∃ v, x = Except.ok v)
  ros : ∀ ops st r st', runOps f ops st = some (r, st') → WF st → st.currentEffect = none →
    WT st st' r

/-- C7 run scenario: effect 0 holds one stale registration on cell 0
from its previous run (one recorded tracked read); its body reads cell
0 tracked and cell 1 only under `untracked`. -/
def c7RunSt : St :=
  { cells := [(0, ({ value := .int 5, listeners := [(0, .eff 0)] } : CellSt)),
              (1, ({ value := .int 7, listeners := [] } : CellSt))],
    effects := [(0, ({ body := .seq (.logP (.readE 0)) (.logP (.untrackedE (.readE 1))),
                       cleanup := [.dereg 0 0 0] } : EffSt))],
    pending := [], refCounts := [(0, 1)], currentEffect := none, writeDepth := 0,
    flushing := false, microtask := false, nextListener := 1, nextEffect := 1,
    nextCell := 2, log := [], runs := [0], treads := [(0, 0)], disposals := [] }

/-- After re-running effect 0 from `c7RunSt`: the stale listener is
gone, exactly one fresh registration on cell 0 (the tracked read),
none on cell 1 (the untracked read). -/
def c7RunSt2 : St :=
  { cells := [(0, ({ value := .int 5, listeners := [(1, .eff 0)] } : CellSt)),
              (1, ({ value := .int 7, listeners := [] } : CellSt))],
    effects := [(0, ({ body := .seq (.logP (.readE 0)) (.logP (.untrackedE (.readE 1))),
                       cleanup := [.dereg 0 1 0] } : EffSt))],
    pending := [], refCounts := [(0, 1)], currentEffect := none, writeDepth := 0,
    flushing := false, microtask := false, nextListener := 2, nextEffect := 1,
    nextCell := 2, log := [.effEv (.int 5), .effEv (.int 7)], runs := [0, 0],
    treads := [(0, 0), (0, 0)], disposals := [] }

/-- C8 scenario: two cells and one effect whose body reads cell 0 twice
and cell 1 once. -/
def c8ScOps : List Op :=
  [.newCell (.int 1), .newCell (.int 2),
   .newEffect (.seq (.logP (.readE 0)) (.seq (.logP (.readE 0)) (.logP (.readE 1))))]

/-- After `c8ScOps`: three live registrations for effect 0 (two on
cell 0), reference count 3. -/
def c8ScSt : St :=
  { cells := [(0, ({ value := .int 1, listeners := [(0, .eff 0), (1, .eff 0)] } : CellSt)),
              (1, ({ value := .int 2, listeners := [(2, .eff 0)] } : CellSt))],
    effects := [(0, ({ body := .seq (.logP (.readE 0)) (.seq (.logP (.readE 0))
                         (.logP (.readE 1))),
                       cleanup := [.dereg 1 2 0, .dereg 0 1 0, .dereg 0 0 0] } : EffSt))],
    pending := [], refCounts := [(0, 3)], currentEffect := none, writeDepth := 0,
    flushing := false, microtask := false, nextListener := 3, nextEffect := 1,
    nextCell := 2, log := [.effEv (.int 1), .effEv (.int 1), .effEv (.int 2)],
    runs := [0], treads := [(0, 0), (0, 0), (0, 1)], disposals := [] }

end EffectiveState


namespace EffectiveState

/-! ## Evaluation lemmas for the concrete scenarios -/

/-- Building the diamond yields `diamondMid`; the single write a := 2
then yields `diamondFinal`. -/
lemma diamond_eval :
    runOps 300 diamondSetup initSt = some (.ok (), diamondMid) ∧
    runOp 300 (.writeOp 0 (.int 2)) diamondMid = some (.ok (), diamondFinal) := by
  constructor
  · simp only [diamondSetup, initSt, diamondMid, runOps, opsK, runOp, newEffectAux, runEffect, effD, effC,
    effFin, runProg, seqK, progW, progL, restK, dispK, dispFin, runCleanup, childK,
    writeCell, writeC1, writeC2, writeC3, writeC4, flushPending, flushP, flushLoop,
    flushRun, flushS, flushCont, actK, actFin, actErr, actErrK, tickK,
    evalExpr, trackedRead, notifySnap, notifyStep, scheduleEffect, subscribeCell,
    addListener, removeListener, removeSubListener, updCell, updEff, setCellValue,
    setCleanup, pushCleanup, refInc, refDecDel, refGet, cellValue, cellListeners, cleanupOf,
    alGet?, alSet, alPut, alErase, isFalsy, objectIs, vAdd, vMul, memNat,
    List.find?, List.map, List.filter, List.any, List.all, List.isEmpty,
    Option.map, Option.getD, Option.isSome,
    Nat.reduceAdd, Nat.reduceSub, Nat.reduceMul, Nat.reduceBEq, Nat.reduceBNe,
    Int.reduceAdd, Int.reduceSub, Int.reduceMul, Int.reduceBEq, Int.reduceNeg,
    reduceIte, reduceCtorEq, Nat.reduceEqDiff, Nat.reduceBeqDiff, Nat.reduceBneDiff,
    Nat.reduceGT, Nat.reduceLT, Nat.reduceLeDiff, Bool.and_true, Bool.and_false,
    Bool.true_and, Bool.false_and, Bool.or_true, Bool.or_false, Bool.not_true, Bool.not_false,
    beq_self_eq_true, bne_self_eq_false,
    List.nil_append, List.cons_append, List.append_nil]
  · simp only [diamondMid, diamondFinal, runOps, opsK, runOp, newEffectAux, runEffect, effD, effC,
    effFin, runProg, seqK, progW, progL, restK, dispK, dispFin, runCleanup, childK,
    writeCell, writeC1, writeC2, writeC3, writeC4, flushPending, flushP, flushLoop,
    flushRun, flushS, flushCont, actK, actFin, actErr, actErrK, tickK,
    evalExpr, trackedRead, notifySnap, notifyStep, scheduleEffect, subscribeCell,
    addListener, removeListener, removeSubListener, updCell, updEff, setCellValue,
    setCleanup, pushCleanup, refInc, refDecDel, refGet, cellValue, cellListeners, cleanupOf,
    alGet?, alSet, alPut, alErase, isFalsy, objectIs, vAdd, vMul, memNat,
    List.find?, List.map, List.filter, List.any, List.all, List.isEmpty,
    Option.map, Option.getD, Option.isSome,
    Nat.reduceAdd, Nat.reduceSub, Nat.reduceMul, Nat.reduceBEq, Nat.reduceBNe,
    Int.reduceAdd, Int.reduceSub, Int.reduceMul, Int.reduceBEq, Int.reduceNeg,
    reduceIte, reduceCtorEq, Nat.reduceEqDiff, Nat.reduceBeqDiff, Nat.reduceBneDiff,
    Nat.reduceGT, Nat.reduceLT, Nat.reduceLeDiff, Bool.and_true, Bool.and_false,
    Bool.true_and, Bool.false_and, Bool.or_true, Bool.or_false, Bool.not_true, Bool.not_false,
    beq_self_eq_true, bne_self_eq_false,
    List.nil_append, List.cons_append, List.append_nil]

/-- The self-retriggering scenario evaluates to `branchSelfFinal`. -/
lemma branchSelf_eval :
    runOps 60 branchSelfOps initSt = some (.ok (), branchSelfFinal) := by
  simp only [branchSelfOps, initSt, branchSelfFinal, runOps, opsK, runOp, newEffectAux, runEffect, effD, effC,
    effFin, runProg, seqK, progW, progL, restK, dispK, dispFin, runCleanup, childK,
    writeCell, writeC1, writeC2, writeC3, writeC4, flushPending, flushP, flushLoop,
    flushRun, flushS, flushCont, actK, actFin, actErr, actErrK, tickK,
    evalExpr, trackedRead, notifySnap, notifyStep, scheduleEffect, subscribeCell,
    addListener, removeListener, removeSubListener, updCell, updEff, setCellValue,
    setCleanup, pushCleanup, refInc, refDecDel, refGet, cellValue, cellListeners, cleanupOf,
    alGet?, alSet, alPut, alErase, isFalsy, objectIs, vAdd, vMul, memNat,
    List.find?, List.map, List.filter, List.any, List.all, List.isEmpty,
    Option.map, Option.getD, Option.isSome,
    Nat.reduceAdd, Nat.reduceSub, Nat.reduceMul, Nat.reduceBEq, Nat.reduceBNe,
    Int.reduceAdd, Int.reduceSub, Int.reduceMul, Int.reduceBEq, Int.reduceNeg,
    reduceIte, reduceCtorEq, Nat.reduceEqDiff, Nat.reduceBeqDiff, Nat.reduceBneDiff,
    Nat.reduceGT, Nat.reduceLT, Nat.reduceLeDiff, Bool.and_true, Bool.and_false,
    Bool.true_and, Bool.false_and, Bool.or_true, Bool.or_false, Bool.not_true, Bool.not_false,
    beq_self_eq_true, bne_self_eq_false,
    List.nil_append, List.cons_append, List.append_nil]

/-- The double-read scenario evaluates to `doubleReadFinal`. -/
lemma doubleRead_eval :
    runOps 60 doubleReadOps initSt = some (.ok (), doubleReadFinal) := by
  simp only [doubleReadOps, initSt, doubleReadFinal, runOps, opsK, runOp, newEffectAux, runEffect, effD, effC,
    effFin, runProg, seqK, progW, progL, restK, dispK, dispFin, runCleanup, childK,
    writeCell, writeC1, writeC2, writeC3, writeC4, flushPending, flushP, flushLoop,
    flushRun, flushS, flushCont, actK, actFin, actErr, actErrK, tickK,
    evalExpr, trackedRead, notifySnap, notifyStep, scheduleEffect, subscribeCell,
    addListener, removeListener, removeSubListener, updCell, updEff, setCellValue,
    setCleanup, pushCleanup, refInc, refDecDel, refGet, cellValue, cellListeners, cleanupOf,
    alGet?, alSet, alPut, alErase, isFalsy, objectIs, vAdd, vMul, memNat,
    List.find?, List.map, List.filter, List.any, List.all, List.isEmpty,
    Option.map, Option.getD, Option.isSome,
    Nat.reduceAdd, Nat.reduceSub, Nat.reduceMul, Nat.reduceBEq, Nat.reduceBNe,
    Int.reduceAdd, Int.reduceSub, Int.reduceMul, Int.reduceBEq, Int.reduceNeg,
    reduceIte, reduceCtorEq, Nat.reduceEqDiff, Nat.reduceBeqDiff, Nat.reduceBneDiff,
    Nat.reduceGT, Nat.reduceLT, Nat.reduceLeDiff, Bool.and_true, Bool.and_false,
    Bool.true_and, Bool.false_and, Bool.or_true, Bool.or_false, Bool.not_true, Bool.not_false,
    beq_self_eq_true, bne_self_eq_false,
    List.nil_append, List.cons_append, List.append_nil]

/-- Creating a throwing effect propagates the exception and leaves the
tracker stuck; a throwing untracked block restores everything. -/
lemma throw_eval :
    runOp 20 (.newEffect (.throwP 7)) initSt = some (.error 7, effectThrowSt) ∧
    runOp 20 (.untrackedOp (.throwP 7)) initSt = some (.error 7, initSt) := by
  constructor
  · simp only [initSt, effectThrowSt, runOps, opsK, runOp, newEffectAux, runEffect, effD, effC,
    effFin, runProg, seqK, progW, progL, restK, dispK, dispFin, runCleanup, childK,
    writeCell, writeC1, writeC2, writeC3, writeC4, flushPending, flushP, flushLoop,
    flushRun, flushS, flushCont, actK, actFin, actErr, actErrK, tickK,
    evalExpr, trackedRead, notifySnap, notifyStep, scheduleEffect, subscribeCell,
    addListener, removeListener, removeSubListener, updCell, updEff, setCellValue,
    setCleanup, pushCleanup, refInc, refDecDel, refGet, cellValue, cellListeners, cleanupOf,
    alGet?, alSet, alPut, alErase, isFalsy, objectIs, vAdd, vMul, memNat,
    List.find?, List.map, List.filter, List.any, List.all, List.isEmpty,
    Option.map, Option.getD, Option.isSome,
    Nat.reduceAdd, Nat.reduceSub, Nat.reduceMul, Nat.reduceBEq, Nat.reduceBNe,
    Int.reduceAdd, Int.reduceSub, Int.reduceMul, Int.reduceBEq, Int.reduceNeg,
    reduceIte, reduceCtorEq, Nat.reduceEqDiff, Nat.reduceBeqDiff, Nat.reduceBneDiff,
    Nat.reduceGT, Nat.reduceLT, Nat.reduceLeDiff, Bool.and_true, Bool.and_false,
    Bool.true_and, Bool.false_and, Bool.or_true, Bool.or_false, Bool.not_true, Bool.not_false,
    beq_self_eq_true, bne_self_eq_false,
    List.nil_append, List.cons_append, List.append_nil]
  · simp only [initSt, runOps, opsK, runOp, newEffectAux, runEffect, effD, effC,
    effFin, runProg, seqK, progW, progL, restK, dispK, dispFin, runCleanup, childK,
    writeCell, writeC1, writeC2, writeC3, writeC4, flushPending, flushP, flushLoop,
    flushRun, flushS, flushCont, actK, actFin, actErr, actErrK, tickK,
    evalExpr, trackedRead, notifySnap, notifyStep, scheduleEffect, subscribeCell,
    addListener, removeListener, removeSubListener, updCell, updEff, setCellValue,
    setCleanup, pushCleanup, refInc, refDecDel, refGet, cellValue, cellListeners, cleanupOf,
    alGet?, alSet, alPut, alErase, isFalsy, objectIs, vAdd, vMul, memNat,
    List.find?, List.map, List.filter, List.any, List.all, List.isEmpty,
    Option.map, Option.getD, Option.isSome,
    Nat.reduceAdd, Nat.reduceSub, Nat.reduceMul, Nat.reduceBEq, Nat.reduceBNe,
    Int.reduceAdd, Int.reduceSub, Int.reduceMul, Int.reduceBEq, Int.reduceNeg,
    reduceIte, reduceCtorEq, Nat.reduceEqDiff, Nat.reduceBeqDiff, Nat.reduceBneDiff,
    Nat.reduceGT, Nat.reduceLT, Nat.reduceLeDiff, Bool.and_true, Bool.and_false,
    Bool.true_and, Bool.false_and, Bool.or_true, Bool.or_false, Bool.not_true, Bool.not_false,
    beq_self_eq_true, bne_self_eq_false,
    List.nil_append, List.cons_append, List.append_nil]

end EffectiveState

namespace EffectiveState

/-! ## C1: diamond dependency resolution -/

/-- C1 counterexample: with the diamond a=1, b=a*2, c=a*3, d=b+c and an
effect observing d, the initial observation is d = 5; but after the
single write a := 2 the observing effect re-runs twice during that
flush (its run count rises from 1 to 3) and it observes the glitch
value 7 before 10 — refuting the claim that it re-runs exactly once
and never observes an intermediate value. -/
theorem c1_glitch_counterexample :
    runOps 300 diamondSetup initSt = some (.ok (), diamondMid) ∧
    runOp 300 (.writeOp 0 (.int 2)) diamondMid = some (.ok (), diamondFinal) ∧
    diamondMid.log = [.effEv (.int 5)] ∧
    diamondMid.runs.count 3 = 1 ∧
    diamondFinal.runs.count 3 = 3 ∧
    diamondFinal.log = [.effEv (.int 5), .effEv (.int 7), .effEv (.int 10)] ∧
    LogEv.effEv (.int 7) ∈ diamondFinal.log :=
  ⟨diamond_eval.1, diamond_eval.2, by decide, by decide, by decide, by decide, by decide⟩

/-- C1 amended: with initial a = 1 the effect observes d = 5; after the
single write a := 2 the final value of d is 10 and the last value the
effect observes is 10, but during that flush the effect re-runs twice,
observing the intermediate value 7 first (the engine does not resolve
the diamond glitch-free). -/
theorem c1_diamond_amended :
    runOps 300 diamondSetup initSt = some (.ok (), diamondMid) ∧
    runOp 300 (.writeOp 0 (.int 2)) diamondMid = some (.ok (), diamondFinal) ∧
    diamondMid.log = [.effEv (.int 5)] ∧
    cellValue diamondFinal 3 = .int 10 ∧
    diamondFinal.log = [.effEv (.int 5), .effEv (.int 7), .effEv (.int 10)] ∧
    diamondFinal.log.getLast? = some (.effEv (.int 10)) ∧
    diamondFinal.runs.count 3 = 3 :=
  ⟨diamond_eval.1, diamond_eval.2, by decide, by decide, by decide, by decide, by decide⟩

/-! ## C2: exception atomicity of engine bookkeeping -/

/-- C2 (code bug): an effect body that throws at creation propagates
its exception, and the write-depth counter is restored, but the
Dependency Tracker pointer is left stuck on the dead effect node
(`some 0`) instead of being restored to the prior `none` — the effect
runner lacks the try/finally that the untracked path has: the same
throwing body inside `untracked` leaves the pristine state fully
intact. -/
theorem c2_throwing_effect_corrupts_tracker :
    runOp 20 (.newEffect (.throwP 7)) initSt = some (.error 7, effectThrowSt) ∧
    initSt.currentEffect = none ∧
    effectThrowSt.currentEffect = some 0 ∧
    effectThrowSt.writeDepth = 0 ∧
    runOp 20 (.untrackedOp (.throwP 7)) initSt = some (.error 7, initSt) :=
  ⟨throw_eval.1, by decide, by decide, by decide, throw_eval.2⟩

/-! ## C7 and C8: counterexamples -/

/-- C7 counterexample: an effect whose body reads cell 0, branches to
read cell 1, then writes cell 0 re-enters itself during its first run;
after the run completes, cell 1 was read in tracked mode during the
run (`(0, 1)` is among its tracked reads) yet the effect holds no
listener on cell 1 — the dependency set is not the set of cells read
during the run. -/
theorem c7_branch_self_counterexample :
    runOps 60 branchSelfOps initSt = some (.ok (), branchSelfFinal) ∧
    branchSelfFinal.treads = [(0, 0), (0, 1), (0, 0)] ∧
    (0, 1) ∈ branchSelfFinal.treads ∧
    countLtot branchSelfFinal 0 1 = 0 ∧
    branchSelfFinal.currentEffect = none ∧
    branchSelfFinal.runs = [0, 0] :=
  ⟨branchSelf_eval, by decide, by decide, by decide, by decide, by decide⟩

/-- C8 counterexample: an effect that reads the same cell twice in one
run ends with reference count 2 while holding live listeners on
exactly one distinct cell — the reference count equals the number of
listener registrations, not the number of distinct cells. -/
theorem c8_refcount_counterexample :
    runOps 60 doubleReadOps initSt = some (.ok (), doubleReadFinal) ∧
    refGet doubleReadFinal 0 = 2 ∧
    effCellsCount doubleReadFinal 0 = 1 ∧
    refGet doubleReadFinal 0 ≠ effCellsCount doubleReadFinal 0 :=
  ⟨doubleRead_eval, by decide, by decide, by decide⟩

end EffectiveState

namespace EffectiveState

/-! ## Toolkit: how the primitive state updates act on observables -/

lemma find?_key_map {α : Type} (cells : List (Nat × α)) (c c2 : Nat) (f : α → α) :
    (cells.map (fun p => if p.1 = c then (p.1, f p.2) else p)).find? (fun p => p.1 == c2) =
    (cells.find? (fun p => p.1 == c2)).map (fun p => if p.1 = c then (p.1, f p.2) else p) := by
  rw [List.find?_map]
  have h : ((fun (p : Nat × α) => p.1 == c2) ∘ (fun p => if p.1 = c then (p.1, f p.2) else p)) =
      (fun (p : Nat × α) => p.1 == c2) := by
    funext x
    by_cases h : x.1 = c <;> simp [h]
  rw [h]

lemma alGet?_updCell (st : St) (c c2 : Nat) (f : CellSt → CellSt) :
    alGet? (updCell st c f).cells c2 =
    (alGet? st.cells c2).map (fun cs => if c2 = c then f cs else cs) := by
  show alGet? (st.cells.map (fun p => if p.1 = c then (p.1, f p.2) else p)) c2 = _
  unfold alGet?
  rw [find?_key_map]
  cases h : st.cells.find? (fun p => p.1 == c2) with
  | none => rfl
  | some p =>
      have hp : p.1 = c2 := by
        have := List.find?_some h
        simpa using this
      by_cases hc : c2 = c
      · simp [hp, hc]
      · simp [hp, hc]

lemma alGet?_updEff (st : St) (e e2 : Nat) (f : EffSt → EffSt) :
    alGet? (updEff st e f).effects e2 =
    (alGet? st.effects e2).map (fun es => if e2 = e then f es else es) := by
  show alGet? (st.effects.map (fun p => if p.1 = e then (p.1, f p.2) else p)) e2 = _
  unfold alGet?
  rw [find?_key_map]
  cases h : st.effects.find? (fun p => p.1 == e2) with
  | none => rfl
  | some p =>
      have hp : p.1 = e2 := by
        have := List.find?_some h
        simpa using this
      by_cases hc : e2 = e
      · simp [hp, hc]
      · simp [hp, hc]

@[simp] lemma updCell_effects (st : St) (c : Nat) (f : CellSt → CellSt) :
    (updCell st c f).effects = st.effects := rfl
@[simp] lemma updCell_pending (st : St) (c : Nat) (f : CellSt → CellSt) :
    (updCell st c f).pending = st.pending := rfl
@[simp] lemma updCell_refCounts (st : St) (c : Nat) (f : CellSt → CellSt) :
    (updCell st c f).refCounts = st.refCounts := rfl
@[simp] lemma updCell_currentEffect (st : St) (c : Nat) (f : CellSt → CellSt) :
    (updCell st c f).currentEffect = st.currentEffect := rfl
@[simp] lemma updCell_writeDepth (st : St) (c : Nat) (f : CellSt → CellSt) :
    (updCell st c f).writeDepth = st.writeDepth := rfl
@[simp] lemma updCell_log (st : St) (c : Nat) (f : CellSt → CellSt) :
    (updCell st c f).log = st.log := rfl
@[simp] lemma updCell_runs (st : St) (c : Nat) (f : CellSt → CellSt) :
    (updCell st c f).runs = st.runs := rfl
@[simp] lemma updCell_nextListener (st : St) (c : Nat) (f : CellSt → CellSt) :
    (updCell st c f).nextListener = st.nextListener := rfl

@[simp] lemma updEff_cells (st : St) (e : Nat) (f : EffSt → EffSt) :
    (updEff st e f).cells = st.cells := rfl
@[simp] lemma updEff_pending (st : St) (e : Nat) (f : EffSt → EffSt) :
    (updEff st e f).pending = st.pending := rfl
@[simp] lemma updEff_refCounts (st : St) (e : Nat) (f : EffSt → EffSt) :
    (updEff st e f).refCounts = st.refCounts := rfl
@[simp] lemma updEff_currentEffect (st : St) (e : Nat) (f : EffSt → EffSt) :
    (updEff st e f).currentEffect = st.currentEffect := rfl
@[simp] lemma updEff_log (st : St) (e : Nat) (f : EffSt → EffSt) :
    (updEff st e f).log = st.log := rfl

@[simp] lemma refInc_cells (st : St) (e : Nat) : (refInc st e).cells = st.cells := rfl
@[simp] lemma refInc_pending (st : St) (e : Nat) : (refInc st e).pending = st.pending := rfl
@[simp] lemma refInc_log (st : St) (e : Nat) : (refInc st e).log = st.log := rfl
@[simp] lemma refInc_currentEffect (st : St) (e : Nat) :
    (refInc st e).currentEffect = st.currentEffect := rfl

lemma cellValue_updCellListeners (st : St) (c c2 : Nat)
    (g : List (Nat × LAct) → List (Nat × LAct)) :
    cellValue (updCell st c (fun cs => { cs with listeners := g cs.listeners })) c2 =
    cellValue st c2 := by
  unfold cellValue
  rw [show (updCell st c (fun cs => { cs with listeners := g cs.listeners })).cells =
    (updCell st c (fun cs => { cs with listeners := g cs.listeners })).cells from rfl]
  rw [alGet?_updCell]
  cases alGet? st.cells c2 with
  | none => rfl
  | some cs => by_cases hc : c2 = c <;> simp [hc]

/-! ## C3: a computed cannot be written through its call surface -/

@[simp] lemma pushCleanup_cells (st : St) (e : Nat) (entry : CEntry) :
    (pushCleanup st e entry).cells = st.cells := rfl

@[simp] lemma stWithNlTreads_cells (x : St) (a : Nat) (b : List (Nat × Nat)) :
    ({ x with nextListener := a, treads := b } : St).cells = x.cells := rfl

@[simp] lemma stWithNlTreads_pending (x : St) (a : Nat) (b : List (Nat × Nat)) :
    ({ x with nextListener := a, treads := b } : St).pending = x.pending := rfl

@[simp] lemma stWithNlTreads_log (x : St) (a : Nat) (b : List (Nat × Nat)) :
    ({ x with nextListener := a, treads := b } : St).log = x.log := rfl

lemma cellValue_cells_eq {st1 st2 : St} (h : st1.cells = st2.cells) (c2 : Nat) :
    cellValue st1 c2 = cellValue st2 c2 := by
  unfold cellValue
  rw [h]

lemma cellValue_addListener (st : St) (c l : Nat) (a : LAct) (c2 : Nat) :
    cellValue (addListener st c l a) c2 = cellValue st c2 := by
  show cellValue (updCell st c _) c2 = cellValue st c2
  unfold cellValue
  rw [alGet?_updCell]
  cases alGet? st.cells c2 with
  | none => rfl
  | some cs => by_cases hc : c2 = c <;> simp [hc]

/-- C3: invoking the read-only wrapper of a computed with any
non-function value behaves exactly as the tracked read call form: the
internal cell's stored value is unchanged (as is every other cell's),
the pending set is unchanged (no effect is scheduled), the log is
unchanged (no listener is invoked), and outside a tracked run the
state is completely untouched and the current value is returned —
there is no write path through a computed. -/
theorem c3_computed_not_writable (st : St) (c : Nat) (v : V) (c2 : Nat) :
    computedCall c (.valA v) st = trackedRead c st ∧
    cellValue (computedCall c (.valA v) st).2 c2 = cellValue st c2 ∧
    (computedCall c (.valA v) st).2.pending = st.pending ∧
    (computedCall c (.valA v) st).2.log = st.log ∧
    (st.currentEffect = none →
      computedCall c (.valA v) st = (cellValue st c, st)) := by
  have hw : computedCall c (.valA v) st = trackedRead c st := rfl
  have hval : cellValue (trackedRead c st).2 c2 = cellValue st c2 := by
    unfold trackedRead
    cases h : alGet? st.cells c with
    | none => rfl
    | some cs =>
        cases hcur : st.currentEffect with
        | none => rfl
        | some e =>
            refine (cellValue_cells_eq ?_ c2).trans
              (cellValue_addListener st c st.nextListener (.eff e) c2)
            rfl
  have hpend : (trackedRead c st).2.pending = st.pending := by
    unfold trackedRead
    cases h : alGet? st.cells c with
    | none => rfl
    | some cs =>
        cases hcur : st.currentEffect with
        | none => rfl
        | some e => simp [pushCleanup, refInc, addListener]
  have hlog : (trackedRead c st).2.log = st.log := by
    unfold trackedRead
    cases h : alGet? st.cells c with
    | none => rfl
    | some cs =>
        cases hcur : st.currentEffect with
        | none => rfl
        | some e => simp [pushCleanup, refInc, addListener]
  have hnone : st.currentEffect = none → trackedRead c st = (cellValue st c, st) := by
    intro hc
    unfold trackedRead
    cases h : alGet? st.cells c with
    | none => simp [cellValue, h]
    | some cs => simp [hc, cellValue, h]
  exact ⟨hw, hw ▸ hval, hw ▸ hpend, hw ▸ hlog, fun hc => hw ▸ hnone hc⟩

/-- Witness for C3: in a one-NaN-cell quiescent state, invoking the
computed wrapper with the value 3 returns the current value and leaves
the state untouched. -/
theorem c3_witness :
    computedCall 0 (.valA (.int 3)) nanCellSt = trackedRead 0 nanCellSt ∧
    cellValue (computedCall 0 (.valA (.int 3)) nanCellSt).2 0 = cellValue nanCellSt 0 ∧
    computedCall 0 (.valA (.int 3)) nanCellSt = (cellValue nanCellSt 0, nanCellSt) :=
  ⟨(c3_computed_not_writable nanCellSt 0 (.int 3) 0).1,
   (c3_computed_not_writable nanCellSt 0 (.int 3) 0).2.1,
   (c3_computed_not_writable nanCellSt 0 (.int 3) 0).2.2.2.2 rfl⟩

end EffectiveState

namespace EffectiveState

/-! ## C6: same-value writes are complete no-ops -/

/-- C6: for every cell and every state, writing a value identical to
the current one under the `Object.is` rule returns immediately with
the state completely unchanged — no listener is invoked, no effect is
scheduled, no scheduler state is touched; and the identity rule is
NaN-aware (NaN equals NaN) while +0 and -0 are distinct. -/
theorem c6_same_value_write_noop :
    (∀ (f c : Nat) (v : V) (st : St) (cs : CellSt),
      alGet? st.cells c = some cs → objectIs cs.value v = true →
      writeCell (f + 3) c v st = some (.ok (), st)) ∧
    objectIs .nan .nan = true ∧
    objectIs .negZero (.int 0) = false ∧
    objectIs (.int 0) .negZero = false := by
  refine ⟨?_, by decide, by decide, by decide⟩
  intro f c v st cs h1 h2
  simp only [writeCell, h1, writeC1, h2, writeC2]

/-- Witness for C6: writing NaN over NaN in the one-NaN-cell state is a
complete no-op. -/
theorem c6_witness :
    writeCell 5 0 .nan nanCellSt = some (.ok (), nanCellSt) :=
  c6_same_value_write_noop.1 2 0 .nan nanCellSt
    { value := .nan, listeners := [] } rfl (by decide)

/-! ## C9: a completed flush leaves the pending set empty -/

lemma flush_core : ∀ f : Nat,
    (∀ st st1 : St, flushPending f st = some (.ok (), st1) → st1.pending = []) ∧
    (∀ (l : List Nat) (st st1 : St), flushP f l st = some (.ok (), st1) →
      l = st.pending → st1.pending = []) ∧
    (∀ (r : Option (Except Nat Unit × St)) (st1 : St),
      flushLoop f r = some (.ok (), st1) → st1.pending = []) := by
  intro f
  induction f with
  | zero =>
      refine ⟨fun st st1 h => ?_, fun l st st1 h _ => ?_, fun r st1 h => ?_⟩
      · simp [flushPending] at h
      · simp [flushP] at h
      · simp [flushLoop] at h
  | succ f ih =>
      refine ⟨?_, ?_, ?_⟩
      · intro st st1 h
        simp only [flushPending] at h
        exact ih.2.1 st.pending st st1 h rfl
      · intro l st st1 h hl
        cases l with
        | nil =>
            have : ({ st with flushing := false } : St) = st1 := by
              simpa [flushP] using h
            rw [← this]
            exact hl.symm
        | cons e rest =>
            simp only [flushP] at h
            exact ih.2.2 _ st1 h
      · intro r st1 h
        match r with
        | none => simp [flushLoop] at h
        | some (.error t, st2) => simp [flushLoop] at h
        | some (.ok u, st2) =>
            simp only [flushLoop] at h
            exact ih.1 st2 st1 h
end EffectiveState

namespace EffectiveState

/-- C9: the flush is a fixed-point computation — whenever `flushPending`
returns normally its final state has an empty pending set, even though
effects run during the flush may schedule further effects (the loop
re-checks until it observes the set empty); consequently an `action`
that returns at depth zero, and an effective top-level write, leave
the pending set empty (a same-value write triggers no flush and leaves
the state untouched). -/
theorem c9_flush_reaches_fixed_point :
    (∀ (f : Nat) (st st1 : St), flushPending f st = some (.ok (), st1) → st1.pending = []) ∧
    (∀ (f : Nat) (p : Prog) (st st1 : St),
      runOp f (.actionOp p) st = some (.ok (), st1) → st1.writeDepth = 0 →
      st1.pending = []) ∧
    (∀ (f c : Nat) (v : V) (st st1 : St),
      runOp f (.writeOp c v) st = some (.ok (), st1) → st1.writeDepth = 0 →
      st1.pending = [] ∨ st1 = st) := by
  refine ⟨fun f => (flush_core f).1, ?_, ?_⟩
  · intro f p st st1 h hd
    match f with
    | 0 => simp [runOp] at h
    | f + 1 =>
        simp only [runOp] at h
        match hr : runProg f p { st with writeDepth := st.writeDepth + 1 } with
        | none => rw [hr] at h; simp [actK] at h
        | some (.error t, st2) =>
            rw [hr] at h
            simp only [actK, actErr] at h
            match hd2 : st2.writeDepth - 1 with
            | 0 =>
                rw [hd2] at h
                simp only [actErrK] at h
                match hf : flushPending f { st2 with writeDepth := 0 } with
                | none => rw [hf] at h; simp [actErrK] at h
                | some (.ok u, st4) => rw [hf] at h; simp [actErrK] at h
                | some (.error t2, st4) => rw [hf] at h; simp [actErrK] at h
            | d + 1 => rw [hd2] at h; simp at h
        | some (.ok u, st2) =>
            rw [hr] at h
            simp only [actK, actFin] at h
            match hd2 : st2.writeDepth - 1 with
            | 0 =>
                rw [hd2] at h
                exact (flush_core f).1 _ st1 h
            | d + 1 =>
                rw [hd2] at h
                simp only [Option.some.injEq, Prod.mk.injEq] at h
                exfalso
                have : st1.writeDepth = d + 1 := by
                  rw [← h.2]
                rw [this] at hd
                exact Nat.succ_ne_zero d hd
  · intro f c v st st1 h hd
    match f with
    | 0 => simp [runOp] at h
    | f + 1 =>
        simp only [runOp] at h
        match f with
        | 0 => simp [writeCell] at h
        | f + 1 =>
            simp only [writeCell] at h
            match f with
            | 0 => simp [writeC1] at h
            | f + 1 =>
                match h1 : alGet? st.cells c with
                | none =>
                    rw [h1] at h
                    simp only [writeC1, Option.some.injEq, Prod.mk.injEq] at h
                    exact Or.inr h.2.symm
                | some cs =>
                    rw [h1] at h
                    simp only [writeC1] at h
                    match f with
                    | 0 => simp [writeC2] at h
                    | f + 1 =>
                        match h2 : objectIs cs.value v with
                        | true =>
                            rw [h2] at h
                            simp only [writeC2, Option.some.injEq, Prod.mk.injEq] at h
                            exact Or.inr h.2.symm
                        | false =>
                            rw [h2] at h
                            simp only [writeC2] at h
                            match f with
                            | 0 => simp [writeC3] at h
                            | f + 1 =>
                                simp only [writeC3] at h
                                match f with
                                | 0 => simp [writeC4] at h
                                | f + 1 =>
                                    match hd2 : (notifySnap cs.listeners c
                                        (setCellValue { st with writeDepth := st.writeDepth + 1 }
                                          c v)).writeDepth - 1 with
                                    | 0 =>
                                        rw [hd2] at h
                                        simp only [writeC4] at h
                                        exact Or.inl ((flush_core _).1 _ st1 h)
                                    | d + 1 =>
                                        rw [hd2] at h
                                        simp only [writeC4, Option.some.injEq,
                                          Prod.mk.injEq] at h
                                        exfalso
                                        have hw : st1.writeDepth = d + 1 := by rw [← h.2]
                                        rw [hw] at hd
                                        exact Nat.succ_ne_zero d hd

/-- Witness for C9: a trivial flush from the pristine state returns
with the pending set empty, an empty action leaves it empty, and an
effective write to the NaN cell leaves it empty. -/
theorem c9_witness :
    (flushPending 2 initSt = some (.ok (), initSt) ∧ initSt.pending = []) ∧
    (runOp 9 (.actionOp .skip) nanCellSt = some (.ok (), nanCellSt) ∧
      nanCellSt.writeDepth = 0 ∧ nanCellSt.pending = []) := by
  have h1 : flushPending 2 initSt = some (.ok (), initSt) := by
    simp only [initSt, flushPending, flushP]
  have h2 : runOp 9 (.actionOp .skip) nanCellSt = some (.ok (), nanCellSt) := by
    simp only [nanCellSt, runOp, runProg, actK, actFin, Nat.add_sub_cancel,
      flushPending, flushP]
  exact ⟨⟨h1, c9_flush_reaches_fixed_point.1 2 initSt initSt h1⟩,
    ⟨h2, rfl, c9_flush_reaches_fixed_point.2.1 9 .skip nanCellSt nanCellSt h2 rfl⟩⟩
end EffectiveState


namespace EffectiveState

/-- Building the batching scenario (two cells, one effect reading
both) from the pristine state yields the canonical state `c5S0`. -/
lemma c5_setup (x0 y0 : V) :
    runOps 30 [.newCell x0, .newCell y0, .newEffect c5Body] initSt =
      some (.ok (), c5S0 x0 y0) := by
  simp only [initSt, c5S0, c5Quiet, c5Body, runOps, opsK, runOp, newEffectAux, runEffect,
    effD, effC, effFin, runProg, seqK, progW, progL, restK, dispK, dispFin, runCleanup,
    childK, writeCell, writeC1, writeC2, writeC3, writeC4, flushPending, flushP, flushLoop,
    flushRun, flushS, flushCont, actK, actFin, actErr, actErrK, tickK,
    evalExpr, trackedRead, notifySnap, notifyStep, scheduleEffect, subscribeCell,
    addListener, removeListener, removeSubListener, updCell, updEff, setCellValue,
    setCleanup, pushCleanup, refInc, refDecDel, refGet, cellValue, cellListeners, cleanupOf,
    alGet?, alSet, alPut, alErase, isFalsy, objectIs, vAdd, vMul, memNat,
    List.find?, List.map, List.filter, List.any, List.all, List.isEmpty,
    Option.map, Option.getD, Option.isSome,
    Nat.reduceAdd, Nat.reduceSub, Nat.reduceMul, Nat.reduceBEq, Nat.reduceBNe,
    Int.reduceAdd, Int.reduceSub, Int.reduceMul, Int.reduceBEq, Int.reduceNeg,
    reduceIte, reduceCtorEq, Nat.reduceEqDiff, Nat.reduceBeqDiff, Nat.reduceBneDiff,
    Nat.reduceGT, Nat.reduceLT, Nat.reduceLeDiff, Bool.and_true, Bool.and_false,
    Bool.true_and, Bool.false_and, Bool.or_true, Bool.or_false, Bool.not_true, Bool.not_false,
    beq_self_eq_true, bne_self_eq_false,
    List.nil_append, List.cons_append, List.append_nil]

/-- Unfold one sequencing step of a body. -/
lemma runProg_seq (f : Nat) (p q : Prog) (st : St) :
    runProg (f + 1) (.seq p q) st = seqK f q (runProg f p st) := by
  simp only [runProg]

lemma seqK_ok (f : Nat) (q : Prog) (st1 : St) :
    seqK (f + 1) q (some (.ok (), st1)) = runProg f q st1 := by
  simp only [seqK]

lemma c5_write_noop_x (g : Nat) (x0 y0 x y v : V) (pb : Bool) (hx : objectIs x v = true) :
    runProg (g + 8) (.writeP 0 (.lit v)) (c5Mid x0 y0 x y pb) =
      some (.ok (), c5Mid x0 y0 x y pb) := by
  cases pb <;> simp only [c5Mid, c5Quiet, c5Body, hx, runOps, opsK, runOp, newEffectAux, runEffect, effD, effC,
    effFin, runProg, seqK, progW, progL, restK, dispK, dispFin, runCleanup, childK,
    writeCell, writeC1, writeC2, writeC3, writeC4, flushPending, flushP, flushLoop,
    flushRun, flushS, flushCont, actK, actFin, actErr, actErrK, tickK,
    evalExpr, trackedRead, notifySnap, notifyStep, scheduleEffect, subscribeCell,
    addListener, removeListener, removeSubListener, updCell, updEff, setCellValue,
    setCleanup, pushCleanup, refInc, refDecDel, refGet, cellValue, cellListeners, cleanupOf,
    alGet?, alSet, alPut, alErase, isFalsy, vAdd, vMul, memNat,
    List.find?, List.map, List.filter, List.any, List.all, List.isEmpty,
    Option.map, Option.getD, Option.isSome,
    Nat.reduceAdd, Nat.reduceSub, Nat.reduceMul, Nat.reduceBEq, Nat.reduceBNe,
    Int.reduceAdd, Int.reduceSub, Int.reduceMul, Int.reduceBEq, Int.reduceNeg,
    reduceIte, reduceCtorEq, Nat.reduceEqDiff, Nat.reduceBeqDiff, Nat.reduceBneDiff,
    Nat.reduceGT, Nat.reduceLT, Nat.reduceLeDiff, Bool.and_true, Bool.and_false,
    Bool.true_and, Bool.false_and, Bool.or_true, Bool.or_false, Bool.not_true, Bool.not_false,
    beq_self_eq_true, bne_self_eq_false,
    List.nil_append, List.cons_append, List.append_nil]

lemma c5_write_eff_x (g : Nat) (x0 y0 x y v : V) (pb : Bool) (hx : objectIs x v = false) :
    runProg (g + 8) (.writeP 0 (.lit v)) (c5Mid x0 y0 x y pb) =
      some (.ok (), c5Mid x0 y0 v y true) := by
  cases pb <;> simp only [c5Mid, c5Quiet, c5Body, hx, runOps, opsK, runOp, newEffectAux, runEffect, effD, effC,
    effFin, runProg, seqK, progW, progL, restK, dispK, dispFin, runCleanup, childK,
    writeCell, writeC1, writeC2, writeC3, writeC4, flushPending, flushP, flushLoop,
    flushRun, flushS, flushCont, actK, actFin, actErr, actErrK, tickK,
    evalExpr, trackedRead, notifySnap, notifyStep, scheduleEffect, subscribeCell,
    addListener, removeListener, removeSubListener, updCell, updEff, setCellValue,
    setCleanup, pushCleanup, refInc, refDecDel, refGet, cellValue, cellListeners, cleanupOf,
    alGet?, alSet, alPut, alErase, isFalsy, vAdd, vMul, memNat,
    List.find?, List.map, List.filter, List.any, List.all, List.isEmpty,
    Option.map, Option.getD, Option.isSome,
    Nat.reduceAdd, Nat.reduceSub, Nat.reduceMul, Nat.reduceBEq, Nat.reduceBNe,
    Int.reduceAdd, Int.reduceSub, Int.reduceMul, Int.reduceBEq, Int.reduceNeg,
    reduceIte, reduceCtorEq, Nat.reduceEqDiff, Nat.reduceBeqDiff, Nat.reduceBneDiff,
    Nat.reduceGT, Nat.reduceLT, Nat.reduceLeDiff, Bool.and_true, Bool.and_false,
    Bool.true_and, Bool.false_and, Bool.or_true, Bool.or_false, Bool.not_true, Bool.not_false,
    beq_self_eq_true, bne_self_eq_false,
    List.nil_append, List.cons_append, List.append_nil]

lemma c5_write_noop_y (g : Nat) (x0 y0 x y v : V) (pb : Bool) (hy : objectIs y v = true) :
    runProg (g + 8) (.writeP 1 (.lit v)) (c5Mid x0 y0 x y pb) =
      some (.ok (), c5Mid x0 y0 x y pb) := by
  cases pb <;> simp only [c5Mid, c5Quiet, c5Body, hy, runOps, opsK, runOp, newEffectAux, runEffect, effD, effC,
    effFin, runProg, seqK, progW, progL, restK, dispK, dispFin, runCleanup, childK,
    writeCell, writeC1, writeC2, writeC3, writeC4, flushPending, flushP, flushLoop,
    flushRun, flushS, flushCont, actK, actFin, actErr, actErrK, tickK,
    evalExpr, trackedRead, notifySnap, notifyStep, scheduleEffect, subscribeCell,
    addListener, removeListener, removeSubListener, updCell, updEff, setCellValue,
    setCleanup, pushCleanup, refInc, refDecDel, refGet, cellValue, cellListeners, cleanupOf,
    alGet?, alSet, alPut, alErase, isFalsy, vAdd, vMul, memNat,
    List.find?, List.map, List.filter, List.any, List.all, List.isEmpty,
    Option.map, Option.getD, Option.isSome,
    Nat.reduceAdd, Nat.reduceSub, Nat.reduceMul, Nat.reduceBEq, Nat.reduceBNe,
    Int.reduceAdd, Int.reduceSub, Int.reduceMul, Int.reduceBEq, Int.reduceNeg,
    reduceIte, reduceCtorEq, Nat.reduceEqDiff, Nat.reduceBeqDiff, Nat.reduceBneDiff,
    Nat.reduceGT, Nat.reduceLT, Nat.reduceLeDiff, Bool.and_true, Bool.and_false,
    Bool.true_and, Bool.false_and, Bool.or_true, Bool.or_false, Bool.not_true, Bool.not_false,
    beq_self_eq_true, bne_self_eq_false,
    List.nil_append, List.cons_append, List.append_nil]

lemma c5_write_eff_y (g : Nat) (x0 y0 x y v : V) (pb : Bool) (hy : objectIs y v = false) :
    runProg (g + 8) (.writeP 1 (.lit v)) (c5Mid x0 y0 x y pb) =
      some (.ok (), c5Mid x0 y0 x v true) := by
  cases pb <;> simp only [c5Mid, c5Quiet, c5Body, hy, runOps, opsK, runOp, newEffectAux, runEffect, effD, effC,
    effFin, runProg, seqK, progW, progL, restK, dispK, dispFin, runCleanup, childK,
    writeCell, writeC1, writeC2, writeC3, writeC4, flushPending, flushP, flushLoop,
    flushRun, flushS, flushCont, actK, actFin, actErr, actErrK, tickK,
    evalExpr, trackedRead, notifySnap, notifyStep, scheduleEffect, subscribeCell,
    addListener, removeListener, removeSubListener, updCell, updEff, setCellValue,
    setCleanup, pushCleanup, refInc, refDecDel, refGet, cellValue, cellListeners, cleanupOf,
    alGet?, alSet, alPut, alErase, isFalsy, vAdd, vMul, memNat,
    List.find?, List.map, List.filter, List.any, List.all, List.isEmpty,
    Option.map, Option.getD, Option.isSome,
    Nat.reduceAdd, Nat.reduceSub, Nat.reduceMul, Nat.reduceBEq, Nat.reduceBNe,
    Int.reduceAdd, Int.reduceSub, Int.reduceMul, Int.reduceBEq, Int.reduceNeg,
    reduceIte, reduceCtorEq, Nat.reduceEqDiff, Nat.reduceBeqDiff, Nat.reduceBneDiff,
    Nat.reduceGT, Nat.reduceLT, Nat.reduceLeDiff, Bool.and_true, Bool.and_false,
    Bool.true_and, Bool.false_and, Bool.or_true, Bool.or_false, Bool.not_true, Bool.not_false,
    beq_self_eq_true, bne_self_eq_false,
    List.nil_append, List.cons_append, List.append_nil]

end EffectiveState


namespace EffectiveState

lemma c5_writes : ∀ (ws : List (Bool × V)) (g : Nat) (x0 y0 x y : V) (pb : Bool),
    9 * ws.length + 2 ≤ g →
    runProg g (writesProg ws) (c5Mid x0 y0 x y pb) =
      some (.ok (), c5Mid x0 y0 (c5Fold x y pb ws).1 (c5Fold x y pb ws).2.1
        (c5Fold x y pb ws).2.2) := by
  intro ws
  induction ws with
  | nil =>
      intro g x0 y0 x y pb hg
      obtain ⟨g2, rfl⟩ : ∃ g2, g = g2 + 1 := ⟨g - 1, by omega⟩
      simp only [writesProg, runProg, c5Fold, List.foldl_nil]
  | cons w rest ih =>
      obtain ⟨b, v⟩ := w
      intro g x0 y0 x y pb hg
      simp only [List.length_cons] at hg
      obtain ⟨g2, rfl⟩ : ∃ g2, g = g2 + 9 := ⟨g - 9, by omega⟩
      have hlen : 9 * rest.length + 2 ≤ g2 + 7 := by omega
      rw [show writesProg ((b, v) :: rest) =
        .seq (.writeP (if b then 1 else 0) (.lit v)) (writesProg rest) from by
          simp [writesProg]]
      rw [show (g2 + 9) = (g2 + 8) + 1 from rfl, runProg_seq]
      cases b with
      | false =>
          rw [show (if (false : Bool) then 1 else 0) = 0 from rfl]
          cases hx : objectIs x v with
          | false =>
              rw [c5_write_eff_x g2 x0 y0 x y v pb hx]
              rw [show (g2 + 8) = (g2 + 7) + 1 from rfl, seqK_ok]
              rw [show c5Fold x y pb ((false, v) :: rest) = c5Fold v y true rest from by
                simp [c5Fold, c5Step, hx]]
              exact ih (g2 + 7) x0 y0 v y true hlen
          | true =>
              rw [c5_write_noop_x g2 x0 y0 x y v pb hx]
              rw [show (g2 + 8) = (g2 + 7) + 1 from rfl, seqK_ok]
              rw [show c5Fold x y pb ((false, v) :: rest) = c5Fold x y pb rest from by
                simp [c5Fold, c5Step, hx]]
              exact ih (g2 + 7) x0 y0 x y pb hlen
      | true =>
          rw [show (if (true : Bool) then 1 else 0) = 1 from rfl]
          cases hy : objectIs y v with
          | false =>
              rw [c5_write_eff_y g2 x0 y0 x y v pb hy]
              rw [show (g2 + 8) = (g2 + 7) + 1 from rfl, seqK_ok]
              rw [show c5Fold x y pb ((true, v) :: rest) = c5Fold x v true rest from by
                simp [c5Fold, c5Step, hy]]
              exact ih (g2 + 7) x0 y0 x v true hlen
          | true =>
              rw [c5_write_noop_y g2 x0 y0 x y v pb hy]
              rw [show (g2 + 8) = (g2 + 7) + 1 from rfl, seqK_ok]
              rw [show c5Fold x y pb ((true, v) :: rest) = c5Fold x y pb rest from by
                simp [c5Fold, c5Step, hy]]
              exact ih (g2 + 7) x0 y0 x y pb hlen

lemma c5_flush_true (g : Nat) (x0 y0 x y : V) :
    flushPending (g + 16) ({ c5Mid x0 y0 x y true with writeDepth := 0 }) =
      some (.ok (), c5S1 x0 y0 x y) := by
  simp only [c5Mid, c5Quiet, c5S1, c5Body, runOps, opsK, runOp, newEffectAux, runEffect, effD, effC,
    effFin, runProg, seqK, progW, progL, restK, dispK, dispFin, runCleanup, childK,
    writeCell, writeC1, writeC2, writeC3, writeC4, flushPending, flushP, flushLoop,
    flushRun, flushS, flushCont, actK, actFin, actErr, actErrK, tickK,
    evalExpr, trackedRead, notifySnap, notifyStep, scheduleEffect, subscribeCell,
    addListener, removeListener, removeSubListener, updCell, updEff, setCellValue,
    setCleanup, pushCleanup, refInc, refDecDel, refGet, cellValue, cellListeners, cleanupOf,
    alGet?, alSet, alPut, alErase, isFalsy, vAdd, vMul, memNat,
    List.find?, List.map, List.filter, List.any, List.all, List.isEmpty,
    Option.map, Option.getD, Option.isSome,
    Nat.reduceAdd, Nat.reduceSub, Nat.reduceMul, Nat.reduceBEq, Nat.reduceBNe,
    Int.reduceAdd, Int.reduceSub, Int.reduceMul, Int.reduceBEq, Int.reduceNeg,
    reduceIte, reduceCtorEq, Nat.reduceEqDiff, Nat.reduceBeqDiff, Nat.reduceBneDiff,
    Nat.reduceGT, Nat.reduceLT, Nat.reduceLeDiff, Bool.and_true, Bool.and_false,
    Bool.true_and, Bool.false_and, Bool.or_true, Bool.or_false, Bool.not_true, Bool.not_false,
    beq_self_eq_true, bne_self_eq_false,
    List.nil_append, List.cons_append, List.append_nil]

lemma c5_flush_false (g : Nat) (x0 y0 x y : V) :
    flushPending (g + 2) ({ c5Mid x0 y0 x y false with writeDepth := 0 }) =
      some (.ok (), c5Quiet x0 y0 x y) := by
  simp only [c5Mid, c5Quiet, c5Body, runOps, opsK, runOp, newEffectAux, runEffect, effD, effC,
    effFin, runProg, seqK, progW, progL, restK, dispK, dispFin, runCleanup, childK,
    writeCell, writeC1, writeC2, writeC3, writeC4, flushPending, flushP, flushLoop,
    flushRun, flushS, flushCont, actK, actFin, actErr, actErrK, tickK,
    evalExpr, trackedRead, notifySnap, notifyStep, scheduleEffect, subscribeCell,
    addListener, removeListener, removeSubListener, updCell, updEff, setCellValue,
    setCleanup, pushCleanup, refInc, refDecDel, refGet, cellValue, cellListeners, cleanupOf,
    alGet?, alSet, alPut, alErase, isFalsy, vAdd, vMul, memNat,
    List.find?, List.map, List.filter, List.any, List.all, List.isEmpty,
    Option.map, Option.getD, Option.isSome,
    Nat.reduceAdd, Nat.reduceSub, Nat.reduceMul, Nat.reduceBEq, Nat.reduceBNe,
    Int.reduceAdd, Int.reduceSub, Int.reduceMul, Int.reduceBEq, Int.reduceNeg,
    reduceIte, reduceCtorEq, Nat.reduceEqDiff, Nat.reduceBeqDiff, Nat.reduceBneDiff,
    Nat.reduceGT, Nat.reduceLT, Nat.reduceLeDiff, Bool.and_true, Bool.and_false,
    Bool.true_and, Bool.false_and, Bool.or_true, Bool.or_false, Bool.not_true, Bool.not_false,
    beq_self_eq_true, bne_self_eq_false,
    List.nil_append, List.cons_append, List.append_nil]

end EffectiveState

namespace EffectiveState

@[simp] lemma c5Mid_writeDepth (x0 y0 x y : V) (pb : Bool) :
    (c5Mid x0 y0 x y pb).writeDepth = 1 := rfl

/-- C5: action batching over the canonical two-cells-one-observer
scenario, for an arbitrary batch `ws` of writes to either or both
cells with arbitrary values.  (1) Running the batch inside the open
transaction reaches exactly the mid-state given by folding the batch;
(2) the mid-state's run trace and log equal the pre-action ones — no
dependent effect runs and nothing is observed before the action body
finishes; (3) the whole `action` call ends in the post-flush state:
the observer re-ran exactly once when some write changed a value, and
not at all otherwise; (4) in the former case the single new
observation is the pair of final (post-all-writes) values of the two
cells, whose stored values match the fold of the batch. -/
theorem c5_action_batching (ws : List (Bool × V)) (x0 y0 : V) :
    runOps 30 [.newCell x0, .newCell y0, .newEffect c5Body] initSt =
      some (.ok (), c5S0 x0 y0) ∧
    (∀ g, 9 * ws.length + 2 ≤ g →
      runProg g (writesProg ws) ({ c5S0 x0 y0 with writeDepth := 1 }) =
        some (.ok (), c5Mid x0 y0 (c5Fold x0 y0 false ws).1 (c5Fold x0 y0 false ws).2.1
          (c5Fold x0 y0 false ws).2.2)) ∧
    (∀ x y pb, (c5Mid x0 y0 x y pb).runs = (c5S0 x0 y0).runs ∧
      (c5Mid x0 y0 x y pb).log = (c5S0 x0 y0).log) ∧
    (∀ f, 9 * ws.length + 30 ≤ f →
      runOp f (.actionOp (writesProg ws)) (c5S0 x0 y0) =
        some (.ok (), if (c5Fold x0 y0 false ws).2.2 then
          c5S1 x0 y0 (c5Fold x0 y0 false ws).1 (c5Fold x0 y0 false ws).2.1
        else c5Quiet x0 y0 (c5Fold x0 y0 false ws).1 (c5Fold x0 y0 false ws).2.1)) ∧
    (∀ x y : V,
      (c5S1 x0 y0 x y).log = (c5S0 x0 y0).log ++ [.effEv (.pair x y)] ∧
      (c5Quiet x0 y0 x y).log = (c5S0 x0 y0).log ∧
      ((c5S1 x0 y0 x y).runs).count 0 = ((c5S0 x0 y0).runs).count 0 + 1 ∧
      ((c5Quiet x0 y0 x y).runs).count 0 = ((c5S0 x0 y0).runs).count 0 ∧
      cellValue (c5S1 x0 y0 x y) 0 = x ∧ cellValue (c5S1 x0 y0 x y) 1 = y ∧
      cellValue (c5Quiet x0 y0 x y) 0 = x ∧ cellValue (c5Quiet x0 y0 x y) 1 = y) := by
  refine ⟨c5_setup x0 y0, ?_, ?_, ?_, ?_⟩
  · intro g hg
    have hst : ({ c5S0 x0 y0 with writeDepth := 1 } : St) = c5Mid x0 y0 x0 y0 false := rfl
    rw [hst]
    exact c5_writes ws g x0 y0 x0 y0 false hg
  · intro x y pb
    cases pb <;> exact ⟨rfl, rfl⟩
  · intro f hf
    obtain ⟨g, rfl⟩ : ∃ g, f = g + 24 := ⟨f - 24, by omega⟩
    have h0 : runOp (g + 24) (.actionOp (writesProg ws)) (c5S0 x0 y0) =
        actK (g + 23) (runProg (g + 23) (writesProg ws)
          { c5S0 x0 y0 with writeDepth := (c5S0 x0 y0).writeDepth + 1 }) := by
      simp only [runOp]
    rw [h0]
    have hst : ({ c5S0 x0 y0 with writeDepth := (c5S0 x0 y0).writeDepth + 1 } : St) =
        c5Mid x0 y0 x0 y0 false := rfl
    rw [hst]
    rw [c5_writes ws (g + 23) x0 y0 x0 y0 false (by omega)]
    simp only [actK, c5Mid_writeDepth, Nat.sub_self, actFin]
    cases hPB : (c5Fold x0 y0 false ws).2.2 with
    | true =>
        rw [show (g + 23) = (g + 7) + 16 from rfl, c5_flush_true]
        simp
    | false =>
        rw [show (g + 23) = (g + 21) + 2 from rfl, c5_flush_false]
        simp
  · intro x y
    refine ⟨?_, rfl, ?_, rfl, rfl, rfl, rfl, rfl⟩
    · simp [c5S1, c5S0, c5Quiet]
    · simp [c5S1, c5S0, c5Quiet]

end EffectiveState

namespace EffectiveState

/-- Witness for C5: a two-write action from (0, 0) to (1, 2) runs the
observer exactly once, after the body, seeing the final values. -/
theorem c5_witness :
    runOp 60 (.actionOp (writesProg [(false, .int 1), (true, .int 2)]))
        (c5S0 (.int 0) (.int 0)) =
      some (.ok (), c5S1 (.int 0) (.int 0) (.int 1) (.int 2)) := by
  have h := (c5_action_batching [(false, .int 1), (true, .int 2)]
    (.int 0) (.int 0)).2.2.2.1 60 (by norm_num)
  rw [show c5Fold (.int 0) (.int 0) false [(false, .int 1), (true, .int 2)] =
    ((.int 1 : V), (.int 2 : V), true) from by decide] at h
  simpa using h
end EffectiveState

namespace EffectiveState

lemma alGet?_alSet {α : Type} (lst : List (Nat × α)) (k k2 : Nat) (v : α) :
    alGet? (alSet lst k v) k2 =
      if k2 = k then (alGet? lst k).map (fun _ => v) else alGet? lst k2 := by
  induction lst with
  | nil =>
      unfold alSet alGet?
      simp only [List.map_nil, List.find?_nil, Option.map_none]
      split <;> rfl
  | cons hd tl ih =>
      unfold alSet at ih ⊢
      rw [List.map_cons]
      by_cases hh : hd.1 = k
      · rw [if_pos hh]
        by_cases hc : k2 = k
        · subst hc
          rw [if_pos rfl] at ih ⊢
          unfold alGet?
          rw [List.find?_cons_of_pos _ (by simp), List.find?_cons_of_pos _ (by simp [hh])]
          simp
        · rw [if_neg hc] at ih ⊢
          unfold alGet? at ih ⊢
          rw [List.find?_cons_of_neg _ (by simp; omega),
              List.find?_cons_of_neg _ (by simp [hh]; omega)]
          exact ih
      · rw [if_neg hh]
        by_cases hk2 : hd.1 = k2
        · have hc : ¬(k2 = k) := by omega
          rw [if_neg hc]
          unfold alGet?
          rw [List.find?_cons_of_pos _ (by simp [hk2]), List.find?_cons_of_pos _ (by simp [hk2])]
        · by_cases hc : k2 = k
          · subst hc
            rw [if_pos rfl] at ih ⊢
            unfold alGet? at ih ⊢
            rw [List.find?_cons_of_neg _ (by simp [hk2]), List.find?_cons_of_neg _ (by simp [hh])]
            exact ih
          · rw [if_neg hc] at ih ⊢
            unfold alGet? at ih ⊢
            rw [List.find?_cons_of_neg _ (by simp [hk2]), List.find?_cons_of_neg _ (by simp [hk2])]
            exact ih

lemma alGet?_alPut {α : Type} (lst : List (Nat × α)) (k k2 : Nat) (v : α) :
    alGet? (alPut lst k v) k2 = if k2 = k then some v else alGet? lst k2 := by
  unfold alPut
  cases h : (lst.find? (fun p => p.1 == k)).isSome with
  | true =>
      rw [if_pos rfl, alGet?_alSet]
      by_cases hc : k2 = k
      · rw [if_pos hc, if_pos hc]
        obtain ⟨p, hp⟩ := Option.isSome_iff_exists.mp h
        unfold alGet?
        rw [hp]
        rfl
      · rw [if_neg hc, if_neg hc]
  | false =>
      rw [if_neg (by simp [h])]
      unfold alGet?
      rw [List.find?_append]
      by_cases hc : k2 = k
      · subst hc
        have h2 : lst.find? (fun p => p.1 == k2) = none := by
          cases h2 : lst.find? (fun p => p.1 == k2) with
          | none => rfl
          | some p => rw [h2] at h; simp at h
        rw [h2, if_pos rfl]
        simp
      · rw [if_neg hc]
        have h3 : List.find? (fun p => (p.1 == k2)) [(k, v)] = none := by
          rw [List.find?_cons_of_neg _ (by simp; omega)]
          rfl
        rw [h3, Option.or_none]

lemma alGet?_alErase {α : Type} (lst : List (Nat × α)) (k k2 : Nat) :
    alGet? (alErase lst k) k2 = if k2 = k then none else alGet? lst k2 := by
  induction lst with
  | nil =>
      unfold alErase alGet?
      simp only [List.filter_nil, List.find?_nil, Option.map_none]
      split <;> rfl
  | cons hd tl ih =>
      unfold alErase at ih ⊢
      by_cases hh : hd.1 = k
      · rw [List.filter_cons_of_neg (by simp [hh])]
        by_cases hc : k2 = k
        · rw [if_pos hc] at ih ⊢
          exact ih
        · rw [if_neg hc] at ih ⊢
          unfold alGet? at ih ⊢
          rw [List.find?_cons_of_neg _ (by simp [hh]; omega)]
          exact ih
      · rw [List.filter_cons_of_pos (by simp [hh])]
        by_cases hk2 : hd.1 = k2
        · have hc : ¬(k2 = k) := by omega
          rw [if_neg hc]
          unfold alGet?
          rw [List.find?_cons_of_pos _ (by simp [hk2]), List.find?_cons_of_pos _ (by simp [hk2])]
        · by_cases hc : k2 = k
          · rw [if_pos hc] at ih ⊢
            unfold alGet? at ih ⊢
            rw [List.find?_cons_of_neg _ (by simp [hk2])]
            exact ih
          · rw [if_neg hc] at ih ⊢
            unfold alGet? at ih ⊢
            rw [List.find?_cons_of_neg _ (by simp [hk2]), List.find?_cons_of_neg _ (by simp [hk2])]
            exact ih

end EffectiveState

namespace EffectiveState

/-! ## Exhausted-continuation lemmas -/

lemma flushLoop_none (f : Nat) : flushLoop f none = none := by cases f <;> simp [flushLoop]

lemma flushCont_none (f : Nat) (rest : List Nat) : flushCont f rest none = none := by
  cases f <;> simp [flushCont]

lemma seqK_none (f : Nat) (q : Prog) : seqK f q none = none := by cases f <;> simp [seqK]

lemma restK_none (f : Nat) (prev : Option Nat) : restK f prev none = none := by
  cases f <;> simp [restK]

lemma effFin_none (f : Nat) (prev : Option Nat) : effFin f prev none = none := by
  cases f <;> simp [effFin]

lemma effC_none (f e : Nat) (b : Prog) : effC f e b none = none := by cases f <;> simp [effC]

lemma childK_none (f : Nat) (rest : List CEntry) : childK f rest none = none := by
  cases f <;> simp [childK]

lemma opsK_none (f : Nat) (rest : List Op) : opsK f rest none = none := by
  cases f <;> simp [opsK]

lemma dispFin_none (f e : Nat) : dispFin f e none = none := by cases f <;> simp [dispFin]

end EffectiveState

namespace EffectiveState

/-! ## The master preservation induction over the fueled interpreter -/

variable {I : St → Prop} {M : St → Nat} {OKe : Nat → Prop}

theorem bigP_zero : BigP I M OKe 0 where
  wc := fun c v st r st' h _ => by simp [writeCell] at h
  wc1 := fun c v st ocs r st' h _ => by simp [writeC1] at h
  wc2 := fun c v st cs b r st' h _ => by simp [writeC2] at h
  wc3 := fun st r st' h _ => by simp [writeC3] at h
  wc4 := fun d st r st' h _ => by simp [writeC4] at h
  fp := fun st r st' h _ => by simp [flushPending] at h
  fpp := fun pend st r st' h _ => by simp [flushP] at h
  fl := fun x st1 r st' h _ => by simp [flushLoop] at h
  fr := fun snap st r st' h _ => by simp [flushRun] at h
  fs := fun e2 rest st n r st' h _ _ => by simp [flushS] at h
  fc := fun rest x st1 r st' h _ => by simp [flushCont] at h
  re := fun e2 st r st' h _ _ => by simp [runEffect] at h
  red := fun e2 st oes r st' h _ _ => by simp [effD] at h
  rec2 := fun e2 body st1 r st' h _ _ => by simp [effC] at h
  ref2 := fun prev x st4 r st' h _ _ => by simp [effFin] at h
  rp := fun p st r st' h _ => by simp [runProg] at h
  sk := fun q x st1 r st' h _ => by simp [seqK] at h
  pw := fun c vst r st' h _ => by simp [progW] at h
  rk := fun prev x st1 r st' h _ _ => by simp [restK] at h
  dk := fun e3 st oes r st' h _ => by simp [dispK] at h
  df := fun e3 st1 r st' h _ => by simp [dispFin] at h
  rc := fun ch st st' h _ => by simp [runCleanup] at h
  ck := fun rest st1 st' h _ => by simp [childK] at h
  ro := fun op st r st' h _ => by simp [runOp] at h
  ok2 := fun rest x st1 r st' h _ => by simp [opsK] at h
  ros := fun ops st r st' h _ => by simp [runOps] at h

/-- Dissect a successful `effFin` into the underlying body result. -/
lemma effFin_some {f : Nat} {prev : Option Nat} {o : Option (Except Nat Unit × St)}
    {r : Except Nat Unit} {st' : St} (h : effFin f prev o = some (r, st')) :
    ∃ x st4, o = some (x, st4) ∧ effFin f prev (some (x, st4)) = some (r, st') := by
  cases o with
  | none => rw [effFin_none] at h; cases h
  | some p => exact ⟨p.1, p.2, rfl, h⟩

/-- `actK` (the action finally-block dispatcher) preserves the invariant,
given that `flushPending` at the same fuel does. -/
lemma actK_pres (Pr : Pres I M OKe) {f : Nat}
    (hfp : ∀ st r st', flushPending f st = some (r, st') → I st → I st' ∧ M st' = M st) :
    ∀ (x : Except Nat Unit) (st2 : St) (r : Except Nat Unit) (st' : St),
      actK f (some (x, st2)) = some (r, st') → I st2 → I st' ∧ M st' = M st2 := by
  intro x st2 r st' h hI
  cases x with
  | ok u =>
      simp only [actK] at h
      cases hd : st2.writeDepth - 1 with
      | zero =>
          rw [hd] at h
          simp only [actFin] at h
          obtain ⟨hI1, hM1⟩ := Pr.ctrl st2 st2.pending 0 st2.flushing st2.microtask hI
          obtain ⟨hI2, hM2⟩ := hfp _ r st' h hI1
          exact ⟨hI2, hM2.trans hM1⟩
      | succ n =>
          rw [hd] at h
          simp only [actFin, Option.some.injEq, Prod.mk.injEq] at h
          obtain ⟨rfl, rfl⟩ := h
          exact Pr.ctrl st2 st2.pending (n + 1) st2.flushing st2.microtask hI
  | error t =>
      simp only [actK] at h
      cases hd : st2.writeDepth - 1 with
      | zero =>
          rw [hd] at h
          simp only [actErr] at h
          cases hf : flushPending f { st2 with writeDepth := 0 } with
          | none => rw [hf] at h; simp [actErrK] at h
          | some p =>
              obtain ⟨y, st4⟩ := p
              rw [hf] at h
              obtain ⟨hI1, hM1⟩ := Pr.ctrl st2 st2.pending 0 st2.flushing st2.microtask hI
              obtain ⟨hI2, hM2⟩ := hfp _ y st4 hf hI1
              cases y with
              | ok u2 =>
                  simp only [actErrK, Option.some.injEq, Prod.mk.injEq] at h
                  obtain ⟨rfl, rfl⟩ := h
                  exact ⟨hI2, hM2.trans hM1⟩
              | error t2 =>
                  simp only [actErrK, Option.some.injEq, Prod.mk.injEq] at h
                  obtain ⟨rfl, rfl⟩ := h
                  exact ⟨hI2, hM2.trans hM1⟩
      | succ n =>
          rw [hd] at h
          simp only [actErr, Option.some.injEq, Prod.mk.injEq] at h
          obtain ⟨rfl, rfl⟩ := h
          exact Pr.ctrl st2 st2.pending (n + 1) st2.flushing st2.microtask hI

/-- `newEffectAux` preserves the invariant, given that `runEffect` at the
same fuel does. -/
lemma nea_pres (Pr : Pres I M OKe) {f : Nat}
    (hre : ∀ e2 st r st', runEffect f e2 st = some (r, st') → I st → OKe e2 →
      I st' ∧ M st' = M st) :
    ∀ (p : Prog) (st : St) (r : Except Nat Unit) (st' : St),
      newEffectAux f p st = some (r, st') → I st → I st' ∧ M st' = M st := by
  intro p st r st' h hI
  obtain ⟨hI1, hM1⟩ := Pr.newe st p hI
  have hok : OKe st.nextEffect := Pr.okFresh st st.nextEffect hI (Nat.le_refl _)
  cases hcur : st.currentEffect with
  | none =>
      simp only [newEffectAux, hcur] at h
      rw [hcur] at hI1 hM1
      obtain ⟨hI2, hM2⟩ := hre st.nextEffect _ r st' h hI1 hok
      exact ⟨hI2, hM2.trans hM1⟩
  | some parent =>
      simp only [newEffectAux, hcur] at h
      rw [hcur] at hI1 hM1
      have hokp : OKe parent := Pr.okCur st parent hI hcur
      obtain ⟨hI2, hM2⟩ := Pr.pushCh _ parent st.nextEffect hI1 hokp
      obtain ⟨hI3, hM3⟩ := hre st.nextEffect _ r st' h hI2 hok
      exact ⟨hI3, hM3.trans (hM2.trans hM1)⟩

theorem bigStep (Pr : Pres I M OKe) (f : Nat) (ih : BigP I M OKe f) :
    BigP I M OKe (f + 1) where
  wc := by
    intro c v st r st' h hI
    simp only [writeCell] at h
    exact ih.wc1 c v st _ r st' h hI
  wc1 := by
    intro c v st ocs r st' h hI
    cases ocs with
    | none =>
        simp only [writeC1, Option.some.injEq, Prod.mk.injEq] at h
        obtain ⟨rfl, rfl⟩ := h
        exact ⟨hI, rfl⟩
    | some cs =>
        simp only [writeC1] at h
        exact ih.wc2 c v st cs _ r st' h hI
  wc2 := by
    intro c v st cs b r st' h hI
    cases b with
    | true =>
        simp only [writeC2, Option.some.injEq, Prod.mk.injEq] at h
        obtain ⟨rfl, rfl⟩ := h
        exact ⟨hI, rfl⟩
    | false =>
        simp only [writeC2] at h
        obtain ⟨hI0, hM0⟩ :=
          Pr.ctrl st st.pending (st.writeDepth + 1) st.flushing st.microtask hI
        obtain ⟨hI1, hM1⟩ := Pr.setV { st with writeDepth := st.writeDepth + 1 } c v hI0
        obtain ⟨hI2, hM2⟩ := Pr.notif cs.listeners c _ hI1
        obtain ⟨hI3, hM3⟩ := ih.wc3 _ r st' h hI2
        exact ⟨hI3, hM3.trans (hM2.trans (hM1.trans hM0))⟩
  wc3 := by
    intro st r st' h hI
    simp only [writeC3] at h
    exact ih.wc4 _ st r st' h hI
  wc4 := by
    intro d st r st' h hI
    cases d with
    | zero =>
        simp only [writeC4] at h
        obtain ⟨hI1, hM1⟩ := Pr.ctrl st st.pending 0 st.flushing st.microtask hI
        obtain ⟨hI2, hM2⟩ := ih.fp _ r st' h hI1
        exact ⟨hI2, hM2.trans hM1⟩
    | succ n =>
        simp only [writeC4, Option.some.injEq, Prod.mk.injEq] at h
        obtain ⟨rfl, rfl⟩ := h
        exact Pr.ctrl st st.pending (n + 1) st.flushing st.microtask hI
  fp := by
    intro st r st' h hI
    simp only [flushPending] at h
    exact ih.fpp st.pending st r st' h hI
  fpp := by
    intro pend st r st' h hI
    cases pend with
    | nil =>
        simp only [flushP, Option.some.injEq, Prod.mk.injEq] at h
        obtain ⟨rfl, rfl⟩ := h
        exact Pr.ctrl st st.pending st.writeDepth false st.microtask hI
    | cons e rest =>
        simp only [flushP] at h
        obtain ⟨hI1, hM1⟩ := Pr.ctrl st [] st.writeDepth st.flushing st.microtask hI
        cases hr : flushRun f (e :: rest) { st with pending := [] } with
        | none => rw [hr, flushLoop_none] at h; exact absurd h (by simp)
        | some p =>
            obtain ⟨x, st1⟩ := p
            rw [hr] at h
            obtain ⟨hI2, hM2⟩ := ih.fr (e :: rest) _ x st1 hr hI1
            obtain ⟨hI3, hM3⟩ := ih.fl x st1 r st' h hI2
            exact ⟨hI3, hM3.trans (hM2.trans hM1)⟩
  fl := by
    intro x st1 r st' h hI
    cases x with
    | error t =>
        simp only [flushLoop, Option.some.injEq, Prod.mk.injEq] at h
        obtain ⟨rfl, rfl⟩ := h
        exact ⟨hI, rfl⟩
    | ok u =>
        simp only [flushLoop] at h
        exact ih.fp st1 r st' h hI
  fr := by
    intro snap st r st' h hI
    cases snap with
    | nil =>
        simp only [flushRun, Option.some.injEq, Prod.mk.injEq] at h
        obtain ⟨rfl, rfl⟩ := h
        exact ⟨hI, rfl⟩
    | cons e rest =>
        simp only [flushRun] at h
        exact ih.fs e rest st (refGet st e) r st' h hI rfl
  fs := by
    intro e2 rest st n r st' h hI hn
    cases n with
    | zero =>
        simp only [flushS] at h
        exact ih.fr rest st r st' h hI
    | succ m =>
        simp only [flushS] at h
        have hok : OKe e2 := Pr.okRef st e2 hI (by rw [hn]; exact Nat.succ_ne_zero m)
        cases hr : runEffect f e2 st with
        | none => rw [hr, flushCont_none] at h; exact absurd h (by simp)
        | some p =>
            obtain ⟨x, st1⟩ := p
            rw [hr] at h
            obtain ⟨hI1, hM1⟩ := ih.re e2 st x st1 hr hI hok
            obtain ⟨hI2, hM2⟩ := ih.fc rest x st1 r st' h hI1
            exact ⟨hI2, hM2.trans hM1⟩
  fc := by
    intro rest x st1 r st' h hI
    cases x with
    | error t =>
        simp only [flushCont, Option.some.injEq, Prod.mk.injEq] at h
        obtain ⟨rfl, rfl⟩ := h
        exact ⟨hI, rfl⟩
    | ok u =>
        simp only [flushCont] at h
        exact ih.fr rest st1 r st' h hI
  re := by
    intro e2 st r st' h hI hok
    simp only [runEffect] at h
    exact ih.red e2 st _ r st' h hI hok
  red := by
    intro e2 st oes r st' h hI hok
    cases oes with
    | none =>
        simp only [effD, Option.some.injEq, Prod.mk.injEq] at h
        obtain ⟨rfl, rfl⟩ := h
        exact ⟨hI, rfl⟩
    | some es =>
        simp only [effD] at h
        cases hc : runCleanup f es.cleanup st with
        | none => rw [hc, effC_none] at h; exact absurd h (by simp)
        | some st1 =>
            rw [hc] at h
            obtain ⟨hI1, hM1⟩ := ih.rc es.cleanup st st1 hc hI
            obtain ⟨hI2, hM2⟩ := ih.rec2 e2 es.body st1 r st' h hI1 hok
            exact ⟨hI2, hM2.trans hM1⟩
  rec2 := by
    intro e2 body st1 r st' h hI hok
    simp only [effC] at h
    obtain ⟨hI1, hM1⟩ := Pr.setCl st1 e2 hI
    obtain ⟨hI2, hM2⟩ := Pr.curI (setCleanup st1 e2 []) (some e2) hI1
      (fun x hx => by cases hx; exact hok)
    obtain ⟨hI3, hM3⟩ :=
      Pr.mRuns { setCleanup st1 e2 [] with currentEffect := some e2 } e2 hI2 hok
    obtain ⟨x, st5, hp, h2⟩ := effFin_some h
    obtain ⟨hI5, hM5⟩ := ih.rp body _ x st5 hp hI3
    obtain ⟨hI6, hM6⟩ := ih.ref2 st1.currentEffect x st5 r st' h2 hI5
      (fun y hy => Pr.okCur st1 y hI hy)
    exact ⟨hI6, hM6.trans (hM5.trans (hM3.trans (hM2.trans hM1)))⟩
  ref2 := by
    intro prev x st4 r st' h hI hg
    cases x with
    | error t =>
        simp only [effFin, Option.some.injEq, Prod.mk.injEq] at h
        obtain ⟨rfl, rfl⟩ := h
        exact ⟨hI, rfl⟩
    | ok u =>
        simp only [effFin, Option.some.injEq, Prod.mk.injEq] at h
        obtain ⟨rfl, rfl⟩ := h
        exact Pr.curI st4 prev hI hg
  rp := by
    intro p st r st' h hI
    cases p with
    | skip =>
        simp only [runProg, Option.some.injEq, Prod.mk.injEq] at h
        obtain ⟨rfl, rfl⟩ := h
        exact ⟨hI, rfl⟩
    | seq p q =>
        simp only [runProg] at h
        cases hp : runProg f p st with
        | none => rw [hp, seqK_none] at h; exact absurd h (by simp)
        | some pr =>
            obtain ⟨x, st1⟩ := pr
            rw [hp] at h
            obtain ⟨hI1, hM1⟩ := ih.rp p st x st1 hp hI
            obtain ⟨hI2, hM2⟩ := ih.sk q x st1 r st' h hI1
            exact ⟨hI2, hM2.trans hM1⟩
    | writeP c e =>
        simp only [runProg] at h
        obtain ⟨hIe, hMe⟩ := Pr.evalE e st hI
        obtain ⟨hI2, hM2⟩ := ih.pw c (evalExpr e st) r st' h hIe
        exact ⟨hI2, hM2.trans hMe⟩
    | logP e =>
        simp only [runProg, progL, Option.some.injEq, Prod.mk.injEq] at h
        obtain ⟨rfl, rfl⟩ := h
        obtain ⟨hIe, hMe⟩ := Pr.evalE e st hI
        obtain ⟨hI2, hM2⟩ := Pr.mEffEv (evalExpr e st).2 (evalExpr e st).1 hIe
        exact ⟨hI2, hM2.trans hMe⟩
    | throwP t =>
        simp only [runProg, Option.some.injEq, Prod.mk.injEq] at h
        obtain ⟨rfl, rfl⟩ := h
        exact ⟨hI, rfl⟩
    | untrackedP p =>
        simp only [runProg] at h
        obtain ⟨hIn, hMn⟩ := Pr.curI st none hI (fun x hx => by cases hx)
        cases hp : runProg f p { st with currentEffect := none } with
        | none => rw [hp, restK_none] at h; exact absurd h (by simp)
        | some pr =>
            obtain ⟨x, st1⟩ := pr
            rw [hp] at h
            obtain ⟨hI1, hM1⟩ := ih.rp p _ x st1 hp hIn
            obtain ⟨hI2, hM2⟩ := ih.rk st.currentEffect x st1 r st' h hI1
              (fun y hy => Pr.okCur st y hI hy)
            exact ⟨hI2, hM2.trans (hM1.trans hMn)⟩
    | disposeP e3 =>
        simp only [runProg] at h
        obtain ⟨hI1, hM1⟩ := Pr.mDisp st e3 hI
        obtain ⟨hI2, hM2⟩ := ih.dk e3 _ (alGet? st.effects e3) r st' h hI1
        exact ⟨hI2, hM2.trans hM1⟩
  sk := by
    intro q x st1 r st' h hI
    cases x with
    | error t =>
        simp only [seqK, Option.some.injEq, Prod.mk.injEq] at h
        obtain ⟨rfl, rfl⟩ := h
        exact ⟨hI, rfl⟩
    | ok u =>
        simp only [seqK] at h
        exact ih.rp q st1 r st' h hI
  pw := by
    intro c vst r st' h hI
    simp only [progW] at h
    exact ih.wc c vst.1 vst.2 r st' h hI
  rk := by
    intro prev x st1 r st' h hI hg
    simp only [restK, Option.some.injEq, Prod.mk.injEq] at h
    obtain ⟨rfl, rfl⟩ := h
    exact Pr.curI st1 prev hI hg
  dk := by
    intro e3 st oes r st' h hI
    cases oes with
    | none =>
        simp only [dispK, Option.some.injEq, Prod.mk.injEq] at h
        obtain ⟨rfl, rfl⟩ := h
        exact ⟨hI, rfl⟩
    | some es =>
        simp only [dispK] at h
        cases hc : runCleanup f es.cleanup st with
        | none => rw [hc, dispFin_none] at h; exact absurd h (by simp)
        | some st1 =>
            rw [hc] at h
            obtain ⟨hI1, hM1⟩ := ih.rc es.cleanup st st1 hc hI
            obtain ⟨hI2, hM2⟩ := ih.df e3 st1 r st' h hI1
            exact ⟨hI2, hM2.trans hM1⟩
  df := by
    intro e3 st1 r st' h hI
    simp only [dispFin, Option.some.injEq, Prod.mk.injEq] at h
    obtain ⟨rfl, rfl⟩ := h
    exact Pr.setCl st1 e3 hI
  rc := by
    intro ch st st' h hI
    cases ch with
    | nil =>
        simp only [runCleanup, Option.some.injEq] at h
        subst h
        exact ⟨hI, rfl⟩
    | cons entry rest =>
        cases entry with
        | dereg c l e3 =>
            simp only [runCleanup] at h
            obtain ⟨hI1, hM1⟩ := Pr.dereg st c l e3 hI
            obtain ⟨hI2, hM2⟩ := ih.rc rest _ st' h hI1
            exact ⟨hI2, hM2.trans hM1⟩
        | child en =>
            simp only [runCleanup] at h
            cases hc : runCleanup f (cleanupOf st en) st with
            | none => rw [hc, childK_none] at h; exact absurd h (by simp)
            | some st1 =>
                rw [hc] at h
                obtain ⟨hI1, hM1⟩ := ih.rc (cleanupOf st en) st st1 hc hI
                obtain ⟨hI2, hM2⟩ := ih.ck rest st1 st' h hI1
                exact ⟨hI2, hM2.trans hM1⟩
  ck := by
    intro rest st1 st' h hI
    simp only [childK] at h
    exact ih.rc rest st1 st' h hI
  ro := by
    intro op st r st' h hI
    cases op with
    | newCell v =>
        simp only [runOp, Option.some.injEq, Prod.mk.injEq] at h
        obtain ⟨rfl, rfl⟩ := h
        exact Pr.newc st v hI
    | newEffect p =>
        simp only [runOp] at h
        exact nea_pres Pr
          (fun e2 st0 r0 st0' h0 hI0 hok0 => ih.re e2 st0 r0 st0' h0 hI0 hok0)
          p st r st' h hI
    | newComputed ex =>
        simp only [runOp] at h
        obtain ⟨hI1, hM1⟩ := Pr.newc st V.undef hI
        obtain ⟨hI2, hM2⟩ := nea_pres Pr
          (fun e2 st0 r0 st0' h0 hI0 hok0 => ih.re e2 st0 r0 st0' h0 hI0 hok0)
          (.writeP st.nextCell ex) _ r st' h hI1
        exact ⟨hI2, hM2.trans hM1⟩
    | writeOp c v =>
        simp only [runOp] at h
        exact ih.wc c v st r st' h hI
    | readOp c =>
        simp only [runOp, Option.some.injEq, Prod.mk.injEq] at h
        obtain ⟨rfl, rfl⟩ := h
        simpa only [evalExpr] using Pr.evalE (.readE c) st hI
    | subscribeOp c =>
        simp only [runOp, Option.some.injEq, Prod.mk.injEq] at h
        obtain ⟨rfl, rfl⟩ := h
        exact Pr.subsc c st hI
    | unsubscribeOp c l2 =>
        simp only [runOp, Option.some.injEq, Prod.mk.injEq] at h
        obtain ⟨rfl, rfl⟩ := h
        exact Pr.unsub st c l2 hI
    | disposeOp e3 =>
        simp only [runOp] at h
        obtain ⟨hI1, hM1⟩ := Pr.mDisp st e3 hI
        obtain ⟨hI2, hM2⟩ := ih.dk e3 _ (alGet? st.effects e3) r st' h hI1
        exact ⟨hI2, hM2.trans hM1⟩
    | actionOp p =>
        simp only [runOp] at h
        obtain ⟨hI1, hM1⟩ :=
          Pr.ctrl st st.pending (st.writeDepth + 1) st.flushing st.microtask hI
        cases hp : runProg f p { st with writeDepth := st.writeDepth + 1 } with
        | none => rw [hp] at h; simp [actK] at h
        | some pr =>
            obtain ⟨x, st2⟩ := pr
            rw [hp] at h
            obtain ⟨hI2, hM2⟩ := ih.rp p _ x st2 hp hI1
            obtain ⟨hI3, hM3⟩ := actK_pres Pr
              (fun st0 r0 st0' h0 hI0 => ih.fp st0 r0 st0' h0 hI0) x st2 r st' h hI2
            exact ⟨hI3, hM3.trans (hM2.trans hM1)⟩
    | untrackedOp p =>
        simp only [runOp] at h
        obtain ⟨hIn, hMn⟩ := Pr.curI st none hI (fun x hx => by cases hx)
        cases hp : runProg f p { st with currentEffect := none } with
        | none => rw [hp, restK_none] at h; exact absurd h (by simp)
        | some pr =>
            obtain ⟨x, st1⟩ := pr
            rw [hp] at h
            obtain ⟨hI1, hM1⟩ := ih.rp p _ x st1 hp hIn
            obtain ⟨hI2, hM2⟩ := ih.rk st.currentEffect x st1 r st' h hI1
              (fun y hy => Pr.okCur st y hI hy)
            exact ⟨hI2, hM2.trans (hM1.trans hMn)⟩
    | computedCallValOp c v =>
        simp only [runOp, computedCall, Option.some.injEq, Prod.mk.injEq] at h
        obtain ⟨rfl, rfl⟩ := h
        simpa only [evalExpr] using Pr.evalE (.readE c) st hI
    | computedCallFnOp c =>
        simp only [runOp, computedCall, Option.some.injEq, Prod.mk.injEq] at h
        obtain ⟨rfl, rfl⟩ := h
        exact Pr.subsc c st hI
    | tick =>
        simp only [runOp] at h
        cases hm : st.microtask with
        | true =>
            rw [hm] at h
            simp only [tickK] at h
            obtain ⟨hI1, hM1⟩ := Pr.ctrl st st.pending st.writeDepth st.flushing false hI
            obtain ⟨hI2, hM2⟩ := ih.fp _ r st' h hI1
            exact ⟨hI2, hM2.trans hM1⟩
        | false =>
            rw [hm] at h
            simp only [tickK, Option.some.injEq, Prod.mk.injEq] at h
            obtain ⟨rfl, rfl⟩ := h
            exact ⟨hI, rfl⟩
  ok2 := by
    intro rest x st1 r st' h hI
    cases x with
    | error t =>
        simp only [opsK, Option.some.injEq, Prod.mk.injEq] at h
        obtain ⟨rfl, rfl⟩ := h
        exact ⟨hI, rfl⟩
    | ok u =>
        simp only [opsK] at h
        exact ih.ros rest st1 r st' h hI
  ros := by
    intro ops st r st' h hI
    cases ops with
    | nil =>
        simp only [runOps, Option.some.injEq, Prod.mk.injEq] at h
        obtain ⟨rfl, rfl⟩ := h
        exact ⟨hI, rfl⟩
    | cons op rest =>
        simp only [runOps] at h
        cases hr : runOp f op st with
        | none => rw [hr, opsK_none] at h; exact absurd h (by simp)
        | some pr =>
            obtain ⟨x, st1⟩ := pr
            rw [hr] at h
            obtain ⟨hI1, hM1⟩ := ih.ro op st x st1 hr hI
            obtain ⟨hI2, hM2⟩ := ih.ok2 rest x st1 r st' h hI1
            exact ⟨hI2, hM2.trans hM1⟩

theorem bigAll (Pr : Pres I M OKe) : ∀ f, BigP I M OKe f := by
  intro f
  induction f with
  | zero => exact bigP_zero
  | succ g ihg => exact bigStep Pr g ihg

/-- Any `Pres` instance is preserved by arbitrary operation sequences. -/
lemma runOps_inv (Pr : Pres I M OKe) (f : Nat) (ops : List Op) (st : St)
    (r : Except Nat Unit) (st' : St) (h : runOps f ops st = some (r, st')) (hI : I st) :
    I st' ∧ M st' = M st :=
  (bigAll Pr f).ros ops st r st' h hI

end EffectiveState

namespace EffectiveState

/-! ## Primitive-step facts used to instantiate the interface -/

lemma mem_cells_updCell {st : St} {c : Nat} {g : CellSt → CellSt} {p : Nat × CellSt}
    (hp : p ∈ (updCell st c g).cells) :
    ∃ p0 ∈ st.cells, p = (if p0.1 = c then (p0.1, g p0.2) else p0) := by
  simp only [updCell, List.mem_map] at hp
  obtain ⟨p0, hp0, hpe⟩ := hp
  exact ⟨p0, hp0, hpe.symm⟩

lemma allL_updCell {P : Nat × LAct → Prop} {st : St} {c : Nat} {g : CellSt → CellSt}
    (hg : ∀ cs, (∀ q ∈ cs.listeners, P q) → ∀ q ∈ (g cs).listeners, P q)
    (h : ∀ p ∈ st.cells, ∀ q ∈ p.2.listeners, P q) :
    ∀ p ∈ (updCell st c g).cells, ∀ q ∈ p.2.listeners, P q := by
  intro p hp q hq
  obtain ⟨p0, hp0, rfl⟩ := mem_cells_updCell hp
  by_cases hc : p0.1 = c
  · rw [if_pos hc] at hq
    exact hg p0.2 (h p0 hp0) q hq
  · rw [if_neg hc] at hq
    exact h p0 hp0 q hq

lemma cellListeners_subset {st : St} {c : Nat} {q : Nat × LAct}
    (hq : q ∈ cellListeners st c) : ∃ p ∈ st.cells, q ∈ p.2.listeners := by
  unfold cellListeners alGet? at hq
  cases hf : st.cells.find? (fun p => p.1 == c) with
  | none => rw [hf] at hq; simp at hq
  | some p =>
      rw [hf] at hq
      simp at hq
      exact ⟨p, List.mem_of_find?_eq_some hf, hq⟩

lemma scheduleEffect_ghost (e2 : Nat) (st : St) :
    (scheduleEffect e2 st).cells = st.cells ∧ (scheduleEffect e2 st).log = st.log ∧
    (scheduleEffect e2 st).refCounts = st.refCounts ∧
    (scheduleEffect e2 st).effects = st.effects ∧
    (scheduleEffect e2 st).nextListener = st.nextListener ∧
    (scheduleEffect e2 st).nextEffect = st.nextEffect ∧
    (scheduleEffect e2 st).currentEffect = st.currentEffect ∧
    (scheduleEffect e2 st).runs = st.runs := by
  simp only [scheduleEffect]
  split
  · exact ⟨rfl, rfl, rfl, rfl, rfl, rfl, rfl, rfl⟩
  · split
    · exact ⟨rfl, rfl, rfl, rfl, rfl, rfl, rfl, rfl⟩
    · split
      · exact ⟨rfl, rfl, rfl, rfl, rfl, rfl, rfl, rfl⟩
      · exact ⟨rfl, rfl, rfl, rfl, rfl, rfl, rfl, rfl⟩

lemma refDecDel_ghost (st : St) (e3 : Nat) :
    (refDecDel st e3).cells = st.cells ∧ (refDecDel st e3).log = st.log ∧
    (refDecDel st e3).effects = st.effects ∧
    (refDecDel st e3).nextListener = st.nextListener ∧
    (refDecDel st e3).nextEffect = st.nextEffect ∧
    (refDecDel st e3).currentEffect = st.currentEffect ∧
    (refDecDel st e3).runs = st.runs := by
  unfold refDecDel
  split
  · exact ⟨rfl, rfl, rfl, rfl, rfl, rfl, rfl⟩
  · exact ⟨rfl, rfl, rfl, rfl, rfl, rfl, rfl⟩

lemma refGet_refInc (st : St) (e2 e : Nat) :
    refGet (refInc st e2) e = if e = e2 then refGet st e2 + 1 else refGet st e := by
  show (alGet? (alPut st.refCounts e2 (refGet st e2 + 1)) e).getD 0 = _
  rw [alGet?_alPut]
  split
  · rfl
  · rfl

lemma refGet_refDecDel_other (st : St) (e3 e : Nat) (h : e ≠ e3) :
    refGet (refDecDel st e3) e = refGet st e := by
  unfold refDecDel
  split
  · show (alGet? (alErase st.refCounts e3) e).getD 0 = refGet st e
    rw [alGet?_alErase, if_neg h]
    rfl
  · show (alGet? (alPut st.refCounts e3 (refGet st e3 - 1)) e).getD 0 = refGet st e
    rw [alGet?_alPut, if_neg h]
    rfl

lemma refGet_refDecDel_dead {st : St} {e3 e : Nat} (h0 : refGet st e = 0) :
    refGet (refDecDel st e3) e = 0 := by
  by_cases he : e = e3
  · subst he
    unfold refDecDel
    rw [if_pos (by omega)]
    show (alGet? (alErase st.refCounts e) e).getD 0 = 0
    rw [alGet?_alErase, if_pos rfl]
    rfl
  · rw [refGet_refDecDel_other st e3 e he]
    exact h0

lemma cleanupOf_pushCleanup_other (st : St) (e2 e : Nat) (entry : CEntry) (h : e ≠ e2) :
    cleanupOf (pushCleanup st e2 entry) e = cleanupOf st e := by
  unfold pushCleanup cleanupOf
  rw [alGet?_updEff]
  cases alGet? st.effects e with
  | none => rfl
  | some es => simp [h]

lemma cleanupOf_setCleanup_nil (st : St) (e3 e : Nat) (h : cleanupOf st e = []) :
    cleanupOf (setCleanup st e3 []) e = [] := by
  unfold setCleanup cleanupOf
  rw [alGet?_updEff]
  unfold cleanupOf at h
  cases hx : alGet? st.effects e with
  | none => rfl
  | some es =>
      rw [hx] at h
      simp at h
      by_cases hc : e = e3 <;> simp [hc, h]

lemma alGet?_append_lt {α : Type} (lst : List (Nat × α)) (n k : Nat) (x : α) (h : k < n) :
    alGet? (lst ++ [(n, x)]) k = alGet? lst k := by
  unfold alGet?
  rw [List.find?_append]
  cases h2 : lst.find? (fun p => p.1 == k) with
  | none =>
      rw [List.find?_cons_of_neg _ (by simp; omega)]
      rfl
  | some p => rfl

lemma subEvCount_append (lg1 lg2 : List LogEv) (l : Nat) :
    subEvCount (lg1 ++ lg2) l = subEvCount lg1 l + subEvCount lg2 l := by
  unfold subEvCount
  rw [List.filter_append, List.length_append]

lemma subEvCount_effEv (v : V) (l : Nat) : subEvCount [.effEv v] l = 0 := rfl

lemma subEvCount_subEv_ne {x : Nat} (v : V) {l : Nat} (h : x ≠ l) :
    subEvCount [.subEv x v] l = 0 := by
  unfold subEvCount
  simp [h]

lemma count_append_ne (runs : List Nat) (e2 e : Nat) (h : e2 ≠ e) :
    (runs ++ [e2]).count e = runs.count e := by
  rw [List.count_append]
  simp [List.count_cons, List.count_nil, h]

end EffectiveState

namespace EffectiveState

/-! ## The removed-listener instance (for C10) -/

lemma goneL_updCell {l : Nat} {st : St} {c : Nat} {g : CellSt → CellSt}
    (hg : ∀ cs, (∀ q ∈ cs.listeners, q.1 ≠ l) → ∀ q ∈ (g cs).listeners, q.1 ≠ l)
    (hI : GoneL l st) : GoneL l (updCell st c g) :=
  ⟨allL_updCell hg hI.1, hI.2⟩

lemma goneL_of_parts {st st' : St} {l : Nat} (h : GoneL l st)
    (hc : st'.cells = st.cells) (hn : st'.nextListener = st.nextListener) : GoneL l st' := by
  refine ⟨?_, ?_⟩
  · rw [hc]; exact h.1
  · rw [hn]; exact h.2

lemma goneL_trackedRead (l c : Nat) (st : St) (hI : GoneL l st) :
    GoneL l (trackedRead c st).2 ∧ (trackedRead c st).2.log = st.log := by
  unfold trackedRead
  cases hf : alGet? st.cells c with
  | none => exact ⟨hI, rfl⟩
  | some cs =>
      cases hc : st.currentEffect with
      | none => exact ⟨hI, rfl⟩
      | some e2 =>
          refine ⟨⟨?_, ?_⟩, rfl⟩
          · intro p hp q hq
            have hp' : p ∈ (addListener st c st.nextListener (.eff e2)).cells := hp
            refine allL_updCell (fun cs2 hcs q2 hq2 => ?_) hI.1 p hp' q hq
            rcases List.mem_append.mp hq2 with h1 | h1
            · exact hcs q2 h1
            · have hq4 : q2 = (st.nextListener, LAct.eff e2) := by simpa using h1
              subst hq4
              show st.nextListener ≠ l
              have := hI.2
              omega
          · show l < st.nextListener + 1
            have := hI.2
            omega

lemma goneL_evalExpr (l : Nat) (ex : Expr) : ∀ st, GoneL l st →
    GoneL l (evalExpr ex st).2 ∧ (evalExpr ex st).2.log = st.log := by
  induction ex with
  | lit v => intro st hI; exact ⟨hI, rfl⟩
  | readE c => intro st hI; exact goneL_trackedRead l c st hI
  | addE a b iha ihb =>
      intro st hI
      simp only [evalExpr]
      rcases hx : evalExpr a st with ⟨x, st1⟩
      rcases hy : evalExpr b st1 with ⟨y, st2⟩
      obtain ⟨h1, m1⟩ := iha st hI
      rw [hx] at h1 m1
      obtain ⟨h2, m2⟩ := ihb st1 h1
      rw [hy] at h2 m2
      simp only [hx, hy]
      exact ⟨h2, m2.trans m1⟩
  | mulE a b iha ihb =>
      intro st hI
      simp only [evalExpr]
      rcases hx : evalExpr a st with ⟨x, st1⟩
      rcases hy : evalExpr b st1 with ⟨y, st2⟩
      obtain ⟨h1, m1⟩ := iha st hI
      rw [hx] at h1 m1
      obtain ⟨h2, m2⟩ := ihb st1 h1
      rw [hy] at h2 m2
      simp only [hx, hy]
      exact ⟨h2, m2.trans m1⟩
  | pairE a b iha ihb =>
      intro st hI
      simp only [evalExpr]
      rcases hx : evalExpr a st with ⟨x, st1⟩
      rcases hy : evalExpr b st1 with ⟨y, st2⟩
      obtain ⟨h1, m1⟩ := iha st hI
      rw [hx] at h1 m1
      obtain ⟨h2, m2⟩ := ihb st1 h1
      rw [hy] at h2 m2
      simp only [hx, hy]
      exact ⟨h2, m2.trans m1⟩
  | condE cnd t e2 ihc iht ihe =>
      intro st hI
      simp only [evalExpr]
      rcases hx : evalExpr cnd st with ⟨x, st1⟩
      obtain ⟨h1, m1⟩ := ihc st hI
      rw [hx] at h1 m1
      simp only [hx]
      by_cases hfa : isFalsy x
      · rw [if_pos hfa]
        obtain ⟨h2, m2⟩ := ihe st1 h1
        exact ⟨h2, m2.trans m1⟩
      · rw [if_neg hfa]
        obtain ⟨h2, m2⟩ := iht st1 h1
        exact ⟨h2, m2.trans m1⟩
  | untrackedE a ih =>
      intro st hI
      simp only [evalExpr]
      rcases hx : evalExpr a { st with currentEffect := none } with ⟨x, st1⟩
      obtain ⟨h1, m1⟩ := ih { st with currentEffect := none } hI
      rw [hx] at h1 m1
      simp only [hx]
      exact ⟨goneL_of_parts h1 rfl rfl, m1⟩

lemma goneL_notifyStep (l c : Nat) (st : St) (p : Nat × LAct) (hI : GoneL l st) :
    GoneL l (notifyStep c st p) ∧
      subEvCount (notifyStep c st p).log l = subEvCount st.log l := by
  unfold notifyStep
  split
  case isTrue hg =>
      cases hp2 : p.2 with
      | eff e2 =>
          obtain ⟨hc, hl, _, _, hn, _, _, _⟩ := scheduleEffect_ghost e2 st
          exact ⟨goneL_of_parts hI hc hn, by rw [hl]⟩
      | sub =>
          have hne : p.1 ≠ l := by
            obtain ⟨q0, hq0, hbeq⟩ := List.any_eq_true.mp hg
            obtain ⟨p0, hp0, hq0m⟩ := cellListeners_subset hq0
            have := hI.1 p0 hp0 q0 hq0m
            have hq01 : q0.1 = p.1 := by simpa using hbeq
            omega
          refine ⟨⟨hI.1, hI.2⟩, ?_⟩
          show subEvCount (st.log ++ [.subEv p.1 (cellValue st c)]) l = subEvCount st.log l
          rw [subEvCount_append, subEvCount_subEv_ne _ hne]
          omega
  case isFalse => exact ⟨hI, rfl⟩

lemma goneL_notifySnap (l : Nat) : ∀ (snap : List (Nat × LAct)) (c : Nat) (st : St),
    GoneL l st → GoneL l (notifySnap snap c st) ∧
      subEvCount (notifySnap snap c st).log l = subEvCount st.log l := by
  intro snap
  induction snap with
  | nil => intro c st hI; exact ⟨hI, rfl⟩
  | cons p rest ih =>
      intro c st hI
      simp only [notifySnap]
      obtain ⟨h1, h2⟩ := goneL_notifyStep l c st p hI
      obtain ⟨h3, h4⟩ := ih c _ h1
      exact ⟨h3, h4.trans h2⟩

/-- Every primitive preserves "listener `l` is gone", and the number of
deliveries to `l` recorded in the log. -/
lemma presC10 (l : Nat) :
    Pres (fun st => GoneL l st) (fun st => subEvCount st.log l) (fun _ => True) where
  evalE := fun ex st hI => by
    obtain ⟨h1, h2⟩ := goneL_evalExpr l ex st hI
    exact ⟨h1, by rw [h2]⟩
  notif := fun snap c st hI => goneL_notifySnap l snap c st hI
  ctrl := fun st p w fl mt hI => ⟨hI, rfl⟩
  setV := fun st c v hI => ⟨goneL_updCell (fun cs h q hq => h q hq) hI, rfl⟩
  subsc := fun c st hI => by
    refine ⟨⟨?_, ?_⟩, rfl⟩
    · intro p hp q hq
      have hp' : p ∈ (addListener st c st.nextListener .sub).cells := hp
      refine allL_updCell (fun cs2 hcs q2 hq2 => ?_) hI.1 p hp' q hq
      rcases List.mem_append.mp hq2 with h1 | h1
      · exact hcs q2 h1
      · have hq4 : q2 = (st.nextListener, LAct.sub) := by simpa using h1
        subst hq4
        show st.nextListener ≠ l
        have := hI.2
        omega
    · show l < st.nextListener + 1
      have := hI.2
      omega
  unsub := fun st c l2 hI =>
    ⟨goneL_updCell (fun cs h q hq => h q (List.mem_of_mem_filter hq)) hI, rfl⟩
  dereg := fun st c l2 e3 hI => by
    have h1 : GoneL l (removeListener st c l2) :=
      goneL_updCell (fun cs h q hq => h q (List.mem_of_mem_filter hq)) hI
    obtain ⟨hc, hl, _, hn, _, _, _⟩ := refDecDel_ghost (removeListener st c l2) e3
    refine ⟨goneL_of_parts h1 hc hn, ?_⟩
    rw [hl]
    rfl
  setCl := fun st e3 hI => ⟨hI, rfl⟩
  pushCh := fun st e3 en hI _ => ⟨hI, rfl⟩
  newc := fun st v hI => by
    refine ⟨⟨?_, hI.2⟩, rfl⟩
    intro p hp q hq
    rcases List.mem_append.mp hp with h1 | h1
    · exact hI.1 p h1 q hq
    · have hp4 : p = (st.nextCell, ({ value := v, listeners := [] } : CellSt)) := by
        simpa using h1
      subst hp4
      simp at hq
  newe := fun st p hI => ⟨hI, rfl⟩
  curI := fun st o hI _ => ⟨hI, rfl⟩
  okRef := fun st e2 _ _ => trivial
  okFresh := fun st e2 _ _ => trivial
  okCur := fun st x _ _ => trivial
  mRuns := fun st e2 hI _ => ⟨hI, rfl⟩
  mEffEv := fun st v hI =>
    ⟨hI, by rw [subEvCount_append, subEvCount_effEv]; omega⟩
  mDisp := fun st e3 hI => ⟨hI, rfl⟩

end EffectiveState

namespace EffectiveState

/-! ## The dead-effect instance (for C4) -/

lemma deadSt_updCell {e : Nat} {st : St} {c : Nat} {g : CellSt → CellSt}
    (hg : ∀ cs, (∀ q ∈ cs.listeners, isEffL e q = false) →
      ∀ q ∈ (g cs).listeners, isEffL e q = false)
    (hI : DeadSt e st) : DeadSt e (updCell st c g) :=
  ⟨hI.1, allL_updCell hg hI.2.1, hI.2.2.1, hI.2.2.2⟩

lemma deadSt_of_parts {st st' : St} {e : Nat} (h : DeadSt e st)
    (h0 : refGet st' e = 0) (hc : st'.cells = st.cells)
    (he : st'.effects = st.effects) (hn : st'.nextEffect = st.nextEffect) : DeadSt e st' := by
  obtain ⟨_, h1, h2, h3⟩ := h
  refine ⟨h0, ?_, ?_, ?_⟩
  · rw [hc]; exact h1
  · unfold cleanupOf at h2 ⊢
    rw [he]
    exact h2
  · rw [hn]; exact h3

lemma deadSt_trackedRead (e c : Nat) (st : St) (hI : DeadSt e st)
    (hcur : st.currentEffect ≠ some e) :
    DeadSt e (trackedRead c st).2 ∧
      (trackedRead c st).2.currentEffect = st.currentEffect ∧
      (trackedRead c st).2.runs = st.runs := by
  unfold trackedRead
  cases hf : alGet? st.cells c with
  | none => exact ⟨hI, rfl, rfl⟩
  | some cs =>
      cases hc : st.currentEffect with
      | none => exact ⟨hI, hc, rfl⟩
      | some e2 =>
          have hne : e2 ≠ e := fun he2 => hcur (by rw [hc, he2])
          obtain ⟨h0, h1, h2, h3⟩ := hI
          refine ⟨⟨?_, ?_, ?_, ?_⟩, hc, rfl⟩
          · show refGet (refInc (addListener st c st.nextListener (.eff e2)) e2) e = 0
            rw [refGet_refInc]
            rw [if_neg (fun hx => hne hx.symm)]
            exact h0
          · intro p hp q hq
            have hp' : p ∈ (addListener st c st.nextListener (.eff e2)).cells := hp
            refine allL_updCell (fun cs2 hcs q2 hq2 => ?_) h1 p hp' q hq
            rcases List.mem_append.mp hq2 with hq3 | hq3
            · exact hcs q2 hq3
            · have hq4 : q2 = (st.nextListener, LAct.eff e2) := by simpa using hq3
              subst hq4
              show (e2 == e) = false
              simpa using hne
          · show cleanupOf (pushCleanup (refInc (addListener st c st.nextListener (.eff e2)) e2)
              e2 (.dereg c st.nextListener e2)) e = []
            rw [cleanupOf_pushCleanup_other _ _ _ _ (fun hx => hne hx.symm)]
            exact h2
          · exact h3

lemma deadSt_evalExpr (e : Nat) (ex : Expr) : ∀ st, DeadSt e st →
    st.currentEffect ≠ some e →
    (DeadSt e (evalExpr ex st).2 ∧ (evalExpr ex st).2.currentEffect = st.currentEffect) ∧
      (evalExpr ex st).2.runs = st.runs := by
  induction ex with
  | lit v => intro st hI hcur; exact ⟨⟨hI, rfl⟩, rfl⟩
  | readE c =>
      intro st hI hcur
      obtain ⟨h1, h2, h3⟩ := deadSt_trackedRead e c st hI hcur
      exact ⟨⟨h1, h2⟩, h3⟩
  | addE a b iha ihb =>
      intro st hI hcur
      simp only [evalExpr]
      rcases hx : evalExpr a st with ⟨x, st1⟩
      rcases hy : evalExpr b st1 with ⟨y, st2⟩
      obtain ⟨⟨h1, c1⟩, m1⟩ := iha st hI hcur
      rw [hx] at h1 c1 m1
      obtain ⟨⟨h2, c2⟩, m2⟩ := ihb st1 h1 (by rw [c1]; exact hcur)
      rw [hy] at h2 c2 m2
      simp only [hx, hy]
      exact ⟨⟨h2, c2.trans c1⟩, m2.trans m1⟩
  | mulE a b iha ihb =>
      intro st hI hcur
      simp only [evalExpr]
      rcases hx : evalExpr a st with ⟨x, st1⟩
      rcases hy : evalExpr b st1 with ⟨y, st2⟩
      obtain ⟨⟨h1, c1⟩, m1⟩ := iha st hI hcur
      rw [hx] at h1 c1 m1
      obtain ⟨⟨h2, c2⟩, m2⟩ := ihb st1 h1 (by rw [c1]; exact hcur)
      rw [hy] at h2 c2 m2
      simp only [hx, hy]
      exact ⟨⟨h2, c2.trans c1⟩, m2.trans m1⟩
  | pairE a b iha ihb =>
      intro st hI hcur
      simp only [evalExpr]
      rcases hx : evalExpr a st with ⟨x, st1⟩
      rcases hy : evalExpr b st1 with ⟨y, st2⟩
      obtain ⟨⟨h1, c1⟩, m1⟩ := iha st hI hcur
      rw [hx] at h1 c1 m1
      obtain ⟨⟨h2, c2⟩, m2⟩ := ihb st1 h1 (by rw [c1]; exact hcur)
      rw [hy] at h2 c2 m2
      simp only [hx, hy]
      exact ⟨⟨h2, c2.trans c1⟩, m2.trans m1⟩
  | condE cnd t e2 ihc iht ihe =>
      intro st hI hcur
      simp only [evalExpr]
      rcases hx : evalExpr cnd st with ⟨x, st1⟩
      obtain ⟨⟨h1, c1⟩, m1⟩ := ihc st hI hcur
      rw [hx] at h1 c1 m1
      simp only [hx]
      by_cases hfa : isFalsy x
      · rw [if_pos hfa]
        obtain ⟨⟨h2, c2⟩, m2⟩ := ihe st1 h1 (by rw [c1]; exact hcur)
        exact ⟨⟨h2, c2.trans c1⟩, m2.trans m1⟩
      · rw [if_neg hfa]
        obtain ⟨⟨h2, c2⟩, m2⟩ := iht st1 h1 (by rw [c1]; exact hcur)
        exact ⟨⟨h2, c2.trans c1⟩, m2.trans m1⟩
  | untrackedE a ih =>
      intro st hI hcur
      simp only [evalExpr]
      rcases hx : evalExpr a { st with currentEffect := none } with ⟨x, st1⟩
      obtain ⟨⟨h1, c1⟩, m1⟩ := ih { st with currentEffect := none } hI (by simp)
      rw [hx] at h1 c1 m1
      simp only [hx]
      refine ⟨⟨?_, ?_⟩, ?_⟩
      · exact deadSt_of_parts h1 h1.1 rfl rfl rfl
      · trivial
      · exact m1

lemma deadSt_notifyStep (e c : Nat) (st : St) (p : Nat × LAct) (hI : DeadSt e st) :
    DeadSt e (notifyStep c st p) ∧
      (notifyStep c st p).currentEffect = st.currentEffect ∧
      (notifyStep c st p).runs = st.runs := by
  unfold notifyStep
  split
  case isTrue hg =>
      cases hp2 : p.2 with
      | eff e2 =>
          obtain ⟨hc, _, hr, he, _, hn, hcu, hru⟩ := scheduleEffect_ghost e2 st
          refine ⟨deadSt_of_parts hI ?_ hc he hn, hcu, hru⟩
          unfold refGet
          rw [hr]
          exact hI.1
      | sub => exact ⟨deadSt_of_parts hI hI.1 rfl rfl rfl, rfl, rfl⟩
  case isFalse => exact ⟨hI, rfl, rfl⟩

lemma deadSt_notifySnap (e : Nat) : ∀ (snap : List (Nat × LAct)) (c : Nat) (st : St),
    DeadSt e st → DeadSt e (notifySnap snap c st) ∧
      (notifySnap snap c st).currentEffect = st.currentEffect ∧
      (notifySnap snap c st).runs = st.runs := by
  intro snap
  induction snap with
  | nil => intro c st hI; exact ⟨hI, rfl, rfl⟩
  | cons p rest ih =>
      intro c st hI
      simp only [notifySnap]
      obtain ⟨h1, h2, h3⟩ := deadSt_notifyStep e c st p hI
      obtain ⟨h4, h5, h6⟩ := ih c _ h1
      exact ⟨h4, h5.trans h2, h6.trans h3⟩

/-- Every primitive preserves "effect `e` is dead and is not the tracked
effect", and the number of recorded runs of `e`. -/
lemma presC4 (e : Nat) :
    Pres (fun st => DeadSt e st ∧ st.currentEffect ≠ some e)
      (fun st => st.runs.count e) (fun e2 => e2 ≠ e) where
  evalE := fun ex st hI => by
    obtain ⟨⟨h1, c1⟩, m1⟩ := deadSt_evalExpr e ex st hI.1 hI.2
    exact ⟨⟨h1, by rw [c1]; exact hI.2⟩, by rw [m1]⟩
  notif := fun snap c st hI => by
    obtain ⟨h1, h2, h3⟩ := deadSt_notifySnap e snap c st hI.1
    exact ⟨⟨h1, by rw [h2]; exact hI.2⟩, by rw [h3]⟩
  ctrl := fun st p w fl mt hI => ⟨hI, rfl⟩
  setV := fun st c v hI =>
    ⟨⟨deadSt_updCell (fun cs h q hq => h q hq) hI.1, hI.2⟩, rfl⟩
  subsc := fun c st hI => by
    refine ⟨⟨⟨hI.1.1, ?_, hI.1.2.2.1, hI.1.2.2.2⟩, hI.2⟩, rfl⟩
    intro p hp q hq
    have hp' : p ∈ (addListener st c st.nextListener .sub).cells := hp
    refine allL_updCell (fun cs2 hcs q2 hq2 => ?_) hI.1.2.1 p hp' q hq
    rcases List.mem_append.mp hq2 with h1 | h1
    · exact hcs q2 h1
    · have hq4 : q2 = (st.nextListener, LAct.sub) := by simpa using h1
      subst hq4
      rfl
  unsub := fun st c l2 hI =>
    ⟨⟨deadSt_updCell (fun cs h q hq => h q (List.mem_of_mem_filter hq)) hI.1, hI.2⟩, rfl⟩
  dereg := fun st c l2 e3 hI => by
    have h1 : DeadSt e (removeListener st c l2) :=
      deadSt_updCell (fun cs h q hq => h q (List.mem_of_mem_filter hq)) hI.1
    obtain ⟨hc, _, he, _, hn, hcu, hru⟩ := refDecDel_ghost (removeListener st c l2) e3
    refine ⟨⟨deadSt_of_parts h1 (refGet_refDecDel_dead h1.1) hc he hn, ?_⟩, ?_⟩
    · rw [hcu]; exact hI.2
    · rw [hru]; rfl
  setCl := fun st e3 hI =>
    ⟨⟨⟨hI.1.1, hI.1.2.1, cleanupOf_setCleanup_nil st e3 e hI.1.2.2.1, hI.1.2.2.2⟩, hI.2⟩, rfl⟩
  pushCh := fun st e3 en hI hok => by
    refine ⟨⟨⟨hI.1.1, hI.1.2.1, ?_, hI.1.2.2.2⟩, hI.2⟩, rfl⟩
    rw [cleanupOf_pushCleanup_other st e3 e _ (fun hx => hok hx.symm)]
    exact hI.1.2.2.1
  newc := fun st v hI => by
    refine ⟨⟨⟨hI.1.1, ?_, hI.1.2.2.1, hI.1.2.2.2⟩, hI.2⟩, rfl⟩
    intro p hp q hq
    rcases List.mem_append.mp hp with h1 | h1
    · exact hI.1.2.1 p h1 q hq
    · have hp4 : p = (st.nextCell, ({ value := v, listeners := [] } : CellSt)) := by
        simpa using h1
      subst hp4
      simp at hq
  newe := fun st p hI => by
    refine ⟨⟨⟨hI.1.1, hI.1.2.1, ?_, ?_⟩, hI.2⟩, rfl⟩
    · show ((alGet? (st.effects ++ [(st.nextEffect, ({ body := p, cleanup := [] } : EffSt))]) e).map
        (fun es => es.cleanup)).getD [] = []
      rw [alGet?_append_lt _ _ _ _ hI.1.2.2.2]
      exact hI.1.2.2.1
    · show e < st.nextEffect + 1
      have := hI.1.2.2.2
      omega
  curI := fun st o hI hg => by
    refine ⟨⟨hI.1, ?_⟩, rfl⟩
    cases o with
    | none => intro hcon; exact Option.noConfusion hcon
    | some x => intro hcon; exact hg x rfl (Option.some.inj hcon)
  okRef := fun st e2 hI h => fun he2 => h (by rw [he2]; exact hI.1.1)
  okFresh := fun st e2 hI h => by
    have := hI.1.2.2.2
    omega
  okCur := fun st x hI hcur => fun he2 => hI.2 (by rw [← he2]; exact hcur)
  mRuns := fun st e2 hI hok => ⟨hI, count_append_ne st.runs e2 e hok⟩
  mEffEv := fun st v hI => ⟨hI, rfl⟩
  mDisp := fun st e3 hI => ⟨hI, rfl⟩

end EffectiveState

namespace EffectiveState

/-! ## Evaluation of the C4 and C10 scenarios -/

lemma c4_eval : runOps 60 c4Ops initSt = some (.ok (), c4St) := by
  simp only [c4Ops, initSt, c4St, runOps, opsK, runOp, newEffectAux, runEffect, effD, effC,
    effFin, runProg, seqK, progW, progL, restK, dispK, dispFin, runCleanup, childK,
    writeCell, writeC1, writeC2, writeC3, writeC4, flushPending, flushP, flushLoop,
    flushRun, flushS, flushCont, actK, actFin, actErr, actErrK, tickK,
    evalExpr, trackedRead, notifySnap, notifyStep, scheduleEffect, subscribeCell,
    addListener, removeListener, removeSubListener, updCell, updEff, setCellValue,
    setCleanup, pushCleanup, refInc, refDecDel, refGet, cellValue, cellListeners, cleanupOf,
    alGet?, alSet, alPut, alErase, isFalsy, objectIs, vAdd, vMul, memNat,
    List.find?, List.map, List.filter, List.any, List.all, List.isEmpty,
    Option.map, Option.getD, Option.isSome,
    Nat.reduceAdd, Nat.reduceSub, Nat.reduceMul, Nat.reduceBEq, Nat.reduceBNe,
    Int.reduceAdd, Int.reduceSub, Int.reduceMul, Int.reduceBEq, Int.reduceNeg,
    reduceIte, reduceCtorEq, Nat.reduceEqDiff, Nat.reduceBeqDiff, Nat.reduceBneDiff,
    Nat.reduceGT, Nat.reduceLT, Nat.reduceLeDiff, Bool.and_true, Bool.and_false,
    Bool.true_and, Bool.false_and, Bool.or_true, Bool.or_false, Bool.not_true, Bool.not_false,
    beq_self_eq_true, bne_self_eq_false,
    List.nil_append, List.cons_append, List.append_nil]

lemma c4_more_eval : runOps 60 c4More c4St = some (.ok (), c4St2) := by
  simp only [c4More, c4St, c4St2, runOps, opsK, runOp, newEffectAux, runEffect, effD, effC,
    effFin, runProg, seqK, progW, progL, restK, dispK, dispFin, runCleanup, childK,
    writeCell, writeC1, writeC2, writeC3, writeC4, flushPending, flushP, flushLoop,
    flushRun, flushS, flushCont, actK, actFin, actErr, actErrK, tickK,
    evalExpr, trackedRead, notifySnap, notifyStep, scheduleEffect, subscribeCell,
    addListener, removeListener, removeSubListener, updCell, updEff, setCellValue,
    setCleanup, pushCleanup, refInc, refDecDel, refGet, cellValue, cellListeners, cleanupOf,
    alGet?, alSet, alPut, alErase, isFalsy, objectIs, vAdd, vMul, memNat,
    List.find?, List.map, List.filter, List.any, List.all, List.isEmpty,
    Option.map, Option.getD, Option.isSome,
    Nat.reduceAdd, Nat.reduceSub, Nat.reduceMul, Nat.reduceBEq, Nat.reduceBNe,
    Int.reduceAdd, Int.reduceSub, Int.reduceMul, Int.reduceBEq, Int.reduceNeg,
    reduceIte, reduceCtorEq, Nat.reduceEqDiff, Nat.reduceBeqDiff, Nat.reduceBneDiff,
    Nat.reduceGT, Nat.reduceLT, Nat.reduceLeDiff, Bool.and_true, Bool.and_false,
    Bool.true_and, Bool.false_and, Bool.or_true, Bool.or_false, Bool.not_true, Bool.not_false,
    beq_self_eq_true, bne_self_eq_false,
    List.nil_append, List.cons_append, List.append_nil]

lemma c10_eval : runOps 60 c10Ops initSt = some (.ok (), c10St) := by
  simp only [c10Ops, initSt, c10St, runOps, opsK, runOp, newEffectAux, runEffect, effD, effC,
    effFin, runProg, seqK, progW, progL, restK, dispK, dispFin, runCleanup, childK,
    writeCell, writeC1, writeC2, writeC3, writeC4, flushPending, flushP, flushLoop,
    flushRun, flushS, flushCont, actK, actFin, actErr, actErrK, tickK,
    evalExpr, trackedRead, notifySnap, notifyStep, scheduleEffect, subscribeCell,
    addListener, removeListener, removeSubListener, updCell, updEff, setCellValue,
    setCleanup, pushCleanup, refInc, refDecDel, refGet, cellValue, cellListeners, cleanupOf,
    alGet?, alSet, alPut, alErase, isFalsy, objectIs, vAdd, vMul, memNat,
    List.find?, List.map, List.filter, List.any, List.all, List.isEmpty,
    Option.map, Option.getD, Option.isSome,
    Nat.reduceAdd, Nat.reduceSub, Nat.reduceMul, Nat.reduceBEq, Nat.reduceBNe,
    Int.reduceAdd, Int.reduceSub, Int.reduceMul, Int.reduceBEq, Int.reduceNeg,
    reduceIte, reduceCtorEq, Nat.reduceEqDiff, Nat.reduceBeqDiff, Nat.reduceBneDiff,
    Nat.reduceGT, Nat.reduceLT, Nat.reduceLeDiff, Bool.and_true, Bool.and_false,
    Bool.true_and, Bool.false_and, Bool.or_true, Bool.or_false, Bool.not_true, Bool.not_false,
    beq_self_eq_true, bne_self_eq_false,
    List.nil_append, List.cons_append, List.append_nil]

lemma c10_more_eval : runOps 60 c10More c10St = some (.ok (), c10St2) := by
  simp only [c10More, c10St, c10St2, runOps, opsK, runOp, newEffectAux, runEffect, effD, effC,
    effFin, runProg, seqK, progW, progL, restK, dispK, dispFin, runCleanup, childK,
    writeCell, writeC1, writeC2, writeC3, writeC4, flushPending, flushP, flushLoop,
    flushRun, flushS, flushCont, actK, actFin, actErr, actErrK, tickK,
    evalExpr, trackedRead, notifySnap, notifyStep, scheduleEffect, subscribeCell,
    addListener, removeListener, removeSubListener, updCell, updEff, setCellValue,
    setCleanup, pushCleanup, refInc, refDecDel, refGet, cellValue, cellListeners, cleanupOf,
    alGet?, alSet, alPut, alErase, isFalsy, objectIs, vAdd, vMul, memNat,
    List.find?, List.map, List.filter, List.any, List.all, List.isEmpty,
    Option.map, Option.getD, Option.isSome,
    Nat.reduceAdd, Nat.reduceSub, Nat.reduceMul, Nat.reduceBEq, Nat.reduceBNe,
    Int.reduceAdd, Int.reduceSub, Int.reduceMul, Int.reduceBEq, Int.reduceNeg,
    reduceIte, reduceCtorEq, Nat.reduceEqDiff, Nat.reduceBeqDiff, Nat.reduceBneDiff,
    Nat.reduceGT, Nat.reduceLT, Nat.reduceLeDiff, Bool.and_true, Bool.and_false,
    Bool.true_and, Bool.false_and, Bool.or_true, Bool.or_false, Bool.not_true, Bool.not_false,
    beq_self_eq_true, bne_self_eq_false,
    List.nil_append, List.cons_append, List.append_nil]

/-! ## Bridges between the Boolean observables and their propositional forms -/

lemma deadE_iff (st : St) (e : Nat) : deadE st e = true ↔ DeadSt e st := by
  unfold deadE DeadSt
  simp only [Bool.and_eq_true, beq_iff_eq, List.all_eq_true, Bool.not_eq_true',
    List.isEmpty_iff, decide_eq_true_eq]
  tauto

lemma absentL_iff (st : St) (l : Nat) :
    absentL st l = true ↔ (∀ p ∈ st.cells, ∀ q ∈ p.2.listeners, q.1 ≠ l) := by
  unfold absentL
  simp only [List.all_eq_true, bne_iff_ne, ne_eq]

end EffectiveState

namespace EffectiveState

/-! ## C4: disposal permanently halts an effect -/

/-- C4: once an effect node is fully disposed (zero reference count, no
live tracking listener, empty cleanup chain — the state its disposer
leaves it in) and it is not the currently tracked effect, then NO
subsequent sequence of operations — writes to any cell the effect had
read, flushes of schedulings that were already pending at disposal time
(the scheduler skips zero-reference nodes), microtask ticks, actions,
new effects — ever runs its body again: its recorded run count is
unchanged and it stays dead forever. -/
theorem c4_disposal_halts_effect (f : Nat) (ops : List Op) (st st' : St)
    (r : Except Nat Unit) (e : Nat)
    (hdead : deadE st e = true) (hcur : st.currentEffect ≠ some e)
    (h : runOps f ops st = some (r, st')) :
    deadE st' e = true ∧ st'.runs.count e = st.runs.count e := by
  have hI : DeadSt e st ∧ st.currentEffect ≠ some e := ⟨(deadE_iff st e).mp hdead, hcur⟩
  obtain ⟨hG, hM⟩ := runOps_inv (presC4 e) f ops st r st' h hI
  exact ⟨(deadE_iff st' e).mpr hG.1, hM⟩

/-- Witness for C4: in the concrete scenario the effect is disposed
while a scheduling of it is still pending, the action-closing flush
skips it (it has run exactly once, at creation), and a further write to
its former dependency plus a tick leave its run count at one. -/
theorem c4_witness :
    deadE c4St 0 = true ∧ deadE c4St2 0 = true ∧
      c4St2.runs.count 0 = c4St.runs.count 0 :=
  ⟨by decide,
   (c4_disposal_halts_effect 60 c4More c4St c4St2 (.ok ()) 0 (by decide) (by decide)
     c4_more_eval).1,
   (c4_disposal_halts_effect 60 c4More c4St c4St2 (.ok ()) 0 (by decide) (by decide)
     c4_more_eval).2⟩

/-! ## C10: unsubscribe is permanent -/

/-- C10: once the unsubscribe procedure has removed a manual
subscription listener (it occurs on no cell and its identity is an
already-allocated one), NO subsequent sequence of operations ever
invokes that callback again: the number of deliveries to it recorded in
the log is unchanged by every later write, action, flush or tick, and
the listener never reappears — notify's live-set check and the global
freshness of listener identities make re-delivery impossible. -/
theorem c10_unsubscribe_is_permanent (f : Nat) (ops : List Op) (st st' : St)
    (r : Except Nat Unit) (l : Nat)
    (habs : absentL st l = true) (hlt : l < st.nextListener)
    (h : runOps f ops st = some (r, st')) :
    absentL st' l = true ∧ subEvCount st'.log l = subEvCount st.log l := by
  have hI : GoneL l st := ⟨(absentL_iff st l).mp habs, hlt⟩
  obtain ⟨hG, hM⟩ := runOps_inv (presC10 l) f ops st r st' h hI
  exact ⟨(absentL_iff st' l).mpr hG.1, hM⟩

/-- Witness for C10: in the concrete scenario the subscriber received
exactly one delivery before the unsubscribe; a later effective write
changes the value but delivers nothing new. -/
theorem c10_witness :
    absentL c10St 0 = true ∧ 0 < c10St.nextListener ∧ absentL c10St2 0 = true ∧
      subEvCount c10St2.log 0 = subEvCount c10St.log 0 :=
  ⟨by decide, by decide,
   (c10_unsubscribe_is_permanent 60 c10More c10St c10St2 (.ok ()) 0 (by decide) (by decide)
     c10_more_eval).1,
   (c10_unsubscribe_is_permanent 60 c10More c10St c10St2 (.ok ()) 0 (by decide) (by decide)
     c10_more_eval).2⟩

end EffectiveState


namespace EffectiveState

lemma map_upd_id {β : Type} (cells : List (Nat × β)) (c : Nat) (g : β → β)
    (h : ∀ p ∈ cells, p.1 ≠ c) :
    cells.map (fun p => if p.1 = c then (p.1, g p.2) else p) = cells := by
  induction cells with
  | nil => rfl
  | cons hd tl ih =>
      rw [List.map_cons, if_neg (h hd (by simp)), ih (fun p hp => h p (by simp [hp]))]

lemma alGet?_none_key {α : Type} {cells : List (Nat × α)} {c : Nat}
    (h : alGet? cells c = none) : ∀ p ∈ cells, p.1 ≠ c := by
  intro p hp hc
  unfold alGet? at h
  cases hf : cells.find? (fun p => p.1 == c) with
  | some q => rw [hf] at h; simp at h
  | none =>
      have := List.find?_eq_none.mp hf p hp
      simp [hc] at this

lemma alGet?_mem {α : Type} {cells : List (Nat × α)} {c : Nat} {cs : α}
    (h : alGet? cells c = some cs) : (c, cs) ∈ cells := by
  unfold alGet? at h
  cases hf : cells.find? (fun p => p.1 == c) with
  | none => rw [hf] at h; simp at h
  | some q =>
      rw [hf] at h
      simp at h
      have hq1 : q.1 = c := by simpa using List.find?_some hf
      have hqm := List.mem_of_find?_eq_some hf
      have : q = (c, cs) := by
        cases q
        simp at hq1 h
        simp [hq1, h]
      rw [← this]
      exact hqm

lemma sum_map_upd {β : Type} (F : β → Nat) :
    ∀ (cells : List (Nat × β)) (c : Nat) (g : β → β),
    (cells.map (fun p => p.1)).Nodup → ∀ cs0, alGet? cells c = some cs0 →
    ((cells.map (fun p => if p.1 = c then (p.1, g p.2) else p)).map (fun p => F p.2)).sum
        + F cs0
      = (cells.map (fun p => F p.2)).sum + F (g cs0) := by
  intro cells
  induction cells with
  | nil => intro c g _ cs0 h; simp [alGet?] at h
  | cons hd tl ih =>
      intro c g hnd cs0 h
      rw [List.map_cons] at hnd
      obtain ⟨hnd1, hnd2⟩ := List.nodup_cons.mp hnd
      by_cases hc : hd.1 = c
      · have hcs : cs0 = hd.2 := by
          unfold alGet? at h
          rw [List.find?_cons_of_pos _ (by simp [hc])] at h
          simpa using h.symm
        subst hcs
        have htl : tl.map (fun p => if p.1 = c then (p.1, g p.2) else p) = tl := by
          refine map_upd_id tl c g fun p hp hpc => ?_
          have hmem : p.1 ∈ tl.map (fun p => p.1) := List.mem_map.mpr ⟨p, hp, rfl⟩
          rw [hpc, ← hc] at hmem
          exact hnd1 hmem
        simp only [List.map_cons, if_pos hc, htl, List.sum_cons]
        omega
      · have h2 : alGet? tl c = some cs0 := by
          unfold alGet? at h ⊢
          rw [List.find?_cons_of_neg _ (by simp [hc])] at h
          exact h
        have hih := ih c g hnd2 cs0 h2
        simp only [List.map_cons, if_neg hc, List.sum_cons]
        omega

lemma len_filter_split (L : List (Nat × LAct)) (P : Nat × LAct → Bool) (l : Nat) :
    ((L.filter (fun q => q.1 != l)).filter P).length
      + (L.filter (fun q => q.1 == l && P q)).length
      = (L.filter P).length := by
  induction L with
  | nil => rfl
  | cons hd tl ih =>
      by_cases hl : hd.1 = l
      · by_cases hp : P hd = true
        · rw [List.filter_cons_of_neg (by simp [hl]),
            List.filter_cons_of_pos (by simp [hl, hp]),
            List.filter_cons_of_pos hp]
          simp only [List.length_cons]
          omega
        · rw [List.filter_cons_of_neg (by simp [hl]),
            List.filter_cons_of_neg (by simp [hl, hp]),
            List.filter_cons_of_neg hp]
          exact ih
      · by_cases hp : P hd = true
        · rw [List.filter_cons_of_pos (by simp [hl]),
            List.filter_cons_of_pos hp,
            List.filter_cons_of_neg (by simp [hl]),
            List.filter_cons_of_pos hp]
          simp only [List.length_cons]
          omega
        · rw [List.filter_cons_of_pos (by simp [hl]),
            List.filter_cons_of_neg hp,
            List.filter_cons_of_neg (by simp [hl]),
            List.filter_cons_of_neg hp]
          exact ih

lemma count_map_fst (L : List (Nat × LAct)) (x : Nat) :
    (L.map (fun q => q.1)).count x = (L.filter (fun q => q.1 == x)).length := by
  induction L with
  | nil => rfl
  | cons hd tl ih =>
      rw [List.map_cons, List.count_cons]
      by_cases h : hd.1 = x
      · rw [List.filter_cons_of_pos (by simp [h])]
        simp only [List.length_cons]
        rw [if_pos (by simp [h])]
        omega
      · rw [List.filter_cons_of_neg (by simp [h])]
        rw [if_neg (by simp [h])]
        omega

lemma count_allLids (st : St) (x : Nat) :
    (allLids st).count x =
      (st.cells.map (fun p => (p.2.listeners.filter (fun q => q.1 == x)).length)).sum := by
  unfold allLids
  induction st.cells with
  | nil => rfl
  | cons hd tl ih =>
      simp only [List.map_cons, List.flatten_cons, List.count_append, List.sum_cons, ih,
        count_map_fst]

lemma mem_allLids {st : St} {x : Nat} :
    x ∈ allLids st ↔ ∃ p ∈ st.cells, ∃ q ∈ p.2.listeners, q.1 = x := by
  unfold allLids
  simp only [List.mem_flatten, List.mem_map]
  constructor
  · rintro ⟨L, ⟨p, hp, rfl⟩, hx⟩
    obtain ⟨q, hq, hqx⟩ := List.mem_map.mp hx
    exact ⟨p, hp, q, hq, hqx⟩
  · rintro ⟨p, hp, q, hq, hqx⟩
    exact ⟨p.2.listeners.map (fun q => q.1), ⟨p, hp, rfl⟩, List.mem_map.mpr ⟨q, hq, hqx⟩⟩

lemma keys_updCell (st : St) (c : Nat) (g : CellSt → CellSt) :
    (updCell st c g).cells.map (fun p => p.1) = st.cells.map (fun p => p.1) := by
  show (st.cells.map _).map _ = _
  rw [List.map_map]
  refine List.map_congr_left fun p hp => ?_
  by_cases h : p.1 = c <;> simp [h]

lemma updCell_absent (st : St) (c : Nat) (g : CellSt → CellSt)
    (h : alGet? st.cells c = none) : updCell st c g = st := by
  unfold updCell
  rw [map_upd_id st.cells c g (alGet?_none_key h)]

lemma cellListeners_updCell (st : St) (c c2 : Nat) (g : CellSt → CellSt) :
    cellListeners (updCell st c g) c2 =
      if c2 = c then ((alGet? st.cells c2).map (fun cs => (g cs).listeners)).getD []
      else cellListeners st c2 := by
  unfold cellListeners
  rw [alGet?_updCell]
  cases alGet? st.cells c2 with
  | none => split <;> rfl
  | some cs => by_cases hc2 : c2 = c <;> simp [hc2]

lemma effTotal_updCell (st : St) (e c : Nat) (g : CellSt → CellSt) (cs0 : CellSt)
    (hnd : (st.cells.map (fun p => p.1)).Nodup) (hc : alGet? st.cells c = some cs0) :
    effTotal (updCell st c g) e + (cs0.listeners.filter (isEffL e)).length
      = effTotal st e + ((g cs0).listeners.filter (isEffL e)).length :=
  sum_map_upd (fun cs => (cs.listeners.filter (isEffL e)).length) st.cells c g hnd cs0 hc

lemma allLids_count_updCell (st : St) (x c : Nat) (g : CellSt → CellSt) (cs0 : CellSt)
    (hnd : (st.cells.map (fun p => p.1)).Nodup) (hc : alGet? st.cells c = some cs0) :
    (allLids (updCell st c g)).count x + (cs0.listeners.filter (fun q => q.1 == x)).length
      = (allLids st).count x + ((g cs0).listeners.filter (fun q => q.1 == x)).length := by
  rw [count_allLids, count_allLids]
  exact sum_map_upd (fun cs => (cs.listeners.filter (fun q => q.1 == x)).length)
    st.cells c g hnd cs0 hc

lemma countLtot_le_effTotal (st : St) (e c : Nat) : countLtot st e c ≤ effTotal st e := by
  unfold countLtot cellListeners effTotal
  cases hf : alGet? st.cells c with
  | none => simp
  | some cs =>
      have hm := alGet?_mem hf
      have hmem : (cs.listeners.filter (isEffL e)).length
          ∈ st.cells.map (fun p => (p.2.listeners.filter (isEffL e)).length) :=
        List.mem_map.mpr ⟨(c, cs), hm, rfl⟩
      exact List.single_le_sum (fun a _ => Nat.zero_le a) _ hmem

lemma lCount_le_id_filter (st : St) (e c l : Nat) :
    lCount st e c l ≤ ((cellListeners st c).filter (fun q => q.1 == l)).length := by
  unfold lCount
  induction cellListeners st c with
  | nil => simp
  | cons hd tl ih =>
      by_cases h : hd.1 = l
      · by_cases h2 : isEffL e hd = true
        · rw [List.filter_cons_of_pos (by simp [h, h2]), List.filter_cons_of_pos (by simp [h])]
          simpa using ih
        · rw [List.filter_cons_of_neg (by simp [h, h2]),
            List.filter_cons_of_pos (by simp [h])]
          exact Nat.le_succ_of_le ih
      · rw [List.filter_cons_of_neg (by simp [h]), List.filter_cons_of_neg (by simp [h])]
        exact ih

lemma lCount_le_countLtot (st : St) (e c l : Nat) : lCount st e c l ≤ countLtot st e c := by
  unfold lCount countLtot
  induction cellListeners st c with
  | nil => simp
  | cons hd tl ih =>
      by_cases h2 : isEffL e hd = true
      · by_cases h : hd.1 = l
        · rw [List.filter_cons_of_pos (by simp [h, h2]), List.filter_cons_of_pos h2]
          simpa using ih
        · rw [List.filter_cons_of_neg (by simp [h]), List.filter_cons_of_pos h2]
          exact Nat.le_succ_of_le ih
      · rw [List.filter_cons_of_neg (by simp [h2]), List.filter_cons_of_neg h2]
        exact ih

lemma countLtot_eq_zero_of_lCount (st : St) (e c : Nat)
    (h : ∀ l, lCount st e c l = 0) : countLtot st e c = 0 := by
  by_contra hne
  have hpos : 0 < countLtot st e c := Nat.pos_of_ne_zero hne
  unfold countLtot at hpos
  obtain ⟨q, hq⟩ := List.exists_mem_of_length_pos hpos
  have hq2 := List.mem_filter.mp hq
  have : 0 < lCount st e c q.1 := by
    unfold lCount
    have : q ∈ (cellListeners st c).filter (fun q2 => q2.1 == q.1 && isEffL e q2) :=
      List.mem_filter.mpr ⟨hq2.1, by simp [hq2.2]⟩
    exact List.length_pos.mpr (List.ne_nil_of_mem this)
  have h0 := h q.1
  omega

lemma removeListener_eq (st : St) (c l : Nat) :
    removeListener st c l = updCell st c (rmF l) := rfl

lemma pairs_cons_own (c l e2 : Nat) (rest : List CEntry) :
    pairsOfCleanup (CEntry.dereg c l e2 :: rest) e2 = (c, l) :: pairsOfCleanup rest e2 := by
  simp [pairsOfCleanup]

lemma refGet_refDecDel_self (st : St) (e3 : Nat) :
    refGet (refDecDel st e3) e3 = refGet st e3 - 1 := by
  unfold refDecDel
  split
  · next h =>
      show (alGet? (alErase st.refCounts e3) e3).getD 0 = _
      rw [alGet?_alErase, if_pos rfl]
      show 0 = refGet st e3 - 1
      omega
  · show (alGet? (alPut st.refCounts e3 (refGet st e3 - 1)) e3).getD 0 = _
    rw [alGet?_alPut, if_pos rfl]
    rfl

lemma refDecDel_keys (st : St) (e3 : Nat) :
    ∀ p ∈ (refDecDel st e3).refCounts, ∃ q ∈ st.refCounts, p.1 = q.1 := by
  unfold refDecDel
  split
  · intro p hp
    exact ⟨p, List.mem_of_mem_filter hp, rfl⟩
  · next h =>
      intro p hp
      have hsome : (st.refCounts.find? (fun p => p.1 == e3)).isSome = true := by
        by_contra hns
        have hnone : st.refCounts.find? (fun p => p.1 == e3) = none := by
          cases hx : st.refCounts.find? (fun p => p.1 == e3) with
          | none => rfl
          | some q => rw [hx] at hns; simp at hns
        have : refGet st e3 = 0 := by
          unfold refGet alGet?
          rw [hnone]
          rfl
        omega
      unfold alPut at hp
      rw [if_pos hsome] at hp
      unfold alSet at hp
      obtain ⟨q, hq, hqe⟩ := List.mem_map.mp hp
      by_cases hqc : q.1 = e3
      · rw [if_pos hqc] at hqe
        refine ⟨q, hq, ?_⟩
        rw [← hqe]
        exact hqc.symm
      · rw [if_neg hqc] at hqe
        refine ⟨q, hq, ?_⟩
        rw [← hqe]

lemma filter_sub_eq (L : List (Nat × LAct)) (l e2 : Nat)
    (hlen : (L.filter (fun q => q.1 == l && isEffL e2 q)).length
      = (L.filter (fun q => q.1 == l)).length) :
    ∀ q ∈ L, q.1 = l → isEffL e2 q = true := by
  have hcomm : L.filter (fun q => q.1 == l && isEffL e2 q)
      = (L.filter (fun q => q.1 == l)).filter (fun q => isEffL e2 q) := by
    rw [List.filter_filter]
    exact List.filter_congr (fun a _ => by rw [Bool.and_comm])
  have hsub : ((L.filter (fun q => q.1 == l)).filter (fun q => isEffL e2 q)).Sublist
      (L.filter (fun q => q.1 == l)) := List.filter_sublist _
  have heq : (L.filter (fun q => q.1 == l)).filter (fun q => isEffL e2 q)
      = L.filter (fun q => q.1 == l) := by
    refine hsub.eq_of_length_le ?_
    rw [← hcomm, hlen]
  intro q hq hql
  have hqf : q ∈ L.filter (fun q => q.1 == l) := List.mem_filter.mpr ⟨hq, by simp [hql]⟩
  rw [← heq] at hqf
  exact (List.mem_filter.mp hqf).2

lemma refDecDel_nextCell (st : St) (e3 : Nat) :
    (refDecDel st e3).nextCell = st.nextCell := by
  unfold refDecDel
  split
  · rfl
  · rfl

lemma wfc_dereg_step {st : St} {e2 c l : Nat} {rest : List CEntry}
    (W : WFc st e2 (CEntry.dereg c l e2 :: rest)) :
    WFc (refDecDel (removeListener st c l) e2) e2 rest ∧
      ∀ e c2, e ≠ e2 → countLtot (refDecDel (removeListener st c l) e2) e c2
        = countLtot st e c2 := by
  have hnd : (st.cells.map (fun p => p.1)).Nodup := by
    rw [W.cellKeys]; exact List.nodup_range st.nextCell
  have hsync := W.cleanSync e2 c l
  rw [if_pos rfl, pairs_cons_own, List.count_cons, if_pos (by simp)] at hsync
  have hl1 : 1 ≤ lCount st e2 c l := by omega
  have hcs : ∃ cs0, alGet? st.cells c = some cs0 := by
    cases hx : alGet? st.cells c with
    | some cs0 => exact ⟨cs0, rfl⟩
    | none =>
        exfalso
        have hnil : cellListeners st c = [] := by
          unfold cellListeners; rw [hx]; rfl
        unfold lCount at hl1
        rw [hnil] at hl1
        simp at hl1
  obtain ⟨cs0, hcs0⟩ := hcs
  have hLe : cellListeners st c = cs0.listeners := by
    unfold cellListeners; rw [hcs0]; rfl
  have hid_le : (cs0.listeners.filter (fun q => q.1 == l)).length ≤ 1 := by
    have hcount := count_allLids st l
    have hmem : (cs0.listeners.filter (fun q => q.1 == l)).length
        ∈ st.cells.map (fun p => (p.2.listeners.filter (fun q => q.1 == l)).length) :=
      List.mem_map.mpr ⟨(c, cs0), alGet?_mem hcs0, rfl⟩
    have hle := List.single_le_sum (fun a (_ : a ∈ _) => Nat.zero_le a) _ hmem
    have hnodup := (List.nodup_iff_count_le_one.mp W.lidsNodup) l
    omega
  have hlc_id : lCount st e2 c l ≤ (cs0.listeners.filter (fun q => q.1 == l)).length := by
    have h := lCount_le_id_filter st e2 c l
    rw [hLe] at h
    exact h
  have hlc1 : lCount st e2 c l = 1 := by omega
  have hpr0 : (pairsOfCleanup rest e2).count (c, l) = 0 := by omega
  have hid1 : (cs0.listeners.filter (fun q => q.1 == l)).length = 1 := by omega
  have hmidIs : ∀ e, (cs0.listeners.filter (fun q => q.1 == l && isEffL e q)).length
      = lCount st e c l := by
    intro e
    unfold lCount
    rw [hLe]
  have htag : ∀ q ∈ cs0.listeners, q.1 = l → isEffL e2 q = true := by
    apply filter_sub_eq cs0.listeners l e2
    have h := hmidIs e2
    omega
  have hlcO : ∀ e, e ≠ e2 → lCount st e c l = 0 := by
    intro e he
    by_contra h0
    have hpos : 0 < lCount st e c l := Nat.pos_of_ne_zero h0
    unfold lCount at hpos
    obtain ⟨q, hq⟩ := List.exists_mem_of_length_pos hpos
    obtain ⟨hqm, hqp⟩ := List.mem_filter.mp hq
    rw [hLe] at hqm
    simp only [Bool.and_eq_true, beq_iff_eq] at hqp
    obtain ⟨hql, hqe⟩ := hqp
    have ht2 := htag q hqm hql
    unfold isEffL at hqe ht2
    cases hq2 : q.2 with
    | sub => rw [hq2] at hqe; simp at hqe
    | eff x =>
        rw [hq2] at hqe ht2
        simp at hqe ht2
        exact he (hqe ▸ ht2)
  have hcells2 : (refDecDel (removeListener st c l) e2).cells
      = (removeListener st c l).cells := (refDecDel_ghost _ _).1
  have hCL2 : ∀ c2, cellListeners (refDecDel (removeListener st c l) e2) c2
      = cellListeners (removeListener st c l) c2 := by
    intro c2
    unfold cellListeners
    rw [hcells2]
  have hLnew : cellListeners (removeListener st c l) c
      = cs0.listeners.filter (fun q => q.1 != l) := by
    rw [removeListener_eq, cellListeners_updCell, if_pos rfl, hcs0]
    rfl
  have hLother : ∀ c2, c2 ≠ c →
      cellListeners (removeListener st c l) c2 = cellListeners st c2 := by
    intro c2 hc2
    rw [removeListener_eq, cellListeners_updCell, if_neg hc2]
  have hlC : ∀ e l2, lCount (refDecDel (removeListener st c l) e2) e c l2
      + (cs0.listeners.filter (fun q => q.1 == l && (q.1 == l2 && isEffL e q))).length
      = lCount st e c l2 := by
    intro e l2
    unfold lCount
    rw [hCL2, hLnew, hLe]
    exact len_filter_split cs0.listeners (fun q => q.1 == l2 && isEffL e q) l
  have hmid0 : ∀ e l2, l2 ≠ l → (cs0.listeners.filter
      (fun q => q.1 == l && (q.1 == l2 && isEffL e q))).length = 0 := by
    intro e l2 hl2
    rw [List.length_eq_zero, List.filter_eq_nil_iff]
    intro a ha
    simp only [Bool.and_eq_true, beq_iff_eq]
    rintro ⟨ha1, ha2, -⟩
    exact hl2 (by rw [← ha2, ha1])
  have hmidL : ∀ e, (cs0.listeners.filter
      (fun q => q.1 == l && (q.1 == l && isEffL e q))).length = lCount st e c l := by
    intro e
    rw [← hmidIs e]
    congr 1
    exact List.filter_congr (fun a _ => by by_cases hx : a.1 = l <;> simp [hx])
  have hcL : ∀ e, countLtot (refDecDel (removeListener st c l) e2) e c
      + lCount st e c l = countLtot st e c := by
    intro e
    have h1 := len_filter_split cs0.listeners (isEffL e) l
    have h2 := hmidIs e
    unfold countLtot
    rw [hCL2, hLnew, hLe]
    omega
  have hcLo : ∀ e c2, c2 ≠ c →
      countLtot (refDecDel (removeListener st c l) e2) e c2 = countLtot st e c2 := by
    intro e c2 hc2
    unfold countLtot
    rw [hCL2, hLother c2 hc2]
  have hET : ∀ e, effTotal (refDecDel (removeListener st c l) e2) e + lCount st e c l
      = effTotal st e := by
    intro e
    have h1 : effTotal (refDecDel (removeListener st c l) e2) e
        = effTotal (updCell st c (rmF l)) e := by
      unfold effTotal
      rw [hcells2, removeListener_eq]
    have h2 := effTotal_updCell st e c (rmF l) cs0 hnd hcs0
    have h3 := len_filter_split cs0.listeners (isEffL e) l
    have h4 := hmidIs e
    have hb2 : ((rmF l cs0).listeners.filter (isEffL e)).length
        = ((cs0.listeners.filter (fun q => q.1 != l)).filter (isEffL e)).length := rfl
    omega
  have hAL : ∀ x, (allLids (refDecDel (removeListener st c l) e2)).count x
      ≤ (allLids st).count x := by
    intro x
    have h1 : (allLids (refDecDel (removeListener st c l) e2)).count x
        = (allLids (updCell st c (rmF l))).count x := by
      unfold allLids
      rw [hcells2, removeListener_eq]
    have h2 := allLids_count_updCell st x c (rmF l) cs0 hnd hcs0
    have h3 := len_filter_split cs0.listeners (fun q => q.1 == x) l
    have hb2 : ((rmF l cs0).listeners.filter (fun q => q.1 == x)).length
        = ((cs0.listeners.filter (fun q => q.1 != l)).filter (fun q => q.1 == x)).length := rfl
    omega
  have hmemL : ∀ x, x ∈ allLids (refDecDel (removeListener st c l) e2) → x ∈ allLids st := by
    intro x hx
    have hx2 : x ∈ allLids (updCell st c (rmF l)) := by
      unfold allLids at hx ⊢
      rw [hcells2, removeListener_eq] at hx
      exact hx
    rw [mem_allLids] at hx2 ⊢
    obtain ⟨p, hp, q, hq, hqx⟩ := hx2
    obtain ⟨p0, hp0, rfl⟩ := mem_cells_updCell hp
    by_cases hpc : p0.1 = c
    · rw [if_pos hpc] at hq
      exact ⟨p0, hp0, q, List.mem_of_mem_filter hq, hqx⟩
    · rw [if_neg hpc] at hq
      exact ⟨p0, hp0, q, hq, hqx⟩
  have hco : ∀ e, cleanupOf (refDecDel (removeListener st c l) e2) e = cleanupOf st e := by
    intro e
    unfold cleanupOf
    rw [(refDecDel_ghost _ _).2.2.1]
    rfl
  have hNL : (refDecDel (removeListener st c l) e2).nextListener = st.nextListener := by
    rw [(refDecDel_ghost _ _).2.2.2.1]
    rfl
  have hNE : (refDecDel (removeListener st c l) e2).nextEffect = st.nextEffect := by
    rw [(refDecDel_ghost _ _).2.2.2.2.1]
    rfl
  have hNC : (refDecDel (removeListener st c l) e2).nextCell = st.nextCell := by
    rw [refDecDel_nextCell]
    rfl
  have hCU : (refDecDel (removeListener st c l) e2).currentEffect = st.currentEffect := by
    rw [(refDecDel_ghost _ _).2.2.2.2.2.1]
    rfl
  have hEFF : (refDecDel (removeListener st c l) e2).effects = st.effects := by
    rw [(refDecDel_ghost _ _).2.2.1]
    rfl
  refine ⟨⟨?_, ?_, ?_, ?_, ?_, ?_, ?_, ?_, ?_, ?_, ?_⟩, ?_⟩
  · rw [List.nodup_iff_count_le_one]
    intro x
    have h1 := hAL x
    have h2 := (List.nodup_iff_count_le_one.mp W.lidsNodup) x
    omega
  · intro x hx
    rw [hNL]
    exact W.lidsLt x (hmemL x hx)
  · have h1 : (refDecDel (removeListener st c l) e2).cells.map (fun p => p.1)
        = (updCell st c (rmF l)).cells.map (fun p => p.1) := by
      rw [hcells2, removeListener_eq]
    rw [h1, keys_updCell, hNC]
    exact W.cellKeys
  · rw [hEFF, hNE]
    exact W.effKeys
  · intro p hp q hq e he
    rw [hNE]
    rw [hcells2, removeListener_eq] at hp
    obtain ⟨p0, hp0, rfl⟩ := mem_cells_updCell hp
    by_cases hpc : p0.1 = c
    · rw [if_pos hpc] at hq
      exact W.effTargets p0 hp0 q (List.mem_of_mem_filter hq) e he
    · rw [if_neg hpc] at hq
      exact W.effTargets p0 hp0 q hq e he
  · intro pe hpe entry hent
    rw [hEFF] at hpe
    obtain ⟨c2, l2, he1, he2, he3⟩ := W.cleanOwn pe hpe entry hent
    rw [hNC, hNL]
    exact ⟨c2, l2, he1, he2, he3⟩
  · intro entry hent
    exact W.restOwn entry (by simp [hent])
  · intro e c2 l2
    by_cases he : e = e2
    · rw [he, if_pos rfl]
      by_cases hc2 : c2 = c
      · by_cases hl2 : l2 = l
        · rw [hc2, hl2]
          have h1 := hlC e2 l
          have h2 := hmidL e2
          omega
        · rw [hc2]
          have h1 := hlC e2 l2
          have h2 := hmid0 e2 l2 hl2
          have h3 := W.cleanSync e2 c l2
          rw [if_pos rfl, pairs_cons_own, List.count_cons, if_neg (by simp; omega)] at h3
          omega
      · have h2 := W.cleanSync e2 c2 l2
        rw [if_pos rfl, pairs_cons_own, List.count_cons, if_neg (by simp; omega)] at h2
        have h3 : lCount (refDecDel (removeListener st c l) e2) e2 c2 l2
            = lCount st e2 c2 l2 := by
          unfold lCount
          rw [hCL2, hLother c2 hc2]
        omega
    · rw [if_neg he, hco]
      have h2 := W.cleanSync e c2 l2
      rw [if_neg he] at h2
      by_cases hc2 : c2 = c
      · by_cases hl2 : l2 = l
        · rw [hc2, hl2]
          rw [hc2, hl2] at h2
          have h1 := hlC e l
          have hm := hmidL e
          have h4 := hlcO e he
          omega
        · rw [hc2]
          rw [hc2] at h2
          have h1 := hlC e l2
          have hm := hmid0 e l2 hl2
          omega
      · have h3 : lCount (refDecDel (removeListener st c l) e2) e c2 l2
            = lCount st e c2 l2 := by
          unfold lCount
          rw [hCL2, hLother c2 hc2]
        omega
  · intro e
    by_cases he : e = e2
    · rw [he]
      have h1 : refGet (refDecDel (removeListener st c l) e2) e2
          = refGet (removeListener st c l) e2 - 1 := refGet_refDecDel_self _ _
      have h1b : refGet (removeListener st c l) e2 = refGet st e2 := rfl
      have h2 := hET e2
      have h3 := W.refSync e2
      omega
    · have h1 : refGet (refDecDel (removeListener st c l) e2) e
          = refGet (removeListener st c l) e := refGet_refDecDel_other _ _ _ he
      have h1b : refGet (removeListener st c l) e = refGet st e := rfl
      have h2 := hET e
      have h4 := hlcO e he
      have h3 := W.refSync e
      omega
  · intro p hp
    rw [hNE]
    have h1 : (removeListener st c l).refCounts = st.refCounts := rfl
    obtain ⟨q, hq, hpq⟩ := refDecDel_keys (removeListener st c l) e2 p hp
    rw [h1] at hq
    rw [hpq]
    exact W.refKeys q hq
  · intro e he
    rw [hCU] at he
    rw [hNE]
    exact W.curOK e he
  · intro e c2 he
    by_cases hc2 : c2 = c
    · rw [hc2]
      have h1 := hcL e
      have h2 := hlcO e he
      omega
    · exact hcLo e c2 hc2

lemma frameOf_refDecDel (st : St) (e3 : Nat) : frameOf (refDecDel st e3) = frameOf st := by
  unfold refDecDel
  split
  · rfl
  · rfl

lemma frame_effects {st st' : St} (h : frameOf st' = frameOf st) : st'.effects = st.effects :=
  congrArg (fun x => x.1) h

lemma frame_pending {st st' : St} (h : frameOf st' = frameOf st) : st'.pending = st.pending :=
  congrArg (fun x => x.2.1) h

lemma frame_nextListener {st st' : St} (h : frameOf st' = frameOf st) :
    st'.nextListener = st.nextListener :=
  congrArg (fun x => x.2.2.2.2.2.1) h

lemma frame_nextEffect {st st' : St} (h : frameOf st' = frameOf st) :
    st'.nextEffect = st.nextEffect :=
  congrArg (fun x => x.2.2.2.2.2.2.1) h

lemma frame_nextCell {st st' : St} (h : frameOf st' = frameOf st) :
    st'.nextCell = st.nextCell :=
  congrArg (fun x => x.2.2.2.2.2.2.2.1) h

lemma frame_currentEffect {st st' : St} (h : frameOf st' = frameOf st) :
    st'.currentEffect = st.currentEffect :=
  congrArg (fun x => x.2.2.2.2.2.2.2.2.1) h

lemma frame_log {st st' : St} (h : frameOf st' = frameOf st) : st'.log = st.log :=
  congrArg (fun x => x.2.2.2.2.2.2.2.2.2.1) h

lemma frame_runs {st st' : St} (h : frameOf st' = frameOf st) : st'.runs = st.runs :=
  congrArg (fun x => x.2.2.2.2.2.2.2.2.2.2.1) h

lemma frame_treads {st st' : St} (h : frameOf st' = frameOf st) : st'.treads = st.treads :=
  congrArg (fun x => x.2.2.2.2.2.2.2.2.2.2.2.1) h

lemma frame_disposals {st st' : St} (h : frameOf st' = frameOf st) :
    st'.disposals = st.disposals :=
  congrArg (fun x => x.2.2.2.2.2.2.2.2.2.2.2.2) h

/-- The cleanup-chain executor of an effect's own deregistration chain:
it drains the chain against the live registrations, yielding the
invariant with an empty remainder, touching nothing but the cells'
listener sets and the reference-count table, and leaving every other
effect's registrations intact. -/
lemma runCleanup_spec {e2 : Nat} : ∀ (rest : List CEntry) (f : Nat) (st st' : St),
    runCleanup f rest st = some st' → WFc st e2 rest →
    WFc st' e2 [] ∧ frameOf st' = frameOf st ∧
      (∀ e c2, e ≠ e2 → countLtot st' e c2 = countLtot st e c2) := by
  intro rest
  induction rest with
  | nil =>
      intro f st st' h W
      match f with
      | 0 => simp [runCleanup] at h
      | f + 1 =>
          simp only [runCleanup, Option.some.injEq] at h
          subst h
          exact ⟨W, rfl, fun _ _ _ => rfl⟩
  | cons entry rest ih =>
      intro f st st' h W
      obtain ⟨c, l, rfl⟩ := W.restOwn entry (by simp)
      match f with
      | 0 => simp [runCleanup] at h
      | f + 1 =>
          simp only [runCleanup] at h
          obtain ⟨W2, hcnt⟩ := wfc_dereg_step W
          obtain ⟨W3, hfr, hcnt2⟩ := ih f _ st' h W2
          refine ⟨W3, ?_, ?_⟩
          · exact hfr.trans (frameOf_refDecDel _ _)
          · intro e c2 he
            rw [hcnt2 e c2 he, hcnt e c2 he]

lemma wfc_of_wf {st : St} (h : WF st) (e2 : Nat) : WFc st e2 (cleanupOf st e2) := by
  refine ⟨h.lidsNodup, h.lidsLt, h.cellKeys, h.effKeys, h.effTargets, h.cleanOwn,
    ?_, ?_, h.refSync, h.refKeys, h.curOK⟩
  · intro entry hent
    unfold cleanupOf at hent
    cases hx : alGet? st.effects e2 with
    | none => rw [hx] at hent; simp at hent
    | some es =>
        rw [hx] at hent
        simp at hent
        obtain ⟨c, l, he1, -, -⟩ := h.cleanOwn (e2, es) (alGet?_mem hx) entry hent
        exact ⟨c, l, he1⟩
  · intro e c l
    by_cases he : e = e2
    · rw [he, if_pos rfl]
      exact h.cleanSync e2 c l
    · rw [if_neg he]
      exact h.cleanSync e c l

lemma mem_effects_updEff {st : St} {e : Nat} {g : EffSt → EffSt} {p : Nat × EffSt}
    (hp : p ∈ (updEff st e g).effects) :
    ∃ p0 ∈ st.effects, p = (if p0.1 = e then (p0.1, g p0.2) else p0) := by
  simp only [updEff, List.mem_map] at hp
  obtain ⟨p0, hp0, hpe⟩ := hp
  exact ⟨p0, hp0, hpe.symm⟩

lemma keys_updEff (st : St) (e : Nat) (g : EffSt → EffSt) :
    (updEff st e g).effects.map (fun p => p.1) = st.effects.map (fun p => p.1) := by
  show (st.effects.map _).map _ = _
  rw [List.map_map]
  refine List.map_congr_left fun p hp => ?_
  by_cases h : p.1 = e <;> simp [h]

lemma cleanupOf_setCleanup_self0 (st : St) (e3 : Nat) :
    cleanupOf (setCleanup st e3 []) e3 = [] := by
  unfold setCleanup cleanupOf
  rw [alGet?_updEff]
  cases alGet? st.effects e3 with
  | none => rfl
  | some es => simp

lemma cleanupOf_updEff_other (st : St) (e3 e : Nat) (g : EffSt → EffSt) (h : e ≠ e3) :
    cleanupOf (updEff st e3 g) e = cleanupOf st e := by
  unfold cleanupOf
  rw [alGet?_updEff]
  cases alGet? st.effects e with
  | none => rfl
  | some es => simp [h]

lemma wf_of_wfc_nil {st : St} {e2 : Nat} (W : WFc st e2 []) : WF (setCleanup st e2 []) := by
  refine ⟨W.lidsNodup, W.lidsLt, W.cellKeys, ?_, W.effTargets, ?_, ?_, W.refSync,
    W.refKeys, W.curOK⟩
  · show (updEff st e2 _).effects.map (fun p => p.1) = _
    rw [keys_updEff]
    exact W.effKeys
  · intro pe hpe entry hent
    obtain ⟨p0, hp0, rfl⟩ := mem_effects_updEff hpe
    by_cases hpc : p0.1 = e2
    · rw [if_pos hpc] at hent ⊢
      simp at hent
    · rw [if_neg hpc] at hent ⊢
      exact W.cleanOwn p0 hp0 entry hent
  · intro e c l
    by_cases he : e = e2
    · rw [he, cleanupOf_setCleanup_self0]
      have h2 := W.cleanSync e2 c l
      rw [if_pos rfl] at h2
      exact h2
    · have hc : cleanupOf (setCleanup st e2 []) e = cleanupOf st e :=
        cleanupOf_updEff_other st e2 e _ he
      rw [hc]
      have h2 := W.cleanSync e c l
      rw [if_neg he] at h2
      exact h2

lemma Tr_rfl (st : St) : Tr st st :=
  ⟨⟨[], by simp⟩, ⟨[], by simp⟩, ⟨[], by simp⟩, Nat.le_refl _, fun _ _ _ _ => rfl⟩

lemma Tr_trans {st1 st2 st3 : St} (h1 : Tr st1 st2) (h2 : Tr st2 st3) : Tr st1 st3 := by
  obtain ⟨⟨r1, hr1⟩, ⟨d1, hd1⟩, ⟨t1, ht1⟩, hn1, hx1⟩ := h1
  obtain ⟨⟨r2, hr2⟩, ⟨d2, hd2⟩, ⟨t2, ht2⟩, hn2, hx2⟩ := h2
  refine ⟨⟨r1 ++ r2, by rw [hr2, hr1, List.append_assoc]⟩,
    ⟨d1 ++ d2, by rw [hd2, hd1, List.append_assoc]⟩,
    ⟨t1 ++ t2, by rw [ht2, ht1, List.append_assoc]⟩, Nat.le_trans hn1 hn2, ?_⟩
  intro e c hre hde
  have hrc1 : st2.runs.count e = st1.runs.count e := by
    rw [hr2, List.count_append] at hre
    rw [hr1, List.count_append] at hre ⊢
    omega
  have hrc2 : st3.runs.count e = st2.runs.count e := by
    rw [hr2, List.count_append, hrc1]
    rw [hr2, List.count_append, hrc1] at hre
    omega
  have hdc1 : st2.disposals.count e = st1.disposals.count e := by
    rw [hd2, List.count_append] at hde
    rw [hd1, List.count_append] at hde ⊢
    omega
  have hdc2 : st3.disposals.count e = st2.disposals.count e := by
    rw [hd2, List.count_append, hdc1]
    rw [hd2, List.count_append, hdc1] at hde
    omega
  have e1 := hx1 e c hrc1 hdc1
  have e2 := hx2 e c hrc2 hdc2
  omega

lemma Tr_eqs {st st' : St} (hr : st'.runs = st.runs) (hd : st'.disposals = st.disposals)
    (ht : st'.treads = st.treads) (hn : st.nextEffect ≤ st'.nextEffect)
    (hc : ∀ e c, countLtot st' e c = countLtot st e c) : Tr st st' := by
  refine ⟨⟨[], by simp [hr]⟩, ⟨[], by simp [hd]⟩, ⟨[], by simp [ht]⟩, hn, ?_⟩
  intro e c _ _
  rw [hc e c, ht]

lemma Tr_runs_append (st : St) (d : List Nat) :
    Tr st { st with runs := st.runs ++ d } := by
  refine ⟨⟨d, rfl⟩, ⟨[], by simp⟩, ⟨[], by simp⟩, Nat.le_refl _, ?_⟩
  intro e c _ _
  rfl

lemma Tr_disp_append (st : St) (d : List Nat) :
    Tr st { st with disposals := st.disposals ++ d } := by
  refine ⟨⟨[], by simp⟩, ⟨d, rfl⟩, ⟨[], by simp⟩, Nat.le_refl _, ?_⟩
  intro e c _ _
  rfl

/-- Transport `WF` across a state whose graph-relevant fields agree. -/
lemma wf_congr {st st' : St} (h : WF st) (hc : st'.cells = st.cells)
    (he : st'.effects = st.effects) (hr : st'.refCounts = st.refCounts)
    (hl : st'.nextListener = st.nextListener) (hne : st'.nextEffect = st.nextEffect)
    (hnc : st'.nextCell = st.nextCell) (hcu : st'.currentEffect = st.currentEffect) :
    WF st' := by
  have hall : allLids st' = allLids st := by unfold allLids; rw [hc]
  have hclean : ∀ e, cleanupOf st' e = cleanupOf st e := by
    intro e; unfold cleanupOf; rw [he]
  have hlc : ∀ e c l, lCount st' e c l = lCount st e c l := by
    intro e c l; unfold lCount cellListeners; rw [hc]
  have hrg : ∀ e, refGet st' e = refGet st e := by
    intro e; unfold refGet; rw [hr]
  have het : ∀ e, effTotal st' e = effTotal st e := by
    intro e; unfold effTotal; rw [hc]
  refine ⟨?_, ?_, ?_, ?_, ?_, ?_, ?_, ?_, ?_, ?_⟩
  · rw [hall]; exact h.lidsNodup
  · intro l hx; rw [hl]; rw [hall] at hx; exact h.lidsLt l hx
  · rw [hc, hnc]; exact h.cellKeys
  · rw [he, hne]; exact h.effKeys
  · intro p hp q hq e heq
    rw [hne]
    rw [hc] at hp
    exact h.effTargets p hp q hq e heq
  · intro pe hpe entry hent
    rw [hnc, hl]
    rw [he] at hpe
    exact h.cleanOwn pe hpe entry hent
  · intro e c l
    rw [hclean e, hlc e c l]
    exact h.cleanSync e c l
  · intro e
    rw [hrg e, het e]
    exact h.refSync e
  · intro p hp
    rw [hne]
    rw [hr] at hp
    exact h.refKeys p hp
  · intro e heq
    rw [hne]
    rw [hcu] at heq
    exact h.curOK e heq

lemma scheduleEffect_more (e2 : Nat) (st : St) :
    (scheduleEffect e2 st).nextCell = st.nextCell ∧
    (scheduleEffect e2 st).treads = st.treads ∧
    (scheduleEffect e2 st).disposals = st.disposals := by
  simp only [scheduleEffect]
  split
  · exact ⟨rfl, rfl, rfl⟩
  · split
    · exact ⟨rfl, rfl, rfl⟩
    · split
      · exact ⟨rfl, rfl, rfl⟩
      · exact ⟨rfl, rfl, rfl⟩

lemma wf_tr_notifyStep (c : Nat) (st : St) (p : Nat × LAct) (h : WF st) :
    WF (notifyStep c st p) ∧ Tr st (notifyStep c st p) ∧
      (notifyStep c st p).currentEffect = st.currentEffect := by
  obtain ⟨l2, act⟩ := p
  unfold notifyStep
  split
  case isTrue hg =>
      cases act with
      | eff e2 =>
          dsimp only
          obtain ⟨g1, g2, g3, g4, g5, g6, g7, g8⟩ := scheduleEffect_ghost e2 st
          obtain ⟨g9, g10, g11⟩ := scheduleEffect_more e2 st
          refine ⟨wf_congr h g1 g4 g3 g5 g6 g9 g7, ?_, g7⟩
          refine Tr_eqs g8 g11 g10 (by omega) ?_
          intro e c2
          unfold countLtot cellListeners
          rw [g1]
      | sub =>
          dsimp only
          refine ⟨wf_congr h rfl rfl rfl rfl rfl rfl rfl, ?_, rfl⟩
          exact Tr_eqs rfl rfl rfl (Nat.le_refl _) (fun _ _ => rfl)
  case isFalse => exact ⟨h, Tr_rfl st, rfl⟩

lemma wf_tr_notifySnap : ∀ (snap : List (Nat × LAct)) (c : Nat) (st : St), WF st →
    WF (notifySnap snap c st) ∧ Tr st (notifySnap snap c st) ∧
      (notifySnap snap c st).currentEffect = st.currentEffect := by
  intro snap
  induction snap with
  | nil => intro c st h; exact ⟨h, Tr_rfl st, rfl⟩
  | cons p rest ih =>
      intro c st h
      simp only [notifySnap]
      obtain ⟨h1, h2, h3⟩ := wf_tr_notifyStep c st p h
      obtain ⟨h4, h5, h6⟩ := ih c _ h1
      exact ⟨h4, Tr_trans h2 h5, h6.trans h3⟩

lemma alGet?_some_of_key {α : Type} {L : List (Nat × α)} {k : Nat}
    (hk : k ∈ L.map (fun p => p.1)) : ∃ v, alGet? L k = some v := by
  obtain ⟨p, hp, hpk⟩ := List.mem_map.mp hk
  unfold alGet?
  cases hf : L.find? (fun q => q.1 == k) with
  | some q => exact ⟨q.2, rfl⟩
  | none =>
      have := List.find?_eq_none.mp hf p hp
      rw [hpk] at this
      simp at this

lemma key_lt_of_cell {st : St} {c : Nat} {cs : CellSt} (h : WF st)
    (hc : alGet? st.cells c = some cs) : c < st.nextCell := by
  have hm : c ∈ st.cells.map (fun p => p.1) := List.mem_map.mpr ⟨(c, cs), alGet?_mem hc, rfl⟩
  rw [h.cellKeys] at hm
  exact List.mem_range.mp hm

lemma eff_present {st : St} {e : Nat} (h : WF st) (he : e < st.nextEffect) :
    ∃ es, alGet? st.effects e = some es := by
  refine alGet?_some_of_key ?_
  rw [h.effKeys]
  exact List.mem_range.mpr he

lemma cleanupOf_pushCleanup_self {st : St} {e2 : Nat} {es : EffSt} (entry : CEntry)
    (hes : alGet? st.effects e2 = some es) :
    cleanupOf (pushCleanup st e2 entry) e2 = entry :: cleanupOf st e2 := by
  unfold cleanupOf pushCleanup
  rw [alGet?_updEff, hes]
  simp

lemma mem_alPut_key {α : Type} {lst : List (Nat × α)} {k : Nat} {v : α} {p : Nat × α}
    (hp : p ∈ alPut lst k v) : p.1 = k ∨ p.1 ∈ lst.map (fun q => q.1) := by
  unfold alPut at hp
  split at hp
  · obtain ⟨q, hq, hqe⟩ := List.mem_map.mp hp
    by_cases hqk : q.1 = k
    · left; rw [if_pos hqk] at hqe; rw [← hqe]
    · right
      rw [if_neg hqk] at hqe
      rw [← hqe]
      exact List.mem_map.mpr ⟨q, hq, rfl⟩
  · rcases List.mem_append.mp hp with h1 | h1
    · exact Or.inr (List.mem_map.mpr ⟨p, h1, rfl⟩)
    · left
      have : p = (k, v) := by simpa using h1
      rw [this]

lemma wf_setCur (st : St) (o : Option Nat) (h : WF st)
    (ho : ∀ x, o = some x → x < st.nextEffect) : WF { st with currentEffect := o } :=
  ⟨h.lidsNodup, h.lidsLt, h.cellKeys, h.effKeys, h.effTargets, h.cleanOwn, h.cleanSync,
    h.refSync, h.refKeys, ho⟩

lemma tr_setCur (st : St) (o : Option Nat) : Tr st { st with currentEffect := o } :=
  Tr_eqs rfl rfl rfl (Nat.le_refl _) (fun _ _ => rfl)

lemma wf_tr_trackedRead (c : Nat) (st : St) (h : WF st) :
    WF (trackedRead c st).2 ∧ Tr st (trackedRead c st).2 ∧
      (trackedRead c st).2.currentEffect = st.currentEffect := by
  cases hc : alGet? st.cells c with
  | none =>
      have hst : trackedRead c st = (.undef, st) := by unfold trackedRead; rw [hc]
      rw [hst]
      exact ⟨h, Tr_rfl st, rfl⟩
  | some cs =>
      cases hcur : st.currentEffect with
      | none =>
          have hst : trackedRead c st = (cs.value, st) := by unfold trackedRead; rw [hc, hcur]
          rw [hst]
          exact ⟨h, Tr_rfl st, hcur⟩
      | some e2 =>
          have hst : (trackedRead c st).2 =
              { pushCleanup (refInc (addListener st c st.nextListener (.eff e2)) e2) e2
                  (.dereg c st.nextListener e2) with
                nextListener := st.nextListener + 1,
                treads := st.treads ++ [(e2, c)] } := by
            unfold trackedRead
            rw [hc, hcur]
            rfl
          rw [hst]
          have hnd : (st.cells.map (fun p => p.1)).Nodup := by
            rw [h.cellKeys]; exact List.nodup_range st.nextCell
          have he2 : e2 < st.nextEffect := h.curOK e2 hcur
          have hcC : c < st.nextCell := key_lt_of_cell h hc
          obtain ⟨es, hes⟩ := eff_present h he2
          set l := st.nextListener with hl
          set gL : CellSt → CellSt :=
            (fun cs => { cs with listeners := cs.listeners ++ [(l, LAct.eff e2)] }) with hgL
          set st' : St :=
            { pushCleanup (refInc (addListener st c l (.eff e2)) e2) e2
                (.dereg c l e2) with
              nextListener := l + 1,
              treads := st.treads ++ [(e2, c)] } with hst'
          have hcs : cellListeners st c = cs.listeners := by
            unfold cellListeners
            rw [hc]
            rfl
          have hlidEq : allLids st' = allLids (updCell st c gL) := rfl
          have hcount : ∀ x, (allLids st').count x =
              (allLids st).count x + (if l = x then 1 else 0) := by
            intro x
            have hmain := allLids_count_updCell st x c gL cs hnd hc
            have hap : ((gL cs).listeners.filter (fun q => q.1 == x)).length
                = (cs.listeners.filter (fun q => q.1 == x)).length
                  + (if l = x then 1 else 0) := by
              show ((cs.listeners ++ [(l, LAct.eff e2)]).filter (fun q => q.1 == x)).length = _
              rw [List.filter_append, List.length_append]
              by_cases hx : l = x
              · simp [hx]
              · simp [hx]
            rw [hlidEq]
            omega
          have hlid0 : (allLids st).count l = 0 := by
            by_contra hne
            have : l ∈ allLids st := List.count_pos_iff.mp (Nat.pos_of_ne_zero hne)
            exact absurd (h.lidsLt l this) (Nat.lt_irrefl l)
          have hle1 := List.nodup_iff_count_le_one.mp h.lidsNodup
          have hcl : ∀ c2, cellListeners st' c2 =
              if c2 = c then cs.listeners ++ [(l, LAct.eff e2)] else cellListeners st c2 := by
            intro c2
            have : cellListeners st' c2 = cellListeners (updCell st c gL) c2 := rfl
            rw [this, cellListeners_updCell]
            by_cases hc2 : c2 = c
            · rw [if_pos hc2, if_pos hc2, hc2, hc]
              rfl
            · rw [if_neg hc2, if_neg hc2]
          have hLc : ∀ e' c2 l2, lCount st' e' c2 l2 = lCount st e' c2 l2
              + (if c2 = c ∧ l2 = l ∧ e' = e2 then 1 else 0) := by
            intro e' c2 l2
            unfold lCount
            rw [hcl c2]
            by_cases hc2 : c2 = c
            · rw [if_pos hc2, hc2, hcs, List.filter_append, List.length_append]
              by_cases hl2 : l2 = l
              · by_cases he' : e' = e2
                · have hcond : c = c ∧ l2 = l ∧ e' = e2 := ⟨rfl, hl2, he'⟩
                  rw [if_pos hcond]
                  simp [isEffL, hl2, he']
                · have hcond : ¬(c = c ∧ l2 = l ∧ e' = e2) := fun hx => he' hx.2.2
                  rw [if_neg hcond]
                  simp [isEffL, he', Ne.symm he']
              · have hcond : ¬(c = c ∧ l2 = l ∧ e' = e2) := fun hx => hl2 hx.2.1
                rw [if_neg hcond]
                simp [isEffL, hl2, Ne.symm hl2]
            · have hcond : ¬(c2 = c ∧ l2 = l ∧ e' = e2) := fun hx => hc2 hx.1
              rw [if_neg hc2, if_neg hcond]
              omega
          have hCt : ∀ e' c2, countLtot st' e' c2 = countLtot st e' c2
              + (if c2 = c ∧ e' = e2 then 1 else 0) := by
            intro e' c2
            unfold countLtot
            rw [hcl c2]
            by_cases hc2 : c2 = c
            · rw [if_pos hc2, hc2, hcs, List.filter_append, List.length_append]
              by_cases he' : e' = e2
              · have hcond : c = c ∧ e' = e2 := ⟨rfl, he'⟩
                rw [if_pos hcond]
                simp [isEffL, he']
              · have hcond : ¬(c = c ∧ e' = e2) := fun hx => he' hx.2
                rw [if_neg hcond]
                simp [isEffL, he', Ne.symm he']
            · have hcond : ¬(c2 = c ∧ e' = e2) := fun hx => hc2 hx.1
              rw [if_neg hc2, if_neg hcond]
              omega
          have hcleanEq : ∀ e', cleanupOf st' e' =
              cleanupOf (pushCleanup st e2 (.dereg c l e2)) e' := fun _ => rfl
          have hclean : ∀ e', cleanupOf st' e' =
              if e' = e2 then CEntry.dereg c l e2 :: cleanupOf st e2 else cleanupOf st e' := by
            intro e'
            rw [hcleanEq e']
            by_cases he' : e' = e2
            · rw [if_pos he', he', cleanupOf_pushCleanup_self _ hes]
            · rw [if_neg he']
              exact cleanupOf_pushCleanup_other st e2 e' _ he'
          have hrg : ∀ e', refGet st' e' =
              if e' = e2 then refGet st e2 + 1 else refGet st e' := by
            intro e'
            have : refGet st' e' =
                (alGet? (alPut st.refCounts e2 (refGet st e2 + 1)) e').getD 0 := rfl
            rw [this, alGet?_alPut]
            by_cases he' : e' = e2
            · rw [if_pos he', if_pos he']
              rfl
            · rw [if_neg he', if_neg he']
              rfl
          have het : ∀ e', effTotal st' e' = effTotal st e' + (if e' = e2 then 1 else 0) := by
            intro e'
            have hmain := effTotal_updCell st e' c gL cs hnd hc
            have hap : ((gL cs).listeners.filter (isEffL e')).length
                = (cs.listeners.filter (isEffL e')).length + (if e' = e2 then 1 else 0) := by
              show ((cs.listeners ++ [(l, LAct.eff e2)]).filter (isEffL e')).length = _
              rw [List.filter_append, List.length_append]
              by_cases he' : e' = e2
              · simp [isEffL, he']
              · simp [isEffL, he', Ne.symm he']
            have hEq : effTotal st' e' = effTotal (updCell st c gL) e' := rfl
            rw [hEq]
            omega
          refine ⟨⟨?_, ?_, ?_, ?_, ?_, ?_, ?_, ?_, ?_, ?_⟩, ?_, hcur⟩
          · refine List.nodup_iff_count_le_one.mpr fun x => ?_
            rw [hcount x]
            by_cases hx : l = x
            · rw [← hx, hlid0]
              simp
            · rw [if_neg hx]
              have := hle1 x
              omega
          · intro x hx
            show x < l + 1
            have : 0 < (allLids st').count x := List.count_pos_iff.mpr hx
            rw [hcount x] at this
            by_cases hxl : l = x
            · omega
            · rw [if_neg hxl] at this
              have : x ∈ allLids st := List.count_pos_iff.mp (by omega)
              have := h.lidsLt x this
              omega
          · show (updCell st c gL).cells.map (fun p => p.1) = List.range st.nextCell
            rw [keys_updCell]
            exact h.cellKeys
          · show (updEff (refInc (addListener st c l (.eff e2)) e2) e2
                (fun es => { es with cleanup := CEntry.dereg c l e2 :: es.cleanup })).effects.map
                  (fun p => p.1) = List.range st.nextEffect
            rw [keys_updEff]
            exact h.effKeys
          · intro p hp q hq e heq
            show e < st.nextEffect
            have hp' : p ∈ (updCell st c gL).cells := hp
            obtain ⟨p0, hp0, hpe⟩ := mem_cells_updCell hp'
            by_cases hpc : p0.1 = c
            · rw [if_pos hpc] at hpe
              rw [hpe] at hq
              have hq' : q ∈ (gL p0.2).listeners := hq
              rcases List.mem_append.mp hq' with h1 | h1
              · exact h.effTargets p0 hp0 q h1 e heq
              · have hq2 : q = (l, LAct.eff e2) := by simpa using h1
                rw [hq2] at heq
                have : e2 = e := by simpa using heq
                rw [← this]
                exact he2
            · rw [if_neg hpc] at hpe
              rw [hpe] at hq
              exact h.effTargets p0 hp0 q hq e heq
          · intro pe hpe entry hent
            have hpe' : pe ∈ (updEff (refInc (addListener st c l (.eff e2)) e2) e2
                (fun es => { es with cleanup := CEntry.dereg c l e2 :: es.cleanup })).effects := hpe
            obtain ⟨p0, hp0, hpee⟩ := mem_effects_updEff hpe'
            have hp0' : p0 ∈ st.effects := hp0
            by_cases hpc : p0.1 = e2
            · rw [if_pos hpc] at hpee
              rw [hpee] at hent
              rcases List.mem_cons.mp hent with h1 | h1
              · refine ⟨c, l, ?_, ?_, ?_⟩
                · rw [h1, hpee]
                  show CEntry.dereg c l e2 = CEntry.dereg c l p0.1
                  rw [hpc]
                · exact hcC
                · show l < l + 1
                  omega
              · obtain ⟨c0, l0, he0, hc0, hl0⟩ := h.cleanOwn p0 hp0' entry h1
                refine ⟨c0, l0, ?_, hc0, by show l0 < l + 1; omega⟩
                rw [he0, hpee]
            · rw [if_neg hpc] at hpee
              rw [hpee] at hent
              obtain ⟨c0, l0, he0, hc0, hl0⟩ := h.cleanOwn p0 hp0' entry hent
              refine ⟨c0, l0, ?_, hc0, by show l0 < l + 1; omega⟩
              rw [he0, hpee]
          · intro e' c2 l2
            rw [hclean e', hLc e' c2 l2]
            by_cases he' : e' = e2
            · rw [if_pos he', he', pairs_cons_own, List.count_cons, h.cleanSync e2 c2 l2]
              by_cases hmatch : c2 = c ∧ l2 = l
              · have h1 : ((c, l) == (c2, l2)) = true := by
                  simp [beq_iff_eq, hmatch.1, hmatch.2]
                have h2 : c2 = c ∧ l2 = l ∧ e2 = e2 := ⟨hmatch.1, hmatch.2, rfl⟩
                rw [if_pos h1, if_pos h2]
              · have h1 : ¬(((c, l) == (c2, l2)) = true) := by
                  simp only [beq_iff_eq, Prod.mk.injEq, not_and]
                  intro hcc hll
                  exact hmatch ⟨hcc.symm, hll.symm⟩
                have h2 : ¬(c2 = c ∧ l2 = l ∧ e2 = e2) := fun hx => hmatch ⟨hx.1, hx.2.1⟩
                rw [if_neg h1, if_neg h2]
            · have hcond : ¬(c2 = c ∧ l2 = l ∧ e' = e2) := fun hx => he' hx.2.2
              rw [if_neg he', if_neg hcond, h.cleanSync e' c2 l2]
              omega
          · intro e'
            rw [hrg e', het e']
            by_cases he' : e' = e2
            · rw [if_pos he', if_pos he', he', h.refSync e2]
            · rw [if_neg he', if_neg he', h.refSync e']
              omega
          · intro p hp
            show p.1 < st.nextEffect
            have hp' : p ∈ alPut st.refCounts e2 (refGet st e2 + 1) := hp
            rcases mem_alPut_key hp' with h1 | h1
            · rw [h1]; exact he2
            · obtain ⟨q, hq, hqe⟩ := List.mem_map.mp h1
              rw [← hqe]
              exact h.refKeys q hq
          · intro e heq
            show e < st.nextEffect
            have : st.currentEffect = some e := heq
            exact h.curOK e this
          · have hruns : st'.runs = st.runs := rfl
            have hdisp : st'.disposals = st.disposals := rfl
            refine ⟨⟨[], by rw [hruns, List.append_nil]⟩, ⟨[], by rw [hdisp, List.append_nil]⟩,
              ⟨[(e2, c)], rfl⟩, Nat.le_refl _, ?_⟩
            intro e c2 _ _
            have htc : st'.treads.count (e, c2) =
                st.treads.count (e, c2) + (if c2 = c ∧ e = e2 then 1 else 0) := by
              show (st.treads ++ [(e2, c)]).count (e, c2) = _
              rw [List.count_append]
              by_cases hmatch : c2 = c ∧ e = e2
              · rw [if_pos hmatch]
                simp [List.count_cons, beq_iff_eq, hmatch.1, hmatch.2]
              · rw [if_neg hmatch]
                have : ¬ ((e2, c) = (e, c2)) := by
                  simp only [Prod.mk.injEq]
                  tauto
                simp [List.count_cons, beq_iff_eq, this]
            rw [hCt e c2, htc]
            omega

lemma wf_tr_evalExpr : ∀ (ex : Expr) (st : St), WF st →
    WF (evalExpr ex st).2 ∧ Tr st (evalExpr ex st).2 ∧
      (evalExpr ex st).2.currentEffect = st.currentEffect := by
  intro ex
  induction ex with
  | lit v => intro st h; exact ⟨h, Tr_rfl st, rfl⟩
  | readE c => intro st h; exact wf_tr_trackedRead c st h
  | addE a b iha ihb =>
      intro st h
      obtain ⟨h1, h2, h3⟩ := iha st h
      obtain ⟨h4, h5, h6⟩ := ihb (evalExpr a st).2 h1
      have hred : (evalExpr (.addE a b) st).2 = (evalExpr b (evalExpr a st).2).2 := by
        simp only [evalExpr]
      rw [hred]
      exact ⟨h4, Tr_trans h2 h5, h6.trans h3⟩
  | mulE a b iha ihb =>
      intro st h
      obtain ⟨h1, h2, h3⟩ := iha st h
      obtain ⟨h4, h5, h6⟩ := ihb (evalExpr a st).2 h1
      have hred : (evalExpr (.mulE a b) st).2 = (evalExpr b (evalExpr a st).2).2 := by
        simp only [evalExpr]
      rw [hred]
      exact ⟨h4, Tr_trans h2 h5, h6.trans h3⟩
  | pairE a b iha ihb =>
      intro st h
      obtain ⟨h1, h2, h3⟩ := iha st h
      obtain ⟨h4, h5, h6⟩ := ihb (evalExpr a st).2 h1
      have hred : (evalExpr (.pairE a b) st).2 = (evalExpr b (evalExpr a st).2).2 := by
        simp only [evalExpr]
      rw [hred]
      exact ⟨h4, Tr_trans h2 h5, h6.trans h3⟩
  | condE cE tE eE ihc iht ihe =>
      intro st h
      obtain ⟨h1, h2, h3⟩ := ihc st h
      have hred : (evalExpr (.condE cE tE eE) st).2 =
          (if isFalsy (evalExpr cE st).1 then evalExpr eE (evalExpr cE st).2
           else evalExpr tE (evalExpr cE st).2).2 := by
        simp only [evalExpr]
      rw [hred]
      by_cases hcond : isFalsy (evalExpr cE st).1 = true
      · rw [if_pos hcond]
        obtain ⟨h4, h5, h6⟩ := ihe (evalExpr cE st).2 h1
        exact ⟨h4, Tr_trans h2 h5, h6.trans h3⟩
      · rw [if_neg hcond]
        obtain ⟨h4, h5, h6⟩ := iht (evalExpr cE st).2 h1
        exact ⟨h4, Tr_trans h2 h5, h6.trans h3⟩
  | untrackedE a iha =>
      intro st h
      obtain ⟨h1, h2, h3⟩ :=
        iha { st with currentEffect := none } (wf_setCur st none h (by simp))
      have hred : (evalExpr (.untrackedE a) st).2 =
          { (evalExpr a { st with currentEffect := none }).2 with
            currentEffect := st.currentEffect } := by
        simp only [evalExpr]
      rw [hred]
      have hne : st.nextEffect ≤ (evalExpr a { st with currentEffect := none }).2.nextEffect := by
        have := h2.2.2.2.1
        exact this
      refine ⟨wf_setCur _ st.currentEffect h1 ?_, ?_, rfl⟩
      · intro x hx
        have := h.curOK x hx
        omega
      · exact Tr_trans (tr_setCur st none) (Tr_trans h2 (tr_setCur _ st.currentEffect))

lemma alGet?_none_of_forall {α : Type} {lst : List (Nat × α)} {k : Nat}
    (h : ∀ p ∈ lst, p.1 ≠ k) : alGet? lst k = none := by
  unfold alGet?
  rw [List.find?_eq_none.mpr (fun p hp => by simp [h p hp])]
  rfl

lemma alGet?_append_ne {α : Type} (lst : List (Nat × α)) (n k : Nat) (x : α) (h : k ≠ n) :
    alGet? (lst ++ [(n, x)]) k = alGet? lst k := by
  unfold alGet?
  rw [List.find?_append]
  cases h2 : lst.find? (fun p => p.1 == k) with
  | none =>
      rw [List.find?_cons_of_neg _ (by simp [Ne.symm h])]
      rfl
  | some p => rfl

lemma alGet?_append_fresh {α : Type} {lst : List (Nat × α)} {n : Nat} (x : α)
    (h : ∀ p ∈ lst, p.1 ≠ n) : alGet? (lst ++ [(n, x)]) n = some x := by
  unfold alGet?
  rw [List.find?_append, List.find?_eq_none.mpr (fun p hp => by simp [h p hp])]
  simp

lemma pairs_mem {cl : List CEntry} {e : Nat} {p : Nat × Nat}
    (hp : p ∈ pairsOfCleanup cl e) : CEntry.dereg p.1 p.2 e ∈ cl := by
  unfold pairsOfCleanup at hp
  obtain ⟨entry, hent, he⟩ := List.mem_filterMap.mp hp
  cases entry with
  | child _ => simp at he
  | dereg c0 l0 e0 =>
      dsimp only at he
      by_cases h0 : e0 = e
      · rw [if_pos h0] at he
        have hpe : (c0, l0) = p := by simpa using he
        rw [← hpe]
        rw [h0] at hent
        exact hent
      · rw [if_neg h0] at he
        simp at he

lemma effTotal_zero_of_targets (st : St) (e : Nat)
    (h : ∀ p ∈ st.cells, ∀ q ∈ p.2.listeners, ∀ x, q.2 = LAct.eff x → x < e) :
    effTotal st e = 0 := by
  unfold effTotal
  rw [List.sum_eq_zero]
  intro n hn
  obtain ⟨p, hp, hpe⟩ := List.mem_map.mp hn
  rw [← hpe, List.length_eq_zero, List.filter_eq_nil_iff]
  intro q hq hq2
  cases hqa : q.2 with
  | sub => simp [isEffL, hqa] at hq2
  | eff x =>
      simp [isEffL, hqa] at hq2
      rw [hq2] at hqa
      exact absurd (h p hp q hq e hqa) (Nat.lt_irrefl _)

lemma lCount_zero_of_targets (st : St) (e c l : Nat)
    (h : ∀ p ∈ st.cells, ∀ q ∈ p.2.listeners, ∀ x, q.2 = LAct.eff x → x < e) :
    lCount st e c l = 0 := by
  unfold lCount
  rw [List.length_eq_zero, List.filter_eq_nil_iff]
  intro q hq hq2
  have hq' : q ∈ cellListeners st c := hq
  unfold cellListeners at hq'
  cases hget : alGet? st.cells c with
  | none => rw [hget] at hq'; simp at hq'
  | some cs =>
      rw [hget] at hq'
      simp at hq'
      have hmem : (c, cs) ∈ st.cells := alGet?_mem hget
      cases hqa : q.2 with
      | sub => simp [isEffL, hqa] at hq2
      | eff x =>
          simp [isEffL, hqa] at hq2
          rw [hq2.2] at hqa
          exact absurd (h (c, cs) hmem q hq' e hqa) (Nat.lt_irrefl _)

lemma filter_keep_of_imp (L : List (Nat × LAct)) (P keep : (Nat × LAct) → Bool)
    (h : ∀ q, P q = true → keep q = true) :
    (L.filter keep).filter P = L.filter P := by
  induction L with
  | nil => rfl
  | cons hd tl ih =>
      by_cases hk : keep hd = true
      · rw [List.filter_cons_of_pos hk]
        by_cases hp : P hd = true
        · rw [List.filter_cons_of_pos hp, List.filter_cons_of_pos hp, ih]
        · rw [List.filter_cons_of_neg hp, List.filter_cons_of_neg hp, ih]
      · have hp : ¬ P hd = true := fun hp => hk (h hd hp)
        rw [List.filter_cons_of_neg hk, List.filter_cons_of_neg hp, ih]

lemma filter_keep_length_le (L : List (Nat × LAct)) (P keep : (Nat × LAct) → Bool) :
    ((L.filter keep).filter P).length ≤ (L.filter P).length := by
  induction L with
  | nil => exact Nat.le_refl _
  | cons hd tl ih =>
      by_cases hk : keep hd = true
      · rw [List.filter_cons_of_pos hk]
        by_cases hp : P hd = true
        · rw [List.filter_cons_of_pos hp, List.filter_cons_of_pos hp]
          simpa using ih
        · rw [List.filter_cons_of_neg hp, List.filter_cons_of_neg hp]
          exact ih
      · rw [List.filter_cons_of_neg hk]
        by_cases hp : P hd = true
        · rw [List.filter_cons_of_pos hp]
          exact Nat.le_trans ih (Nat.le_succ _)
        · rw [List.filter_cons_of_neg hp]
          exact ih

/-- Bumping the listener counter alone preserves the invariants. -/
lemma wf_bumpL (st : St) (h : WF st) : WF { st with nextListener := st.nextListener + 1 } := by
  refine ⟨h.lidsNodup, ?_, h.cellKeys, h.effKeys, h.effTargets, ?_, h.cleanSync, h.refSync,
    h.refKeys, h.curOK⟩
  · intro x hx
    have := h.lidsLt x hx
    show x < st.nextListener + 1
    omega
  · intro pe hpe entry hent
    obtain ⟨c0, l0, he0, hc0, hl0⟩ := h.cleanOwn pe hpe entry hent
    exact ⟨c0, l0, he0, hc0, by show l0 < st.nextListener + 1; omega⟩

/-- A cell update that does not touch the listener set preserves the
invariants and the transfer relation. -/
lemma wf_tr_updCell_id (st : St) (c : Nat) (g : CellSt → CellSt)
    (hg : ∀ cs, (g cs).listeners = cs.listeners) (h : WF st) :
    WF (updCell st c g) ∧ Tr st (updCell st c g) ∧
      (updCell st c g).currentEffect = st.currentEffect := by
  have hall : allLids (updCell st c g) = allLids st := by
    unfold allLids
    show ((st.cells.map (fun p => if p.1 = c then (p.1, g p.2) else p)).map
        (fun p => p.2.listeners.map (fun q => q.1))).flatten = _
    rw [List.map_map]
    refine congrArg _ (List.map_congr_left fun p _ => ?_)
    by_cases hp : p.1 = c <;> simp [hp, hg]
  have hcls : ∀ c2, cellListeners (updCell st c g) c2 = cellListeners st c2 := by
    intro c2
    rw [cellListeners_updCell]
    by_cases hc2 : c2 = c
    · rw [if_pos hc2]
      unfold cellListeners
      cases hget : alGet? st.cells c2 with
      | none => rfl
      | some cs => simp [hg]
    · rw [if_neg hc2]
  have het : ∀ e, effTotal (updCell st c g) e = effTotal st e := by
    intro e
    unfold effTotal
    show ((st.cells.map (fun p => if p.1 = c then (p.1, g p.2) else p)).map
        (fun p => (p.2.listeners.filter (isEffL e)).length)).sum = _
    rw [List.map_map]
    refine congrArg _ (List.map_congr_left fun p _ => ?_)
    by_cases hp : p.1 = c <;> simp [hp, hg]
  refine ⟨⟨?_, ?_, ?_, h.effKeys, ?_, h.cleanOwn, ?_, ?_, h.refKeys, h.curOK⟩, ?_, rfl⟩
  · rw [hall]; exact h.lidsNodup
  · intro x hx
    rw [hall] at hx
    exact h.lidsLt x hx
  · show (updCell st c g).cells.map (fun p => p.1) = List.range st.nextCell
    rw [keys_updCell]
    exact h.cellKeys
  · intro p hp q hq e heq
    obtain ⟨p0, hp0, hpe⟩ := mem_cells_updCell hp
    by_cases hpc : p0.1 = c
    · rw [if_pos hpc] at hpe
      rw [hpe] at hq
      have hq' : q ∈ (g p0.2).listeners := hq
      rw [hg p0.2] at hq'
      exact h.effTargets p0 hp0 q hq' e heq
    · rw [if_neg hpc] at hpe
      rw [hpe] at hq
      exact h.effTargets p0 hp0 q hq e heq
  · intro e c2 l2
    have hlc : lCount (updCell st c g) e c2 l2 = lCount st e c2 l2 := by
      unfold lCount
      rw [hcls c2]
    rw [hlc]
    exact h.cleanSync e c2 l2
  · intro e
    rw [het e]
    exact h.refSync e
  · refine Tr_eqs rfl rfl rfl (Nat.le_refl _) fun e c2 => ?_
    unfold countLtot
    rw [hcls c2]

lemma wf_tr_setCellValue (st : St) (c : Nat) (v : V) (h : WF st) :
    WF (setCellValue st c v) ∧ Tr st (setCellValue st c v) ∧
      (setCellValue st c v).currentEffect = st.currentEffect :=
  wf_tr_updCell_id st c _ (fun _ => rfl) h

lemma wf_tr_subscribeCell (c : Nat) (st : St) (h : WF st) :
    WF (subscribeCell c st) ∧ Tr st (subscribeCell c st) ∧
      (subscribeCell c st).currentEffect = st.currentEffect := by
  cases hc : alGet? st.cells c with
  | none =>
      have hs : subscribeCell c st = { st with nextListener := st.nextListener + 1 } := by
        show ({ addListener st c st.nextListener .sub with
          nextListener := st.nextListener + 1 } : St) = _
        rw [show addListener st c st.nextListener .sub = st from updCell_absent st c _ hc]
      rw [hs]
      exact ⟨wf_bumpL st h, Tr_eqs rfl rfl rfl (Nat.le_refl _) (fun _ _ => rfl), rfl⟩
  | some cs =>
      set l := st.nextListener with hldef
      set gS : CellSt → CellSt :=
        (fun cs => { cs with listeners := cs.listeners ++ [(l, LAct.sub)] }) with hgS
      have hs : subscribeCell c st = { updCell st c gS with nextListener := l + 1 } := rfl
      rw [hs]
      set st' : St := { updCell st c gS with nextListener := l + 1 } with hst'
      have hnd : (st.cells.map (fun p => p.1)).Nodup := by
        rw [h.cellKeys]; exact List.nodup_range st.nextCell
      have hcs : cellListeners st c = cs.listeners := by
        unfold cellListeners
        rw [hc]
        rfl
      have hlidEq : allLids st' = allLids (updCell st c gS) := rfl
      have hcount : ∀ x, (allLids st').count x =
          (allLids st).count x + (if l = x then 1 else 0) := by
        intro x
        have hmain := allLids_count_updCell st x c gS cs hnd hc
        have hap : ((gS cs).listeners.filter (fun q => q.1 == x)).length
            = (cs.listeners.filter (fun q => q.1 == x)).length + (if l = x then 1 else 0) := by
          show ((cs.listeners ++ [(l, LAct.sub)]).filter (fun q => q.1 == x)).length = _
          rw [List.filter_append, List.length_append]
          by_cases hx : l = x
          · simp [hx]
          · simp [hx]
        rw [hlidEq]
        omega
      have hlid0 : (allLids st).count l = 0 := by
        by_contra hne
        have : l ∈ allLids st := List.count_pos_iff.mp (Nat.pos_of_ne_zero hne)
        exact absurd (h.lidsLt l this) (Nat.lt_irrefl l)
      have hle1 := List.nodup_iff_count_le_one.mp h.lidsNodup
      have hcl : ∀ c2, cellListeners st' c2 =
          if c2 = c then cs.listeners ++ [(l, LAct.sub)] else cellListeners st c2 := by
        intro c2
        have : cellListeners st' c2 = cellListeners (updCell st c gS) c2 := rfl
        rw [this, cellListeners_updCell]
        by_cases hc2 : c2 = c
        · rw [if_pos hc2, if_pos hc2, hc2, hc]
          rfl
        · rw [if_neg hc2, if_neg hc2]
      have hLc : ∀ e' c2 l2, lCount st' e' c2 l2 = lCount st e' c2 l2 := by
        intro e' c2 l2
        unfold lCount
        rw [hcl c2]
        by_cases hc2 : c2 = c
        · rw [if_pos hc2, hc2, hcs, List.filter_append, List.length_append]
          simp [isEffL]
        · rw [if_neg hc2]
      have hCt : ∀ e' c2, countLtot st' e' c2 = countLtot st e' c2 := by
        intro e' c2
        unfold countLtot
        rw [hcl c2]
        by_cases hc2 : c2 = c
        · rw [if_pos hc2, hc2, hcs, List.filter_append, List.length_append]
          simp [isEffL]
        · rw [if_neg hc2]
      have het : ∀ e', effTotal st' e' = effTotal st e' := by
        intro e'
        have hmain := effTotal_updCell st e' c gS cs hnd hc
        have hap : ((gS cs).listeners.filter (isEffL e')).length
            = (cs.listeners.filter (isEffL e')).length := by
          show ((cs.listeners ++ [(l, LAct.sub)]).filter (isEffL e')).length = _
          rw [List.filter_append, List.length_append]
          simp [isEffL]
        have hEq : effTotal st' e' = effTotal (updCell st c gS) e' := rfl
        rw [hEq]
        omega
      refine ⟨⟨?_, ?_, ?_, h.effKeys, ?_, ?_, ?_, ?_, h.refKeys, h.curOK⟩, ?_, rfl⟩
      · refine List.nodup_iff_count_le_one.mpr fun x => ?_
        rw [hcount x]
        by_cases hx : l = x
        · rw [← hx, hlid0]
          simp
        · rw [if_neg hx]
          have := hle1 x
          omega
      · intro x hx
        show x < l + 1
        have : 0 < (allLids st').count x := List.count_pos_iff.mpr hx
        rw [hcount x] at this
        by_cases hxl : l = x
        · omega
        · rw [if_neg hxl] at this
          have : x ∈ allLids st := List.count_pos_iff.mp (by omega)
          have := h.lidsLt x this
          omega
      · show (updCell st c gS).cells.map (fun p => p.1) = List.range st.nextCell
        rw [keys_updCell]
        exact h.cellKeys
      · intro p hp q hq e heq
        show e < st.nextEffect
        have hp' : p ∈ (updCell st c gS).cells := hp
        obtain ⟨p0, hp0, hpe⟩ := mem_cells_updCell hp'
        by_cases hpc : p0.1 = c
        · rw [if_pos hpc] at hpe
          rw [hpe] at hq
          have hq' : q ∈ (gS p0.2).listeners := hq
          rcases List.mem_append.mp hq' with h1 | h1
          · exact h.effTargets p0 hp0 q h1 e heq
          · have hq2 : q = (l, LAct.sub) := by simpa using h1
            rw [hq2] at heq
            simp at heq
        · rw [if_neg hpc] at hpe
          rw [hpe] at hq
          exact h.effTargets p0 hp0 q hq e heq
      · intro pe hpe entry hent
        obtain ⟨c0, l0, he0, hc0, hl0⟩ := h.cleanOwn pe hpe entry hent
        exact ⟨c0, l0, he0, hc0, by show l0 < l + 1; omega⟩
      · intro e c2 l2
        rw [hLc e c2 l2]
        exact h.cleanSync e c2 l2
      · intro e
        have hrg : refGet st' e = refGet st e := rfl
        rw [hrg, het e]
        exact h.refSync e
      · exact Tr_eqs rfl rfl rfl (Nat.le_refl _) hCt

lemma wf_tr_unsub (st : St) (c l2 : Nat) (h : WF st) :
    WF (removeSubListener st c l2) ∧ Tr st (removeSubListener st c l2) ∧
      (removeSubListener st c l2).currentEffect = st.currentEffect := by
  set keep : (Nat × LAct) → Bool :=
    (fun q => match q.2 with | .sub => q.1 != l2 | .eff _ => true) with hkeep
  set gU : CellSt → CellSt :=
    (fun cs => { cs with listeners := cs.listeners.filter keep }) with hgU
  have hre : removeSubListener st c l2 = updCell st c gU := rfl
  rw [hre]
  cases hc : alGet? st.cells c with
  | none =>
      rw [updCell_absent st c _ hc]
      exact ⟨h, Tr_rfl st, rfl⟩
  | some cs =>
      have hnd : (st.cells.map (fun p => p.1)).Nodup := by
        rw [h.cellKeys]; exact List.nodup_range st.nextCell
      have hcs : cellListeners st c = cs.listeners := by
        unfold cellListeners
        rw [hc]
        rfl
      have himp : ∀ (e : Nat) (q : Nat × LAct), isEffL e q = true → keep q = true := by
        intro e q hq
        cases hqa : q.2 with
        | sub => simp [isEffL, hqa] at hq
        | eff x => simp [hkeep, hqa]
      have hcl : ∀ c2, cellListeners (updCell st c gU) c2 =
          if c2 = c then cs.listeners.filter keep else cellListeners st c2 := by
        intro c2
        rw [cellListeners_updCell]
        by_cases hc2 : c2 = c
        · rw [if_pos hc2, if_pos hc2, hc2, hc]
          rfl
        · rw [if_neg hc2, if_neg hc2]
      have hcount : ∀ x, (allLids (updCell st c gU)).count x ≤ (allLids st).count x := by
        intro x
        have hmain := allLids_count_updCell st x c gU cs hnd hc
        have hle : ((gU cs).listeners.filter (fun q => q.1 == x)).length
            ≤ (cs.listeners.filter (fun q => q.1 == x)).length :=
          filter_keep_length_le cs.listeners _ keep
        omega
      have hle1 := List.nodup_iff_count_le_one.mp h.lidsNodup
      have hLc : ∀ e c2 l3, lCount (updCell st c gU) e c2 l3 = lCount st e c2 l3 := by
        intro e c2 l3
        unfold lCount
        rw [hcl c2]
        by_cases hc2 : c2 = c
        · rw [if_pos hc2, hc2, hcs,
            filter_keep_of_imp cs.listeners _ keep
              (fun q hq => himp e q (((Bool.and_eq_true _ _).mp hq).2))]
        · rw [if_neg hc2]
      have hCt : ∀ e c2, countLtot (updCell st c gU) e c2 = countLtot st e c2 := by
        intro e c2
        unfold countLtot
        rw [hcl c2]
        by_cases hc2 : c2 = c
        · rw [if_pos hc2, hc2, hcs, filter_keep_of_imp cs.listeners _ keep (himp e)]
        · rw [if_neg hc2]
      have het : ∀ e, effTotal (updCell st c gU) e = effTotal st e := by
        intro e
        have hmain := effTotal_updCell st e c gU cs hnd hc
        have hfe : ((gU cs).listeners.filter (isEffL e)).length
            = (cs.listeners.filter (isEffL e)).length := by
          show ((cs.listeners.filter keep).filter (isEffL e)).length = _
          rw [filter_keep_of_imp cs.listeners _ keep (himp e)]
        omega
      refine ⟨⟨?_, ?_, ?_, h.effKeys, ?_, h.cleanOwn, ?_, ?_, h.refKeys, h.curOK⟩, ?_, rfl⟩
      · refine List.nodup_iff_count_le_one.mpr fun x => ?_
        exact Nat.le_trans (hcount x) (hle1 x)
      · intro x hx
        show x < st.nextListener
        have h1 : 0 < (allLids (updCell st c gU)).count x := List.count_pos_iff.mpr hx
        have h2 : x ∈ allLids st := List.count_pos_iff.mp (by have := hcount x; omega)
        exact h.lidsLt x h2
      · show (updCell st c gU).cells.map (fun p => p.1) = List.range st.nextCell
        rw [keys_updCell]
        exact h.cellKeys
      · intro p hp q hq e heq
        obtain ⟨p0, hp0, hpe⟩ := mem_cells_updCell hp
        by_cases hpc : p0.1 = c
        · rw [if_pos hpc] at hpe
          rw [hpe] at hq
          have hq' : q ∈ (p0.2.listeners.filter keep) := hq
          exact h.effTargets p0 hp0 q (List.mem_of_mem_filter hq') e heq
        · rw [if_neg hpc] at hpe
          rw [hpe] at hq
          exact h.effTargets p0 hp0 q hq e heq
      · intro e c2 l3
        rw [hLc e c2 l3]
        exact h.cleanSync e c2 l3
      · intro e
        have hrg : refGet (updCell st c gU) e = refGet st e := rfl
        rw [hrg, het e]
        exact h.refSync e
      · exact Tr_eqs rfl rfl rfl (Nat.le_refl _) hCt

lemma wf_tr_newCell (st : St) (v : V) (h : WF st) :
    WF { st with
          cells := st.cells ++ [(st.nextCell, ({ value := v, listeners := [] } : CellSt))],
          nextCell := st.nextCell + 1 } ∧
    Tr st { st with
          cells := st.cells ++ [(st.nextCell, ({ value := v, listeners := [] } : CellSt))],
          nextCell := st.nextCell + 1 } := by
  set stN : St := { st with
      cells := st.cells ++ [(st.nextCell, ({ value := v, listeners := [] } : CellSt))],
      nextCell := st.nextCell + 1 } with hstN
  have hkey : ∀ p ∈ st.cells, p.1 ≠ st.nextCell := by
    intro p hp hpe
    have : p.1 ∈ st.cells.map (fun q => q.1) := List.mem_map.mpr ⟨p, hp, rfl⟩
    rw [h.cellKeys, hpe] at this
    exact absurd (List.mem_range.mp this) (Nat.lt_irrefl _)
  have hfreshNone : alGet? st.cells st.nextCell = none := alGet?_none_of_forall hkey
  have hall : allLids stN = allLids st := by
    unfold allLids
    show ((st.cells ++ [(st.nextCell, _)]).map _).flatten = _
    rw [List.map_append, List.flatten_append]
    simp
  have hcls : ∀ c2, cellListeners stN c2 =
      if c2 = st.nextCell then [] else cellListeners st c2 := by
    intro c2
    unfold cellListeners
    by_cases hc2 : c2 = st.nextCell
    · rw [if_pos hc2, hc2]
      show (((alGet? (st.cells ++ [(st.nextCell, _)]) st.nextCell)).map _).getD [] = []
      rw [alGet?_append_fresh _ hkey]
      rfl
    · rw [if_neg hc2]
      show (((alGet? (st.cells ++ [(st.nextCell, _)]) c2)).map _).getD [] = _
      rw [alGet?_append_ne _ _ _ _ hc2]
  have hclean : ∀ e, cleanupOf stN e = cleanupOf st e := fun _ => rfl
  have het : ∀ e, effTotal stN e = effTotal st e := by
    intro e
    unfold effTotal
    show ((st.cells ++ [(st.nextCell, _)]).map _).sum = _
    rw [List.map_append, List.sum_append]
    simp
  have hCt : ∀ e c2, countLtot stN e c2 = countLtot st e c2 := by
    intro e c2
    unfold countLtot
    rw [hcls c2]
    by_cases hc2 : c2 = st.nextCell
    · rw [if_pos hc2, hc2]
      unfold cellListeners
      rw [hfreshNone]
      rfl
    · rw [if_neg hc2]
  refine ⟨⟨?_, ?_, ?_, h.effKeys, ?_, ?_, ?_, ?_, h.refKeys, h.curOK⟩, ?_⟩
  · rw [hall]; exact h.lidsNodup
  · intro x hx
    rw [hall] at hx
    exact h.lidsLt x hx
  · show (st.cells ++ [(st.nextCell, ({ value := v, listeners := [] } : CellSt))]).map
        (fun p => p.1) = List.range (st.nextCell + 1)
    rw [List.map_append, h.cellKeys, List.range_succ]
    rfl
  · intro p hp q hq e heq
    rcases List.mem_append.mp hp with h1 | h1
    · exact h.effTargets p h1 q hq e heq
    · have : p = (st.nextCell, ({ value := v, listeners := [] } : CellSt)) := by simpa using h1
      rw [this] at hq
      simp at hq
  · intro pe hpe entry hent
    obtain ⟨c0, l0, he0, hc0, hl0⟩ := h.cleanOwn pe hpe entry hent
    exact ⟨c0, l0, he0, by show c0 < st.nextCell + 1; omega, hl0⟩
  · intro e c2 l3
    have hlc : lCount stN e c2 l3 =
        if c2 = st.nextCell then 0 else lCount st e c2 l3 := by
      unfold lCount
      rw [hcls c2]
      by_cases hc2 : c2 = st.nextCell
      · rw [if_pos hc2, if_pos hc2]
        rfl
      · rw [if_neg hc2, if_neg hc2]
    rw [hclean e, hlc]
    by_cases hc2 : c2 = st.nextCell
    · rw [if_pos hc2, hc2]
      rw [List.count_eq_zero]
      intro hmem
      have hent := pairs_mem hmem
      unfold cleanupOf at hent
      cases hget : alGet? st.effects e with
      | none => rw [hget] at hent; simp at hent
      | some es =>
          rw [hget] at hent
          simp at hent
          obtain ⟨c0, l0, he0, hc0, _⟩ := h.cleanOwn (e, es) (alGet?_mem hget) _ hent
          have : st.nextCell = c0 := by
            have := congrArg (fun x => match x with
              | CEntry.dereg a _ _ => a
              | CEntry.child _ => 0) he0
            simpa using this
          omega
    · rw [if_neg hc2]
      exact h.cleanSync e c2 l3
  · intro e
    have hrg : refGet stN e = refGet st e := rfl
    rw [hrg, het e]
    exact h.refSync e
  · exact Tr_eqs rfl rfl rfl (Nat.le_refl _) hCt

lemma wf_tr_newEffect (st : St) (p : Prog) (h : WF st) :
    WF { st with
          effects := st.effects ++ [(st.nextEffect, ({ body := p, cleanup := [] } : EffSt))],
          nextEffect := st.nextEffect + 1 } ∧
    Tr st { st with
          effects := st.effects ++ [(st.nextEffect, ({ body := p, cleanup := [] } : EffSt))],
          nextEffect := st.nextEffect + 1 } := by
  set stE : St := { st with
      effects := st.effects ++ [(st.nextEffect, ({ body := p, cleanup := [] } : EffSt))],
      nextEffect := st.nextEffect + 1 } with hstE
  have hkey : ∀ q ∈ st.effects, q.1 ≠ st.nextEffect := by
    intro q hq hqe
    have : q.1 ∈ st.effects.map (fun r => r.1) := List.mem_map.mpr ⟨q, hq, rfl⟩
    rw [h.effKeys, hqe] at this
    exact absurd (List.mem_range.mp this) (Nat.lt_irrefl _)
  have hclean : ∀ e, cleanupOf stE e =
      if e = st.nextEffect then [] else cleanupOf st e := by
    intro e
    unfold cleanupOf
    by_cases he : e = st.nextEffect
    · rw [if_pos he, he]
      show ((alGet? (st.effects ++ [(st.nextEffect, _)]) st.nextEffect).map _).getD [] = []
      rw [alGet?_append_fresh _ hkey]
      rfl
    · rw [if_neg he]
      show ((alGet? (st.effects ++ [(st.nextEffect, _)]) e).map _).getD [] = _
      rw [alGet?_append_ne _ _ _ _ he]
  refine ⟨⟨h.lidsNodup, h.lidsLt, h.cellKeys, ?_, ?_, ?_, ?_, ?_, ?_, ?_⟩, ?_⟩
  · show (st.effects ++ [(st.nextEffect, ({ body := p, cleanup := [] } : EffSt))]).map
        (fun q => q.1) = List.range (st.nextEffect + 1)
    rw [List.map_append, h.effKeys, List.range_succ]
    rfl
  · intro p2 hp2 q hq e heq
    show e < st.nextEffect + 1
    have := h.effTargets p2 hp2 q hq e heq
    omega
  · intro pe hpe entry hent
    rcases List.mem_append.mp hpe with h1 | h1
    · obtain ⟨c0, l0, he0, hc0, hl0⟩ := h.cleanOwn pe h1 entry hent
      exact ⟨c0, l0, he0, hc0, hl0⟩
    · have : pe = (st.nextEffect, ({ body := p, cleanup := [] } : EffSt)) := by simpa using h1
      rw [this] at hent
      simp at hent
  · intro e c2 l3
    rw [hclean e]
    by_cases he : e = st.nextEffect
    · rw [if_pos he, he]
      have hlz : lCount stE st.nextEffect c2 l3 = 0 := by
        refine lCount_zero_of_targets stE st.nextEffect c2 l3 ?_
        intro p2 hp2 q hq x hx
        have hp2' : p2 ∈ st.cells := hp2
        exact h.effTargets p2 hp2' q hq x hx
      rw [hlz]
      rfl
    · rw [if_neg he]
      have hlc : lCount stE e c2 l3 = lCount st e c2 l3 := rfl
      rw [hlc]
      exact h.cleanSync e c2 l3
  · intro e
    have hrg : refGet stE e = refGet st e := rfl
    have het : effTotal stE e = effTotal st e := rfl
    rw [hrg, het]
    exact h.refSync e
  · intro q hq
    show q.1 < st.nextEffect + 1
    have := h.refKeys q hq
    omega
  · intro e heq
    show e < st.nextEffect + 1
    have : st.currentEffect = some e := heq
    have := h.curOK e this
    omega
  · exact Tr_eqs rfl rfl rfl (Nat.le_succ _) (fun _ _ => rfl)

lemma WT_comp {st0 st1 st2 : St} {r : Except Nat Unit}
    (h01 : Tr st0 st1) (hc01 : st1.currentEffect = st0.currentEffect)
    (h12 : WT st1 st2 r) : WT st0 st2 r :=
  ⟨h12.1, Tr_trans h01 h12.2.1, fun u hu => (h12.2.2 u hu).trans hc01⟩

lemma WT_comp2 {st0 st1 st2 : St} {x r : Except Nat Unit}
    (h01 : WT st0 st1 x) (h12 : WT st1 st2 r)
    (hok : ∀ u, r = Except.ok u → ∃ v, x = Except.ok v) : WT st0 st2 r :=
  ⟨h12.1, Tr_trans h01.2.1 h12.2.1, fun u hu => by
    obtain ⟨v, hv⟩ := hok u hu
    exact (h12.2.2 u hu).trans (h01.2.2 v hv)⟩

lemma wf_tr_ctrl (st : St) (p : List Nat) (w : Nat) (fl mt : Bool) (h : WF st) :
    WF { st with pending := p, writeDepth := w, flushing := fl, microtask := mt } ∧
    Tr st { st with pending := p, writeDepth := w, flushing := fl, microtask := mt } ∧
    ({ st with pending := p, writeDepth := w, flushing := fl, microtask := mt } : St).currentEffect
      = st.currentEffect :=
  ⟨wf_congr h rfl rfl rfl rfl rfl rfl rfl,
   Tr_eqs rfl rfl rfl (Nat.le_refl _) (fun _ _ => rfl), rfl⟩

lemma wf_tr_log (st : St) (lg : List LogEv) (h : WF st) :
    WF { st with log := st.log ++ lg } ∧ Tr st { st with log := st.log ++ lg } ∧
    ({ st with log := st.log ++ lg } : St).currentEffect = st.currentEffect :=
  ⟨wf_congr h rfl rfl rfl rfl rfl rfl rfl,
   Tr_eqs rfl rfl rfl (Nat.le_refl _) (fun _ _ => rfl), rfl⟩

lemma wf_tr_disp (st : St) (e3 : Nat) (h : WF st) :
    WF { st with disposals := st.disposals ++ [e3] } ∧
    Tr st { st with disposals := st.disposals ++ [e3] } ∧
    ({ st with disposals := st.disposals ++ [e3] } : St).currentEffect = st.currentEffect :=
  ⟨wf_congr h rfl rfl rfl rfl rfl rfl rfl, Tr_disp_append st [e3], rfl⟩

/-- Entering an effect run: clear the chain, point the tracker at the
node, record the run. -/
lemma wf_effEnter {st1 : St} {e2 : Nat} (W : WF (setCleanup st1 e2 []))
    (he : e2 < st1.nextEffect) :
    WF { setCleanup st1 e2 [] with currentEffect := some e2, runs := st1.runs ++ [e2] } :=
  ⟨W.lidsNodup, W.lidsLt, W.cellKeys, W.effKeys, W.effTargets, W.cleanOwn, W.cleanSync,
    W.refSync, W.refKeys, fun x hx => by
      have hx2 : some e2 = some x := hx
      have hx3 : e2 = x := by injection hx2
      rw [← hx3]
      exact he⟩

lemma tr_effEnter (st1 : St) (e2 : Nat) :
    Tr st1 { setCleanup st1 e2 [] with currentEffect := some e2, runs := st1.runs ++ [e2] } := by
  have hd : ({ setCleanup st1 e2 [] with
      currentEffect := some e2, runs := st1.runs ++ [e2] } : St).disposals = st1.disposals := rfl
  have ht : ({ setCleanup st1 e2 [] with
      currentEffect := some e2, runs := st1.runs ++ [e2] } : St).treads = st1.treads := rfl
  refine ⟨⟨[e2], rfl⟩, ⟨[], by rw [hd, List.append_nil]⟩, ⟨[], by rw [ht, List.append_nil]⟩,
    Nat.le_refl _, ?_⟩
  intro e c _ _
  rfl

/-- The core of a disposer invocation: the ghost-marked state runs the
node cleanup and clears the chain. -/
lemma disp_helper (f : Nat) (e3 : Nat) (st : St) (r : Except Nat Unit) (st' : St)
    (h : dispK f e3 { st with disposals := st.disposals ++ [e3] }
        (alGet? st.effects e3) = some (r, st'))
    (hwf : WF st) : WT st st' r := by
  cases f with
  | zero => simp [dispK] at h
  | succ g =>
      have hwfD : WF { st with disposals := st.disposals ++ [e3] } :=
        wf_congr hwf rfl rfl rfl rfl rfl rfl rfl
      cases hes : alGet? st.effects e3 with
      | none =>
          rw [hes] at h
          simp only [dispK, Option.some.injEq, Prod.mk.injEq] at h
          obtain ⟨rfl, rfl⟩ := h
          exact ⟨hwfD, Tr_disp_append st [e3], fun _ _ => rfl⟩
      | some es =>
          rw [hes] at h
          simp only [dispK] at h
          have hclD : cleanupOf { st with disposals := st.disposals ++ [e3] } e3
              = es.cleanup := by
            unfold cleanupOf
            have hes' : alGet? ({ st with disposals := st.disposals ++ [e3] } : St).effects e3
                = some es := hes
            rw [hes']
            rfl
          cases hc : runCleanup g es.cleanup { st with disposals := st.disposals ++ [e3] } with
          | none => rw [hc, dispFin_none] at h; exact absurd h (by simp)
          | some st1 =>
              rw [hc] at h
              cases g with
              | zero => simp [dispFin] at h
              | succ g2 =>
                  simp only [dispFin, Option.some.injEq, Prod.mk.injEq] at h
                  obtain ⟨rfl, rfl⟩ := h
                  have hwfc0 : WFc { st with disposals := st.disposals ++ [e3] } e3
                      es.cleanup := by
                    rw [← hclD]
                    exact wfc_of_wf hwfD e3
                  obtain ⟨hWc1, hfr1, hoth1⟩ :=
                    runCleanup_spec es.cleanup (g2 + 1) _ st1 hc hwfc0
                  have hrunsX : (setCleanup st1 e3 []).runs = st.runs := by
                    have h1 : (setCleanup st1 e3 []).runs = st1.runs := rfl
                    rw [h1, frame_runs hfr1]
                  have hdispX : (setCleanup st1 e3 []).disposals = st.disposals ++ [e3] := by
                    have h1 : (setCleanup st1 e3 []).disposals = st1.disposals := rfl
                    rw [h1, frame_disposals hfr1]
                  have htreadsX : (setCleanup st1 e3 []).treads = st.treads := by
                    have h1 : (setCleanup st1 e3 []).treads = st1.treads := rfl
                    rw [h1, frame_treads hfr1]
                  have hneX : (setCleanup st1 e3 []).nextEffect = st.nextEffect := by
                    have h1 : (setCleanup st1 e3 []).nextEffect = st1.nextEffect := rfl
                    rw [h1, frame_nextEffect hfr1]
                  refine ⟨wf_of_wfc_nil hWc1, ?_, fun _ _ => ?_⟩
                  · refine ⟨⟨[], by rw [hrunsX, List.append_nil]⟩, ⟨[e3], hdispX⟩,
                      ⟨[], by rw [htreadsX, List.append_nil]⟩, by rw [hneX], ?_⟩
                    intro e c hre hde
                    by_cases hee : e = e3
                    · exfalso
                      rw [hee, hdispX, List.count_append] at hde
                      have hone : List.count e3 [e3] = 1 := by simp
                      omega
                    · have hcc : countLtot (setCleanup st1 e3 []) e c = countLtot st e c := by
                        have h1 : countLtot (setCleanup st1 e3 []) e c
                            = countLtot st1 e c := rfl
                        have h2 : countLtot { st with disposals := st.disposals ++ [e3] } e c
                            = countLtot st e c := rfl
                        rw [h1, hoth1 e c hee, h2]
                      rw [hcc, htreadsX]
                  · have h1 : (setCleanup st1 e3 []).currentEffect = st1.currentEffect := rfl
                    have h2 : ({ st with disposals := st.disposals ++ [e3] } : St).currentEffect
                        = st.currentEffect := rfl
                    rw [h1, frame_currentEffect hfr1, h2]

theorem wbig_zero : WBig 0 where
  wc := fun c v st r st' h _ => by simp [writeCell] at h
  wc1 := fun c v st ocs r st' h _ => by simp [writeC1] at h
  wc2 := fun c v st cs b r st' h _ => by simp [writeC2] at h
  wc3 := fun st r st' h _ => by simp [writeC3] at h
  wc4 := fun d st r st' h _ => by simp [writeC4] at h
  fp := fun st r st' h _ => by simp [flushPending] at h
  fpp := fun pend st r st' h _ => by simp [flushP] at h
  fl := fun x st1 r st' h _ => by simp [flushLoop] at h
  fr := fun snap st r st' h _ => by simp [flushRun] at h
  fs := fun e2 rest st n r st' h _ => by simp [flushS] at h
  fc := fun rest x st1 r st' h _ => by simp [flushCont] at h
  re := fun e2 st r st' h _ => by simp [runEffect] at h
  red := fun e2 st oes r st' h _ _ => by simp [effD] at h
  rec2 := fun e2 body st1 r st' h _ _ => by simp [effC] at h
  ref2 := fun prev x st4 r st' h _ _ => by simp [effFin] at h
  rp := fun p st r st' h _ => by simp [runProg] at h
  sk := fun q x st1 r st' h _ => by simp [seqK] at h
  pw := fun c vst r st' h _ => by simp [progW] at h
  rk := fun prev x st1 r st' h _ _ => by simp [restK] at h
  ro := fun op st r st' h _ _ => by simp [runOp] at h
  ok2 := fun rest x st1 r st' h _ _ => by simp [opsK] at h
  ros := fun ops st r st' h _ _ => by simp [runOps] at h

/-- `newEffectAux` outside a tracked run, given `runEffect` at the same
fuel. -/
lemma nea_wt {f : Nat}
    (hre : ∀ e2 st r st', runEffect f e2 st = some (r, st') → WF st → WT st st' r) :
    ∀ (p : Prog) (st : St) (r : Except Nat Unit) (st' : St),
      newEffectAux f p st = some (r, st') → WF st → st.currentEffect = none →
      WT st st' r := by
  intro p st r st' h hI hcur
  obtain ⟨hwE, htE⟩ := wf_tr_newEffect st p hI
  simp only [newEffectAux, hcur] at h
  rw [hcur] at hwE htE
  have h2 := hre st.nextEffect _ r st' h hwE
  refine ⟨h2.1, Tr_trans htE h2.2.1, fun u hu => ?_⟩
  rw [hcur]
  exact h2.2.2 u hu

/-- The action finally-block dispatcher, given `flushPending` at the same
fuel. -/
lemma actK_wt {f : Nat}
    (hfp : ∀ st r st', flushPending f st = some (r, st') → WF st → WT st st' r) :
    ∀ (x : Except Nat Unit) (st2 : St) (r : Except Nat Unit) (st' : St),
      actK f (some (x, st2)) = some (r, st') → WF st2 →
      WF st' ∧ Tr st2 st' ∧
        ∀ u, r = Except.ok u → (∃ v, x = Except.ok v) ∧
          st'.currentEffect = st2.currentEffect := by
  intro x st2 r st' h hI
  obtain ⟨hwC, htC, hcC⟩ := wf_tr_ctrl st2 st2.pending 0 st2.flushing st2.microtask hI
  cases x with
  | ok u =>
      simp only [actK] at h
      cases hd : st2.writeDepth - 1 with
      | zero =>
          rw [hd] at h
          simp only [actFin] at h
          have h2 := hfp _ r st' h hwC
          refine ⟨h2.1, Tr_trans htC h2.2.1, fun u2 hu2 => ⟨⟨u, rfl⟩, ?_⟩⟩
          exact (h2.2.2 u2 hu2).trans hcC
      | succ n =>
          rw [hd] at h
          simp only [actFin, Option.some.injEq, Prod.mk.injEq] at h
          obtain ⟨rfl, rfl⟩ := h
          obtain ⟨hwC2, htC2, hcC2⟩ :=
            wf_tr_ctrl st2 st2.pending (n + 1) st2.flushing st2.microtask hI
          exact ⟨hwC2, htC2, fun u2 hu2 => ⟨⟨u, rfl⟩, hcC2⟩⟩
  | error t =>
      simp only [actK] at h
      cases hd : st2.writeDepth - 1 with
      | zero =>
          rw [hd] at h
          simp only [actErr] at h
          cases hf : flushPending f { st2 with writeDepth := 0 } with
          | none => rw [hf] at h; simp [actErrK] at h
          | some p =>
              obtain ⟨y, st4⟩ := p
              rw [hf] at h
              have h2 := hfp _ y st4 hf hwC
              cases y with
              | ok u2 =>
                  simp only [actErrK, Option.some.injEq, Prod.mk.injEq] at h
                  obtain ⟨rfl, rfl⟩ := h
                  exact ⟨h2.1, Tr_trans htC h2.2.1,
                    fun u3 hu3 => Except.noConfusion hu3⟩
              | error t2 =>
                  simp only [actErrK, Option.some.injEq, Prod.mk.injEq] at h
                  obtain ⟨rfl, rfl⟩ := h
                  exact ⟨h2.1, Tr_trans htC h2.2.1,
                    fun u3 hu3 => Except.noConfusion hu3⟩
      | succ n =>
          rw [hd] at h
          simp only [actErr, Option.some.injEq, Prod.mk.injEq] at h
          obtain ⟨rfl, rfl⟩ := h
          obtain ⟨hwC2, htC2, hcC2⟩ :=
            wf_tr_ctrl st2 st2.pending (n + 1) st2.flushing st2.microtask hI
          exact ⟨hwC2, htC2, fun u3 hu3 => Except.noConfusion hu3⟩

theorem wbigStep (f : Nat) (ih : WBig f) : WBig (f + 1) where
  wc := by
    intro c v st r st' h hI
    simp only [writeCell] at h
    exact ih.wc1 c v st _ r st' h hI
  wc1 := by
    intro c v st ocs r st' h hI
    cases ocs with
    | none =>
        simp only [writeC1, Option.some.injEq, Prod.mk.injEq] at h
        obtain ⟨rfl, rfl⟩ := h
        exact ⟨hI, Tr_rfl st, fun _ _ => rfl⟩
    | some cs =>
        simp only [writeC1] at h
        exact ih.wc2 c v st cs _ r st' h hI
  wc2 := by
    intro c v st cs b r st' h hI
    cases b with
    | true =>
        simp only [writeC2, Option.some.injEq, Prod.mk.injEq] at h
        obtain ⟨rfl, rfl⟩ := h
        exact ⟨hI, Tr_rfl st, fun _ _ => rfl⟩
    | false =>
        simp only [writeC2] at h
        obtain ⟨hw0, ht0, hc0⟩ :=
          wf_tr_ctrl st st.pending (st.writeDepth + 1) st.flushing st.microtask hI
        obtain ⟨hw1, ht1, hc1⟩ :=
          wf_tr_setCellValue { st with writeDepth := st.writeDepth + 1 } c v hw0
        obtain ⟨hw2, ht2, hc2⟩ := wf_tr_notifySnap cs.listeners c _ hw1
        have h3 := ih.wc3 _ r st' h hw2
        exact WT_comp ht0 hc0 (WT_comp ht1 hc1 (WT_comp ht2 hc2 h3))
  wc3 := by
    intro st r st' h hI
    simp only [writeC3] at h
    exact ih.wc4 _ st r st' h hI
  wc4 := by
    intro d st r st' h hI
    cases d with
    | zero =>
        simp only [writeC4] at h
        obtain ⟨hw1, ht1, hc1⟩ := wf_tr_ctrl st st.pending 0 st.flushing st.microtask hI
        exact WT_comp ht1 hc1 (ih.fp _ r st' h hw1)
    | succ n =>
        simp only [writeC4, Option.some.injEq, Prod.mk.injEq] at h
        obtain ⟨rfl, rfl⟩ := h
        obtain ⟨hw1, ht1, hc1⟩ := wf_tr_ctrl st st.pending (n + 1) st.flushing st.microtask hI
        exact ⟨hw1, ht1, fun _ _ => hc1⟩
  fp := by
    intro st r st' h hI
    simp only [flushPending] at h
    exact ih.fpp st.pending st r st' h hI
  fpp := by
    intro pend st r st' h hI
    cases pend with
    | nil =>
        simp only [flushP, Option.some.injEq, Prod.mk.injEq] at h
        obtain ⟨rfl, rfl⟩ := h
        obtain ⟨hw1, ht1, hc1⟩ :=
          wf_tr_ctrl st st.pending st.writeDepth false st.microtask hI
        exact ⟨hw1, ht1, fun _ _ => hc1⟩
    | cons e rest =>
        simp only [flushP] at h
        obtain ⟨hw1, ht1, hc1⟩ := wf_tr_ctrl st [] st.writeDepth st.flushing st.microtask hI
        cases hr : flushRun f (e :: rest) { st with pending := [] } with
        | none => rw [hr, flushLoop_none] at h; exact absurd h (by simp)
        | some p =>
            obtain ⟨x, st1⟩ := p
            rw [hr] at h
            have h2 := ih.fr (e :: rest) _ x st1 hr hw1
            obtain ⟨h3, h3ok⟩ := ih.fl x st1 r st' h h2.1
            exact WT_comp ht1 hc1 (WT_comp2 h2 h3 h3ok)
  fl := by
    intro x st1 r st' h hI
    cases x with
    | error t =>
        simp only [flushLoop, Option.some.injEq, Prod.mk.injEq] at h
        obtain ⟨rfl, rfl⟩ := h
        exact ⟨⟨hI, Tr_rfl st1, fun u hu => Except.noConfusion hu⟩,
          fun u hu => Except.noConfusion hu⟩
    | ok u =>
        simp only [flushLoop] at h
        exact ⟨ih.fp st1 r st' h hI, fun v hv => ⟨u, rfl⟩⟩
  fr := by
    intro snap st r st' h hI
    cases snap with
    | nil =>
        simp only [flushRun, Option.some.injEq, Prod.mk.injEq] at h
        obtain ⟨rfl, rfl⟩ := h
        exact ⟨hI, Tr_rfl st, fun _ _ => rfl⟩
    | cons e rest =>
        simp only [flushRun] at h
        exact ih.fs e rest st (refGet st e) r st' h hI
  fs := by
    intro e2 rest st n r st' h hI
    cases n with
    | zero =>
        simp only [flushS] at h
        exact ih.fr rest st r st' h hI
    | succ m =>
        simp only [flushS] at h
        cases hr : runEffect f e2 st with
        | none => rw [hr, flushCont_none] at h; exact absurd h (by simp)
        | some p =>
            obtain ⟨x, st1⟩ := p
            rw [hr] at h
            have h2 := ih.re e2 st x st1 hr hI
            obtain ⟨h3, h3ok⟩ := ih.fc rest x st1 r st' h h2.1
            exact WT_comp2 h2 h3 h3ok
  fc := by
    intro rest x st1 r st' h hI
    cases x with
    | error t =>
        simp only [flushCont, Option.some.injEq, Prod.mk.injEq] at h
        obtain ⟨rfl, rfl⟩ := h
        exact ⟨⟨hI, Tr_rfl st1, fun u hu => Except.noConfusion hu⟩,
          fun u hu => Except.noConfusion hu⟩
    | ok u =>
        simp only [flushCont] at h
        exact ⟨ih.fr rest st1 r st' h hI, fun v hv => ⟨u, rfl⟩⟩
  re := by
    intro e2 st r st' h hI
    simp only [runEffect] at h
    exact ih.red e2 st _ r st' h hI rfl
  red := by
    intro e2 st oes r st' h hI hoes
    cases oes with
    | none =>
        simp only [effD, Option.some.injEq, Prod.mk.injEq] at h
        obtain ⟨rfl, rfl⟩ := h
        exact ⟨hI, Tr_rfl st, fun _ _ => rfl⟩
    | some es =>
        simp only [effD] at h
        have hcl : cleanupOf st e2 = es.cleanup := by
          unfold cleanupOf
          rw [← hoes]
          rfl
        have he2lt : e2 < st.nextEffect := by
          have hmem : (e2, es) ∈ st.effects := alGet?_mem hoes.symm
          have hin : e2 ∈ st.effects.map (fun q => q.1) :=
            List.mem_map.mpr ⟨(e2, es), hmem, rfl⟩
          rw [hI.effKeys] at hin
          exact List.mem_range.mp hin
        cases hc : runCleanup f es.cleanup st with
        | none => rw [hc, effC_none] at h; exact absurd h (by simp)
        | some st1 =>
            rw [hc] at h
            have hwfc0 : WFc st e2 es.cleanup := by
              rw [← hcl]
              exact wfc_of_wf hI e2
            obtain ⟨hWc1, hfr1, hoth1⟩ := runCleanup_spec es.cleanup f st st1 hc hwfc0
            have he2lt1 : e2 < st1.nextEffect := by
              rw [frame_nextEffect hfr1]
              exact he2lt
            obtain ⟨hwf', htr1, hcur', hruns2⟩ := ih.rec2 e2 es.body st1 r st' h hWc1 he2lt1
            refine ⟨hwf', ?_, fun u hu => (hcur' u hu).trans (frame_currentEffect hfr1)⟩
            obtain ⟨htrR, htrD, htrT, htrN, htrX⟩ := htr1
            obtain ⟨dd, hdd⟩ := htrD
            obtain ⟨dt, hdt⟩ := htrT
            obtain ⟨drun, hdrun⟩ := hruns2
            refine ⟨⟨e2 :: drun, by rw [hdrun, frame_runs hfr1]⟩,
              ⟨dd, by rw [hdd, frame_disposals hfr1]⟩,
              ⟨dt, by rw [hdt, frame_treads hfr1]⟩,
              by rw [← frame_nextEffect hfr1]; exact htrN, ?_⟩
            intro e c hre hde
            by_cases hee : e = e2
            · exfalso
              rw [hee, hdrun, List.count_append, frame_runs hfr1] at hre
              have hcnt : List.count e2 (e2 :: drun) = List.count e2 drun + 1 := by
                rw [List.count_cons]
                simp
              omega
            · have hre1 : st'.runs.count e = st1.runs.count e := by
                rw [frame_runs hfr1]
                exact hre
              have hde1 : st'.disposals.count e = st1.disposals.count e := by
                rw [frame_disposals hfr1]
                exact hde
              have hx := htrX e c hre1 hde1
              have hct : countLtot st1 e c = countLtot st e c := hoth1 e c hee
              have htt : st1.treads = st.treads := frame_treads hfr1
              rw [hct, htt] at hx
              exact hx
  rec2 := by
    intro e2 body st1 r st' h hWc he2
    simp only [effC] at h
    have hwf2 : WF { setCleanup st1 e2 [] with
        currentEffect := some e2, runs := st1.runs ++ [e2] } :=
      wf_effEnter (wf_of_wfc_nil hWc) he2
    obtain ⟨x, st5, hp, h2⟩ := effFin_some h
    have h3 := ih.rp body _ x st5 hp hwf2
    have hprev : ∀ y, st1.currentEffect = some y → y < st5.nextEffect := by
      intro y hy
      have h1 := hWc.curOK y hy
      have hb : st1.nextEffect ≤ st5.nextEffect := h3.2.1.2.2.2.1
      omega
    obtain ⟨hwf6, htr6, hcur6⟩ := ih.ref2 st1.currentEffect x st5 r st' h2 h3.1 hprev
    refine ⟨hwf6, Tr_trans (tr_effEnter st1 e2) (Tr_trans h3.2.1 htr6),
      fun u hu => hcur6 u hu, ?_⟩
    obtain ⟨d1, hd1⟩ := h3.2.1.1
    obtain ⟨d2, hd2⟩ := htr6.1
    refine ⟨d1 ++ d2, ?_⟩
    rw [hd2, hd1]
    have hb : ({ setCleanup st1 e2 [] with
        currentEffect := some e2, runs := st1.runs ++ [e2] } : St).runs
        = st1.runs ++ [e2] := rfl
    rw [hb]
    simp
  ref2 := by
    intro prev x st4 r st' h hwf hg
    cases x with
    | error t =>
        simp only [effFin, Option.some.injEq, Prod.mk.injEq] at h
        obtain ⟨rfl, rfl⟩ := h
        exact ⟨hwf, Tr_rfl st4, fun u hu => Except.noConfusion hu⟩
    | ok u =>
        simp only [effFin, Option.some.injEq, Prod.mk.injEq] at h
        obtain ⟨rfl, rfl⟩ := h
        exact ⟨wf_setCur st4 prev hwf hg, tr_setCur st4 prev, fun _ _ => rfl⟩
  rp := by
    intro p st r st' h hI
    cases p with
    | skip =>
        simp only [runProg, Option.some.injEq, Prod.mk.injEq] at h
        obtain ⟨rfl, rfl⟩ := h
        exact ⟨hI, Tr_rfl st, fun _ _ => rfl⟩
    | seq p q =>
        simp only [runProg] at h
        cases hp : runProg f p st with
        | none => rw [hp, seqK_none] at h; exact absurd h (by simp)
        | some pr =>
            obtain ⟨x, st1⟩ := pr
            rw [hp] at h
            have h2 := ih.rp p st x st1 hp hI
            obtain ⟨h3, h3ok⟩ := ih.sk q x st1 r st' h h2.1
            exact WT_comp2 h2 h3 h3ok
    | writeP c e =>
        simp only [runProg] at h
        obtain ⟨hwE, htE, hcE⟩ := wf_tr_evalExpr e st hI
        exact WT_comp htE hcE (ih.pw c (evalExpr e st) r st' h hwE)
    | logP e =>
        simp only [runProg, progL, Option.some.injEq, Prod.mk.injEq] at h
        obtain ⟨rfl, rfl⟩ := h
        obtain ⟨hwE, htE, hcE⟩ := wf_tr_evalExpr e st hI
        obtain ⟨hwL, htL, hcL⟩ := wf_tr_log (evalExpr e st).2 [.effEv (evalExpr e st).1] hwE
        exact ⟨hwL, Tr_trans htE htL, fun _ _ => hcL.trans hcE⟩
    | throwP t =>
        simp only [runProg, Option.some.injEq, Prod.mk.injEq] at h
        obtain ⟨rfl, rfl⟩ := h
        exact ⟨hI, Tr_rfl st, fun u hu => Except.noConfusion hu⟩
    | untrackedP p =>
        simp only [runProg] at h
        have hwN : WF { st with currentEffect := none } :=
          wf_setCur st none hI (fun x hx => by cases hx)
        cases hp : runProg f p { st with currentEffect := none } with
        | none => rw [hp, restK_none] at h; exact absurd h (by simp)
        | some pr =>
            obtain ⟨x, st1⟩ := pr
            rw [hp] at h
            have h2 := ih.rp p _ x st1 hp hwN
            have hgy : ∀ y, st.currentEffect = some y → y < st1.nextEffect := by
              intro y hy
              have h1 := hI.curOK y hy
              have hb : st.nextEffect ≤ st1.nextEffect := h2.2.1.2.2.2.1
              omega
            obtain ⟨hwf3, htr3, hcur3⟩ := ih.rk st.currentEffect x st1 r st' h h2.1 hgy
            exact ⟨hwf3, Tr_trans (tr_setCur st none) (Tr_trans h2.2.1 htr3),
              fun u hu => hcur3 u hu⟩
    | disposeP e3 =>
        simp only [runProg] at h
        exact disp_helper f e3 st r st' h hI
  sk := by
    intro q x st1 r st' h hI
    cases x with
    | error t =>
        simp only [seqK, Option.some.injEq, Prod.mk.injEq] at h
        obtain ⟨rfl, rfl⟩ := h
        exact ⟨⟨hI, Tr_rfl st1, fun u hu => Except.noConfusion hu⟩,
          fun u hu => Except.noConfusion hu⟩
    | ok u =>
        simp only [seqK] at h
        exact ⟨ih.rp q st1 r st' h hI, fun v hv => ⟨u, rfl⟩⟩
  pw := by
    intro c vst r st' h hI
    simp only [progW] at h
    exact ih.wc c vst.1 vst.2 r st' h hI
  rk := by
    intro prev x st1 r st' h hwf hg
    simp only [restK, Option.some.injEq, Prod.mk.injEq] at h
    obtain ⟨rfl, rfl⟩ := h
    exact ⟨wf_setCur st1 prev hwf hg, tr_setCur st1 prev, fun _ _ => rfl⟩
  ro := by
    intro op st r st' h hI hcur
    cases op with
    | newCell v =>
        simp only [runOp, Option.some.injEq, Prod.mk.injEq] at h
        obtain ⟨rfl, rfl⟩ := h
        obtain ⟨hwN, htN⟩ := wf_tr_newCell st v hI
        exact ⟨hwN, htN, fun _ _ => rfl⟩
    | newEffect p =>
        simp only [runOp] at h
        exact nea_wt (fun e2 st0 r0 st0' h0 hI0 => ih.re e2 st0 r0 st0' h0 hI0)
          p st r st' h hI hcur
    | newComputed ex =>
        simp only [runOp] at h
        obtain ⟨hwC, htC⟩ := wf_tr_newCell st V.undef hI
        have hcur1 : ({ st with
            cells := st.cells ++ [(st.nextCell, ({ value := V.undef, listeners := [] } : CellSt))],
            nextCell := st.nextCell + 1 } : St).currentEffect = none := hcur
        have h2 := nea_wt (fun e2 st0 r0 st0' h0 hI0 => ih.re e2 st0 r0 st0' h0 hI0)
          (.writeP st.nextCell ex) _ r st' h hwC hcur1
        exact WT_comp htC rfl h2
    | writeOp c v =>
        simp only [runOp] at h
        exact ih.wc c v st r st' h hI
    | readOp c =>
        simp only [runOp, Option.some.injEq, Prod.mk.injEq] at h
        obtain ⟨rfl, rfl⟩ := h
        obtain ⟨hwT, htT, hcT⟩ := wf_tr_trackedRead c st hI
        exact ⟨hwT, htT, fun _ _ => hcT⟩
    | subscribeOp c =>
        simp only [runOp, Option.some.injEq, Prod.mk.injEq] at h
        obtain ⟨rfl, rfl⟩ := h
        obtain ⟨hwS, htS, hcS⟩ := wf_tr_subscribeCell c st hI
        exact ⟨hwS, htS, fun _ _ => hcS⟩
    | unsubscribeOp c l2 =>
        simp only [runOp, Option.some.injEq, Prod.mk.injEq] at h
        obtain ⟨rfl, rfl⟩ := h
        obtain ⟨hwU, htU, hcU⟩ := wf_tr_unsub st c l2 hI
        exact ⟨hwU, htU, fun _ _ => hcU⟩
    | disposeOp e3 =>
        simp only [runOp] at h
        exact disp_helper f e3 st r st' h hI
    | actionOp p =>
        simp only [runOp] at h
        obtain ⟨hwA, htA, hcA⟩ :=
          wf_tr_ctrl st st.pending (st.writeDepth + 1) st.flushing st.microtask hI
        cases hp : runProg f p { st with writeDepth := st.writeDepth + 1 } with
        | none => rw [hp] at h; simp [actK] at h
        | some pr =>
            obtain ⟨x, st2⟩ := pr
            rw [hp] at h
            have h2 := ih.rp p _ x st2 hp hwA
            obtain ⟨hwf3, htr3, hcur3⟩ :=
              actK_wt (fun st0 r0 st0' h0 hI0 => ih.fp st0 r0 st0' h0 hI0) x st2 r st' h h2.1
            refine ⟨hwf3, Tr_trans htA (Tr_trans h2.2.1 htr3), fun u hu => ?_⟩
            obtain ⟨⟨v, hv⟩, hcc⟩ := hcur3 u hu
            exact (hcc.trans (h2.2.2 v hv)).trans hcA
    | untrackedOp p =>
        simp only [runOp] at h
        have hwN : WF { st with currentEffect := none } :=
          wf_setCur st none hI (fun x hx => by cases hx)
        cases hp : runProg f p { st with currentEffect := none } with
        | none => rw [hp, restK_none] at h; exact absurd h (by simp)
        | some pr =>
            obtain ⟨x, st1⟩ := pr
            rw [hp] at h
            have h2 := ih.rp p _ x st1 hp hwN
            have hgy : ∀ y, st.currentEffect = some y → y < st1.nextEffect := by
              intro y hy
              have h1 := hI.curOK y hy
              have hb : st.nextEffect ≤ st1.nextEffect := h2.2.1.2.2.2.1
              omega
            obtain ⟨hwf3, htr3, hcur3⟩ := ih.rk st.currentEffect x st1 r st' h h2.1 hgy
            exact ⟨hwf3, Tr_trans (tr_setCur st none) (Tr_trans h2.2.1 htr3),
              fun u hu => hcur3 u hu⟩
    | computedCallValOp c v =>
        simp only [runOp, computedCall, Option.some.injEq, Prod.mk.injEq] at h
        obtain ⟨rfl, rfl⟩ := h
        obtain ⟨hwT, htT, hcT⟩ := wf_tr_trackedRead c st hI
        exact ⟨hwT, htT, fun _ _ => hcT⟩
    | computedCallFnOp c =>
        simp only [runOp, computedCall, Option.some.injEq, Prod.mk.injEq] at h
        obtain ⟨rfl, rfl⟩ := h
        obtain ⟨hwS, htS, hcS⟩ := wf_tr_subscribeCell c st hI
        exact ⟨hwS, htS, fun _ _ => hcS⟩
    | tick =>
        simp only [runOp] at h
        cases hm : st.microtask with
        | true =>
            rw [hm] at h
            simp only [tickK] at h
            obtain ⟨hw1, ht1, hc1⟩ :=
              wf_tr_ctrl st st.pending st.writeDepth st.flushing false hI
            exact WT_comp ht1 hc1 (ih.fp _ r st' h hw1)
        | false =>
            rw [hm] at h
            simp only [tickK, Option.some.injEq, Prod.mk.injEq] at h
            obtain ⟨rfl, rfl⟩ := h
            exact ⟨hI, Tr_rfl st, fun _ _ => rfl⟩
  ok2 := by
    intro rest x st1 r st' h hI hcur1
    cases x with
    | error t =>
        simp only [opsK, Option.some.injEq, Prod.mk.injEq] at h
        obtain ⟨rfl, rfl⟩ := h
        exact ⟨⟨hI, Tr_rfl st1, fun u hu => Except.noConfusion hu⟩,
          fun u hu => Except.noConfusion hu⟩
    | ok u =>
        simp only [opsK] at h
        exact ⟨ih.ros rest st1 r st' h hI (hcur1 u rfl), fun v hv => ⟨u, rfl⟩⟩
  ros := by
    intro ops st r st' h hI hcur
    cases ops with
    | nil =>
        simp only [runOps, Option.some.injEq, Prod.mk.injEq] at h
        obtain ⟨rfl, rfl⟩ := h
        exact ⟨hI, Tr_rfl st, fun _ _ => rfl⟩
    | cons op rest =>
        simp only [runOps] at h
        cases hr : runOp f op st with
        | none => rw [hr, opsK_none] at h; exact absurd h (by simp)
        | some pr =>
            obtain ⟨x, st1⟩ := pr
            rw [hr] at h
            have h2 := ih.ro op st x st1 hr hI hcur
            obtain ⟨h3, h3ok⟩ := ih.ok2 rest x st1 r st' h h2.1
              (fun v hv => (h2.2.2 v hv).trans hcur)
            exact WT_comp2 h2 h3 h3ok

theorem wbigAll : ∀ f, WBig f := by
  intro f
  induction f with
  | zero => exact wbig_zero
  | succ g ihg => exact wbigStep g ihg

/-- Well-formedness, the transfer relation, and a clear tracker are
preserved by arbitrary top-level operation sequences. -/
lemma runOps_wf (f : Nat) (ops : List Op) (st : St) (r : Except Nat Unit) (st' : St)
    (h : runOps f ops st = some (r, st')) (hwf : WF st) (hcur : st.currentEffect = none) :
    WF st' ∧ Tr st st' ∧ ∀ u, r = Except.ok u → st'.currentEffect = none := by
  obtain ⟨h1, h2, h3⟩ := (wbigAll f).ros ops st r st' h hwf hcur
  exact ⟨h1, h2, fun u hu => (h3 u hu).trans hcur⟩

lemma lCount_zero_of_big_l (st : St) (e c l : Nat)
    (hlt : ∀ x ∈ allLids st, x < st.nextListener) (hl : st.nextListener ≤ l) :
    lCount st e c l = 0 := by
  unfold lCount
  rw [List.length_eq_zero, List.filter_eq_nil_iff]
  intro q hq hq2
  have hq1 : q.1 = l := by
    have := ((Bool.and_eq_true _ _).mp hq2).1
    simpa using this
  have hmem : q.1 ∈ allLids st := by
    have hq' : q ∈ cellListeners st c := hq
    unfold cellListeners at hq'
    cases hget : alGet? st.cells c with
    | none => rw [hget] at hq'; simp at hq'
    | some cs =>
        rw [hget] at hq'
        simp at hq'
        exact mem_allLids.mpr ⟨(c, cs), alGet?_mem hget, q, hq', rfl⟩
  have := hlt q.1 hmem
  omega

lemma cellListeners_big_c (st : St) (c : Nat)
    (hkeys : st.cells.map (fun p => p.1) = List.range st.nextCell) (hc : st.nextCell ≤ c) :
    cellListeners st c = [] := by
  unfold cellListeners
  have hnone : alGet? st.cells c = none := by
    refine alGet?_none_of_forall fun p hp hpe => ?_
    have : p.1 ∈ st.cells.map (fun q => q.1) := List.mem_map.mpr ⟨p, hp, rfl⟩
    rw [hkeys, hpe] at this
    have := List.mem_range.mp this
    omega
  rw [hnone]
  rfl

lemma cleanupOf_big_e (st : St) (e : Nat)
    (hkeys : st.effects.map (fun p => p.1) = List.range st.nextEffect)
    (he : st.nextEffect ≤ e) : cleanupOf st e = [] := by
  unfold cleanupOf
  have hnone : alGet? st.effects e = none := by
    refine alGet?_none_of_forall fun p hp hpe => ?_
    have : p.1 ∈ st.effects.map (fun q => q.1) := List.mem_map.mpr ⟨p, hp, rfl⟩
    rw [hkeys, hpe] at this
    have := List.mem_range.mp this
    omega
  rw [hnone]
  rfl

lemma pairs_count_zero_of_bound (st : St) (e c l : Nat)
    (hown : ∀ pe ∈ st.effects, ∀ entry ∈ pe.2.cleanup,
      ∃ c0 l0, entry = CEntry.dereg c0 l0 pe.1 ∧ c0 < st.nextCell ∧ l0 < st.nextListener)
    (hbig : st.nextCell ≤ c ∨ st.nextListener ≤ l) :
    (pairsOfCleanup (cleanupOf st e) e).count (c, l) = 0 := by
  rw [List.count_eq_zero]
  intro hmem
  have hent := pairs_mem hmem
  unfold cleanupOf at hent
  cases hget : alGet? st.effects e with
  | none => rw [hget] at hent; simp at hent
  | some es =>
      rw [hget] at hent
      simp at hent
      obtain ⟨c0, l0, he0, hc0, hl0⟩ := hown (e, es) (alGet?_mem hget) _ hent
      have hcc : c = c0 ∧ l = l0 := by
        have h1 := congrArg (fun x => match x with
          | CEntry.dereg a _ _ => a
          | CEntry.child _ => 0) he0
        have h2 := congrArg (fun x => match x with
          | CEntry.dereg _ b _ => b
          | CEntry.child _ => 0) he0
        exact ⟨by simpa using h1, by simpa using h2⟩
      omega

/-- The executable bounded check implies the unbounded invariant. -/
lemma wf_of_wfb (st : St) (h : WFb st = true) : WF st := by
  unfold WFb at h
  simp only [Bool.and_eq_true] at h
  obtain ⟨⟨⟨⟨⟨⟨⟨⟨⟨h1, h2⟩, h3⟩, h4⟩, h5⟩, h6⟩, h7⟩, h8⟩, h9⟩, h10⟩ := h
  have hLt : ∀ l ∈ allLids st, l < st.nextListener := by
    intro l hl
    exact of_decide_eq_true (List.all_eq_true.mp h2 l hl)
  have hck : st.cells.map (fun p => p.1) = List.range st.nextCell := of_decide_eq_true h3
  have hek : st.effects.map (fun p => p.1) = List.range st.nextEffect := of_decide_eq_true h4
  have hTg : ∀ p ∈ st.cells, ∀ q ∈ p.2.listeners, ∀ e, q.2 = LAct.eff e →
      e < st.nextEffect := by
    intro p hp q hq e heq
    have hb := List.all_eq_true.mp (List.all_eq_true.mp h5 p hp) q hq
    rw [heq] at hb
    exact of_decide_eq_true hb
  have hOwn : ∀ pe ∈ st.effects, ∀ entry ∈ pe.2.cleanup,
      ∃ c l, entry = CEntry.dereg c l pe.1 ∧ c < st.nextCell ∧ l < st.nextListener := by
    intro pe hpe entry hent
    have hb := List.all_eq_true.mp (List.all_eq_true.mp h6 pe hpe) entry hent
    cases entry with
    | child en => simp at hb
    | dereg c0 l0 e0 =>
        dsimp only at hb
        obtain ⟨⟨hbe, hbc⟩, hbl⟩ := by simpa only [Bool.and_eq_true] using hb
        have he0 : e0 = pe.1 := by simpa using hbe
        exact ⟨c0, l0, by rw [he0], of_decide_eq_true hbc, of_decide_eq_true hbl⟩
  refine ⟨of_decide_eq_true h1, hLt, hck, hek, hTg, hOwn, ?_, ?_, ?_, ?_⟩
  · intro e c l
    by_cases heB : e < st.nextEffect
    · by_cases hcB : c < st.nextCell
      · by_cases hlB : l < st.nextListener
        · have hb := List.all_eq_true.mp (List.all_eq_true.mp (List.all_eq_true.mp h7
            e (List.mem_range.mpr heB)) c (List.mem_range.mpr hcB)) l (List.mem_range.mpr hlB)
          simpa using hb
        · rw [pairs_count_zero_of_bound st e c l hOwn (Or.inr (by omega)),
            lCount_zero_of_big_l st e c l hLt (by omega)]
      · rw [pairs_count_zero_of_bound st e c l hOwn (Or.inl (by omega))]
        have hcl : cellListeners st c = [] := cellListeners_big_c st c hck (by omega)
        unfold lCount
        rw [hcl]
        rfl
    · rw [cleanupOf_big_e st e hek (by omega)]
      have hz : lCount st e c l = 0 := by
        refine lCount_zero_of_targets st e c l fun p hp q hq x hx => ?_
        have := hTg p hp q hq x hx
        omega
      rw [hz]
      rfl
  · intro e
    by_cases heB : e < st.nextEffect
    · have hb := List.all_eq_true.mp h8 e (List.mem_range.mpr heB)
      simpa using hb
    · have hg : refGet st e = 0 := by
        unfold refGet
        have hnone : alGet? st.refCounts e = none := by
          refine alGet?_none_of_forall fun p hp hpe => ?_
          have := of_decide_eq_true (List.all_eq_true.mp h9 p hp)
          omega
        rw [hnone]
        rfl
      have ht : effTotal st e = 0 := by
        refine effTotal_zero_of_targets st e fun p hp q hq x hx => ?_
        have := hTg p hp q hq x hx
        omega
      rw [hg, ht]
  · intro p hp
    exact of_decide_eq_true (List.all_eq_true.mp h9 p hp)
  · intro e heq
    rw [heq] at h10
    exact of_decide_eq_true h10

lemma wf_initSt : WF initSt := wf_of_wfb initSt (by decide)

/-- Re-running effect 0 from `c7RunSt` yields `c7RunSt2`. -/
lemma c7_run_eval : runEffect 60 0 c7RunSt = some (.ok (), c7RunSt2) := by
  simp only [c7RunSt, c7RunSt2, runOps, opsK, runOp, newEffectAux, runEffect, effD, effC,
    effFin, runProg, seqK, progW, progL, restK, dispK, dispFin, runCleanup, childK,
    writeCell, writeC1, writeC2, writeC3, writeC4, flushPending, flushP, flushLoop,
    flushRun, flushS, flushCont, actK, actFin, actErr, actErrK, tickK,
    evalExpr, trackedRead, notifySnap, notifyStep, scheduleEffect, subscribeCell,
    addListener, removeListener, removeSubListener, updCell, updEff, setCellValue,
    setCleanup, pushCleanup, refInc, refDecDel, refGet, cellValue, cellListeners, cleanupOf,
    alGet?, alSet, alPut, alErase, isFalsy, objectIs, vAdd, vMul, memNat,
    List.find?, List.map, List.filter, List.any, List.all, List.isEmpty,
    Option.map, Option.getD, Option.isSome,
    Nat.reduceAdd, Nat.reduceSub, Nat.reduceMul, Nat.reduceBEq, Nat.reduceBNe,
    Int.reduceAdd, Int.reduceSub, Int.reduceMul, Int.reduceBEq, Int.reduceNeg,
    reduceIte, reduceCtorEq, Nat.reduceEqDiff, Nat.reduceBeqDiff, Nat.reduceBneDiff,
    Nat.reduceGT, Nat.reduceLT, Nat.reduceLeDiff, Bool.and_true, Bool.and_false,
    Bool.true_and, Bool.false_and, Bool.or_true, Bool.or_false, Bool.not_true, Bool.not_false,
    beq_self_eq_true, bne_self_eq_false,
    List.nil_append, List.cons_append, List.append_nil]

/-- Building the C8 scenario from the pristine state yields `c8ScSt`. -/
lemma c8_ops_eval : runOps 60 c8ScOps initSt = some (.ok (), c8ScSt) := by
  simp only [c8ScOps, c8ScSt, initSt, runOps, opsK, runOp, newEffectAux, runEffect, effD, effC,
    effFin, runProg, seqK, progW, progL, restK, dispK, dispFin, runCleanup, childK,
    writeCell, writeC1, writeC2, writeC3, writeC4, flushPending, flushP, flushLoop,
    flushRun, flushS, flushCont, actK, actFin, actErr, actErrK, tickK,
    evalExpr, trackedRead, notifySnap, notifyStep, scheduleEffect, subscribeCell,
    addListener, removeListener, removeSubListener, updCell, updEff, setCellValue,
    setCleanup, pushCleanup, refInc, refDecDel, refGet, cellValue, cellListeners, cleanupOf,
    alGet?, alSet, alPut, alErase, isFalsy, objectIs, vAdd, vMul, memNat,
    List.find?, List.map, List.filter, List.any, List.all, List.isEmpty,
    Option.map, Option.getD, Option.isSome,
    Nat.reduceAdd, Nat.reduceSub, Nat.reduceMul, Nat.reduceBEq, Nat.reduceBNe,
    Int.reduceAdd, Int.reduceSub, Int.reduceMul, Int.reduceBEq, Int.reduceNeg,
    reduceIte, reduceCtorEq, Nat.reduceEqDiff, Nat.reduceBeqDiff, Nat.reduceBneDiff,
    Nat.reduceGT, Nat.reduceLT, Nat.reduceLeDiff, Bool.and_true, Bool.and_false,
    Bool.true_and, Bool.false_and, Bool.or_true, Bool.or_false, Bool.not_true, Bool.not_false,
    beq_self_eq_true, bne_self_eq_false,
    List.nil_append, List.cons_append, List.append_nil]

/-- C7: after a completed, non-reentrant, non-disposing run of an
effect, the node live tracking registrations on each cell are exactly
the tracked reads that run performed on that cell: the registration
count plus the previously recorded tracked reads equals the total
recorded tracked reads.  Stale registrations from earlier runs are
gone, and reads made under `untracked` (which record no tracked read)
contribute no registration. -/
theorem c7_run_retracks_exact_reads (f e : Nat) (st st' : St)
    (h : runEffect f e st = some (.ok (), st')) (hwf : WF st)
    (hone : st'.runs.count e = st.runs.count e + 1)
    (hdisp : st'.disposals.count e = st.disposals.count e) (c : Nat) :
    countLtot st' e c + st.treads.count (e, c) = st'.treads.count (e, c) := by
  cases f with
  | zero => simp [runEffect] at h
  | succ g =>
  simp only [runEffect] at h
  cases g with
  | zero => simp [effD] at h
  | succ g2 =>
  cases hoes : alGet? st.effects e with
  | none =>
      rw [hoes] at h
      simp only [effD, Option.some.injEq, Prod.mk.injEq] at h
      obtain ⟨-, rfl⟩ := h
      omega
  | some es =>
      rw [hoes] at h
      simp only [effD] at h
      have hcl : cleanupOf st e = es.cleanup := by
        unfold cleanupOf
        rw [hoes]
        rfl
      have hwfc0 : WFc st e es.cleanup := by
        rw [← hcl]
        exact wfc_of_wf hwf e
      cases hc : runCleanup g2 es.cleanup st with
      | none => rw [hc, effC_none] at h; exact absurd h (by simp)
      | some st1 =>
      rw [hc] at h
      cases g2 with
      | zero => simp [effC] at h
      | succ g3 =>
      simp only [effC] at h
      obtain ⟨hWc1, hfr1, hoth1⟩ := runCleanup_spec es.cleanup (g3 + 1) st st1 hc hwfc0
      have he2lt : e < st.nextEffect := by
        have hmem : (e, es) ∈ st.effects := alGet?_mem hoes
        have hin : e ∈ st.effects.map (fun q => q.1) := List.mem_map.mpr ⟨(e, es), hmem, rfl⟩
        rw [hwf.effKeys] at hin
        exact List.mem_range.mp hin
      have he2lt1 : e < st1.nextEffect := by
        rw [frame_nextEffect hfr1]
        exact he2lt
      set st2 : St := { setCleanup st1 e [] with
        currentEffect := some e, runs := st1.runs ++ [e] } with hst2
      have hwf2 : WF st2 := wf_effEnter (wf_of_wfc_nil hWc1) he2lt1
      obtain ⟨x, st5, hp, h2⟩ := effFin_some h
      cases g3 with
      | zero => simp [effFin] at h2
      | succ g4 =>
      cases x with
      | error t => simp [effFin] at h2
      | ok u =>
      simp only [effFin, Option.some.injEq, Prod.mk.injEq] at h2
      obtain ⟨-, h2b⟩ := h2
      subst h2b
      have h3 := (wbigAll (g4 + 1)).rp es.body st2 (Except.ok u) st5 hp hwf2
      have htrX := h3.2.1.2.2.2.2
      have hruns2 : st2.runs = st.runs ++ [e] := by
        have h1 : st2.runs = st1.runs ++ [e] := rfl
        rw [h1, frame_runs hfr1]
      have hone5 : st5.runs.count e = st.runs.count e + 1 := hone
      have hgr : st5.runs.count e = st2.runs.count e := by
        rw [hruns2, List.count_append]
        have hs : List.count e [e] = 1 := by simp
        omega
      have hdisp5 : st5.disposals.count e = st.disposals.count e := hdisp
      have hgd : st5.disposals.count e = st2.disposals.count e := by
        have h1 : st2.disposals = st1.disposals := rfl
        rw [h1, frame_disposals hfr1]
        exact hdisp5
      have hx := htrX e c hgr hgd
      have h0 : ∀ l, lCount st1 e c l = 0 := by
        intro l
        have h1 := hWc1.cleanSync e c l
        rw [if_pos rfl] at h1
        have hpz : (pairsOfCleanup [] e).count (c, l) = 0 := rfl
        omega
      have hz1 : countLtot st1 e c = 0 := countLtot_eq_zero_of_lCount st1 e c h0
      have hz2 : countLtot st2 e c = 0 := hz1
      have ht2 : st2.treads = st.treads := by
        have h1 : st2.treads = st1.treads := rfl
        rw [h1, frame_treads hfr1]
      have hcl5 : countLtot { st5 with currentEffect := st1.currentEffect } e c
          = countLtot st5 e c := rfl
      have ht5 : ({ st5 with currentEffect := st1.currentEffect } : St).treads
          = st5.treads := rfl
      rw [hcl5, ht5]
      rw [hz2, ht2] at hx
      omega

/-- C7 witness: the concrete re-run leaves exactly one registration on
the cell read in tracked mode. -/
theorem c7_witness :
    countLtot c7RunSt2 0 0 + c7RunSt.treads.count (0, 0) = c7RunSt2.treads.count (0, 0) :=
  c7_run_retracks_exact_reads 60 0 c7RunSt c7RunSt2 c7_run_eval
    (wf_of_wfb c7RunSt (by decide)) (by decide) (by decide) 0

/-- C8 (amended): the reference-count table entry for every effect node
equals the number of live listener registrations referencing it (not
the number of distinct cells), an invariant preserved by every
top-level operation sequence from any well-formed quiescent state. -/
theorem c8_refcounts_track_registrations (f : Nat) (ops : List Op) (st st' : St)
    (r : Except Nat Unit) (h : runOps f ops st = some (r, st')) (hwf : WF st)
    (hcur : st.currentEffect = none) (e : Nat) :
    refGet st' e = effTotal st' e :=
  ((wbigAll f).ros ops st r st' h hwf hcur).1.refSync e

/-- C8 witness: after the double-read scenario the count is the three
registrations, not the two distinct cells. -/
theorem c8_witness : refGet c8ScSt 0 = effTotal c8ScSt 0 :=
  c8_refcounts_track_registrations 60 c8ScOps initSt c8ScSt (.ok ())
    c8_ops_eval wf_initSt rfl 0

end EffectiveState
